import Mathlib

/-!
# MediaProxy: a verification development

A shallow embedding of the media proxy of `nb100/drpy-plugin`
(`mediaProxy/proxy.go`, `mediaProxy/base/emitter.go`) and theorems about it.

Conventions of the embedding:

* Go `string`s that are inspected rune by rune are `List Char` (`Str`);
* Go `int64` values are `Int`, and every `int64` operation of the downloader
  wraps its result to 64 bits (`wrap64`); `strconv.ParseInt` clamps;
* a Go `map[string][]string` is an association list;
* code that can panic at run time returns `Option` (`none` is the panic);
* the goroutines of a download session are a step function over an explicit
  session state, one step per atomic action of one goroutine, scheduled by a
  list of actions; the steps of different goroutines interleave (sequential
  consistency), and timers may fire whenever the queue they wait on is empty;
* what comes from the Go standard library or from outside the process (the
  pipe behind the emitter, the base64 and JSON decoders, the cache, the clock,
  the probe of the upstream) is a parameter.
-/

namespace MediaProxy

/-! ## Strings and headers -/

/-- A Go string, seen as its sequence of runes. -/
abbrev Str := List Char

/-- A Go `map[string][]string` (`http.Header`): names with their values. -/
abbrev Header := List (Str × List Str)

/-- Go `unicode.IsSpace`: the white space runes that `strings.TrimSpace`
removes. -/
def isSpace (c : Char) : Bool :=
  let n := c.toNat
  n = 0x09 || n = 0x0A || n = 0x0B || n = 0x0C || n = 0x0D || n = 0x20 ||
  n = 0x85 || n = 0xA0 || n = 0x1680 || (0x2000 ≤ n && n ≤ 0x200A) ||
  n = 0x2028 || n = 0x2029 || n = 0x202F || n = 0x205F || n = 0x3000

/-- Go `strings.TrimSpace`: drop leading and trailing white space. -/
def TrimSpace (s : Str) : Str :=
  ((s.dropWhile isSpace).reverse.dropWhile isSpace).reverse

/-- Go `unicode.ToLower` on one rune, as far as a comparison with an ASCII
string can observe it: `A`..`Z` map to `a`..`z`, and the two non-ASCII runes
whose lower case is an ASCII letter (U+0130 to `i`, U+212A to `k`) map to it.
Every other rune has a lower case outside ASCII (or none) and is kept. -/
def toLowerRune (c : Char) : Char :=
  if 'A' ≤ c ∧ c ≤ 'Z' then Char.ofNat (c.toNat + 32)
  else if c.toNat = 0x130 then 'i'
  else if c.toNat = 0x212A then 'k'
  else c

/-- Go `strings.ToLower`. -/
def ToLower (s : Str) : Str := s.map toLowerRune

/-- The four names compared against in `shouldFilterHeaderName`. -/
def filteredNames : List Str :=
  ["host".toList, "http-client-ip".toList, "remote-addr".toList, "accept-encoding".toList]

/-- Source `shouldFilterHeaderName` (proxy.go:824-831). -/
def shouldFilterHeaderName (key : Str) : Bool :=
  if (TrimSpace key).length = 0 then false
  else
    let key := ToLower key
    key = "host".toList || key = "http-client-ip".toList ||
      key = "remote-addr".toList || key = "accept-encoding".toList

/-- The `newHeader` construction of `handleGetMethod` (proxy.go:410-415),
`ProxyWorker` (proxy.go:257-262) and `handleOtherMethod`: copy every entry of
the request header whose name `shouldFilterHeaderName` does not select. -/
def newHeader (h : Header) : Header :=
  h.filter (fun kv => !shouldFilterHeaderName kv.1)

/-! ## The emitter (`base/emitter.go`) -/

/-- A byte of payload. -/
abbrev Byte := UInt8

/-- The errors of package `io` that the emitter returns. -/
inductive IOErr where
  | EOF
  | ErrClosedPipe
  | pipeErr (code : Nat)
  deriving DecidableEq, Repr

/-- The operations of the `io.Pipe` the emitter wraps (Go standard library):
`read` with the length of the destination slice, `write` with the bytes,
and the two `Close` methods of the pipe ends. `P` is the state of the pipe. -/
structure PipeOps (P : Type) where
  read : P → Nat → P × (List Byte × Option IOErr)
  write : P → List Byte → P × (Nat × Option IOErr)
  closeReader : P → P
  closeWriter : P → P

/-- Source `Emitter` (emitter.go:8-13): the pipe (both ends) and the flag. -/
structure Emitter (P : Type) where
  pipe : P
  closed : Bool
  deriving DecidableEq, Repr

/-- Source `NewEmitter`. -/
def NewEmitter {P : Type} (pipe : P) : Emitter P :=
  { pipe := pipe, closed := false }

/-- Source `Emitter.IsClosed`. -/
def Emitter.IsClosed {P : Type} (em : Emitter P) : Bool := em.closed

/-- Source `Emitter.Read`: the bytes read (their number is Go's `n`) and the
error. -/
def Emitter.Read {P : Type} (ops : PipeOps P) (em : Emitter P) (len : Nat) :
    Emitter P × (List Byte × Option IOErr) :=
  if em.closed then (em, ([], some IOErr.EOF))
  else
    let r := ops.read em.pipe len
    ({ em with pipe := r.1 }, r.2)

/-- Source `Emitter.Write`. -/
def Emitter.Write {P : Type} (ops : PipeOps P) (em : Emitter P) (b : List Byte) :
    Emitter P × (Nat × Option IOErr) :=
  if em.closed then (em, (0, some IOErr.ErrClosedPipe))
  else
    let r := ops.write em.pipe b
    ({ em with pipe := r.1 }, r.2)

/-- Source `Emitter.WriteString`: `em.Write([]byte(s))`. -/
def Emitter.WriteString {P : Type} (ops : PipeOps P) (em : Emitter P) (s : String) :
    Emitter P × (Nat × Option IOErr) :=
  Emitter.Write ops em s.toUTF8.toList

/-- Source `Emitter.Close`: the new state and the returned error (always
`nil`). -/
def Emitter.Close {P : Type} (ops : PipeOps P) (em : Emitter P) :
    Emitter P × Option IOErr :=
  if em.closed then (em, none)
  else ({ pipe := ops.closeWriter (ops.closeReader em.pipe), closed := true }, none)

/-- Calling `Close` `n` times in a row: the final state and the `n` returned
errors. -/
def Emitter.closeTimes {P : Type} (ops : PipeOps P) : Nat → Emitter P → Emitter P × List (Option IOErr)
  | 0, em => (em, [])
  | n + 1, em =>
    let r := Emitter.Close ops em
    let rest := Emitter.closeTimes ops n r.1
    (rest.1, r.2 :: rest.2)

/-- A call of one of the emitter's methods. -/
inductive EmitterCall where
  | read (len : Nat)
  | write (b : List Byte)
  | writeString (s : String)
  | close
  | isClosed

/-- The state of the emitter after a call. -/
def Emitter.call {P : Type} (ops : PipeOps P) (em : Emitter P) : EmitterCall → Emitter P
  | .read len => (Emitter.Read ops em len).1
  | .write b => (Emitter.Write ops em b).1
  | .writeString s => (Emitter.WriteString ops em s).1
  | .close => (Emitter.Close ops em).1
  | .isClosed => em

/-- What was done to a pipe: used as the state of `logPipe`. -/
inductive PipeEvent where
  | read (len : Nat)
  | write (b : List Byte)
  | closeReader
  | closeWriter
  deriving DecidableEq, Repr

/-- A pipe that records the operations performed on it. -/
def logPipe : PipeOps (List PipeEvent) where
  read := fun p len => (p ++ [PipeEvent.read len], ([], none))
  write := fun p b => (p ++ [PipeEvent.write b], (b.length, none))
  closeReader := fun p => p ++ [PipeEvent.closeReader]
  closeWriter := fun p => p ++ [PipeEvent.closeWriter]

/-! ## The segmented downloader (proxy.go:41-319)

The goroutines of one download session (the workers running `ProxyWorker`,
and `ConcurrentDownload` with its calls of `ProxyRead` and `ProxyStop`) are
embedded as a step function on an explicit state: every goroutine has a
program counter, and one step performs one atomic action of one goroutine (a
test of `ProxyRunning`, the critical section of the planner, a channel
operation, the arrival of an upstream reply, ...). Timers and the replies of the
upstream are chosen by the schedule. -/

/-- Go `int64` arithmetic: a result wrapped to 64 bits, two's complement. -/
def wrap64 (x : Int) : Int :=
  (x + 9223372036854775808) % 18446744073709551616 - 9223372036854775808

/-- Go `a / b` on `int64`: division truncated toward zero; a run-time panic
(`none`) when `b` is 0. -/
def divInt64 (a b : Int) : Option Int :=
  if b = 0 then none else some (wrap64 (Int.tdiv a b))

/-- Source `Chunk` (proxy.go:41-45); a nil `buffer` is the empty list. -/
structure Chunk where
  startOffset : Int
  endOffset : Int
  buffer : List Byte
  deriving DecidableEq, Repr

/-- Source `newChunk`. -/
def newChunk (start : Int) (stop : Int) : Chunk :=
  { startOffset := start, endOffset := stop, buffer := [] }

/-- Source `Chunk.get`. -/
def Chunk.get (ch : Chunk) : List Byte := ch.buffer

/-- Source `Chunk.put`. -/
def Chunk.put (ch : Chunk) (buffer : List Byte) : Chunk := { ch with buffer := buffer }

/-- Source `ProxyDownloadStruct` (proxy.go:62-77), without the mutex (the
critical section is one step), the URL and the cookie jar. `ReadyChunkQueue`
is the content of the channel, oldest first: a `*Chunk` is the index of the
chunk in the list of allocated chunks. The capacity of the channel is
`MaxBufferedChunk`. -/
structure ProxyDownloadStruct where
  ProxyRunning : Bool
  NextChunkStartOffset : Int
  CurrentOffset : Int
  CurrentChunk : Int
  ChunkSize : Int
  MaxBufferedChunk : Int
  startOffset : Int
  EndOffset : Int
  ProxyTimeout : Int
  ReadyChunkQueue : List Nat
  ThreadCount : Int
  deriving DecidableEq, Repr

/-- Source `newProxyDownloadStruct` (proxy.go:79-95); `make(chan *Chunk, n)`
panics (`none`) for a negative `n`. -/
def newProxyDownloadStruct (proxyTimeout maxBuferredChunk chunkSize startOffset endOffset
    numTasks : Int) : Option ProxyDownloadStruct :=
  if maxBuferredChunk < 0 then none
  else some
    { ProxyRunning := true
      MaxBufferedChunk := maxBuferredChunk
      ProxyTimeout := proxyTimeout
      ReadyChunkQueue := []
      ChunkSize := chunkSize
      NextChunkStartOffset := startOffset
      CurrentOffset := startOffset
      CurrentChunk := 0
      startOffset := startOffset
      EndOffset := endOffset
      ThreadCount := numTasks }

/-- Where a worker goroutine stands in `ProxyWorker` (proxy.go:206-313). -/
inductive WorkerPC where
  /-- line 208: about to test `ProxyRunning` at the top of the outer loop -/
  | loopTop
  /-- line 212: about to run the critical section of the planner -/
  | plan
  /-- line 235: about to test `ProxyRunning` in the back-pressure loop -/
  | bpTop (chunk : Nat)
  /-- line 239: about to compare the remaining size with the buffer size -/
  | bpCheck (chunk : Nat)
  /-- line 252: about to test `ProxyRunning` and to send the request -/
  | fetchTop (chunk : Nat)
  /-- lines 272-279: attempt number `retry` of `maxRetries` is in flight -/
  | fetching (chunk : Nat) (retry maxRetries : Nat)
  /-- line 193: entering `ProxyStop` -/
  | stop
  /-- lines 195-203: in the drain loop of `ProxyStop` -/
  | drain
  /-- the goroutine has returned -/
  | done
  /-- the goroutine has hit a run-time panic -/
  | panicked
  deriving DecidableEq, Repr

/-- What `ConcurrentDownload` does once a call of `ProxyStop` returns. -/
inductive AfterStop where
  /-- `ProxyStop` was called in `ProxyRead`, which then returns nil -/
  | returnNil
  /-- `ProxyStop` was called in the loop of `ConcurrentDownload`, which then
  returns and runs its deferred function -/
  | runDeferred
  /-- `ProxyStop` was called in the deferred function, before `emitter.Close()` -/
  | closeEmitter
  deriving DecidableEq, Repr

/-- Where the goroutine of `ConcurrentDownload` stands (proxy.go:128-204). -/
inductive ReaderPC where
  /-- line 159: entering `ProxyRead` -/
  | readTop
  /-- line 166: in the `select` of `ProxyRead` -/
  | recv
  /-- line 176: about to test `ProxyRunning` in the wait loop -/
  | waitTop (chunk : Nat)
  /-- line 179: about to look at the buffer of the chunk -/
  | waitGet (chunk : Nat)
  /-- line 131: `ProxyRead` has returned an empty buffer -/
  | gotNil
  /-- line 138: about to write the buffer to the emitter -/
  | write (buffer : List Byte)
  /-- line 147: about to compare `CurrentOffset` with `rangeEnd` -/
  | checkDone
  /-- line 193: entering `ProxyStop` -/
  | stop (next : AfterStop)
  /-- lines 195-203: in the drain loop of `ProxyStop` -/
  | drain (next : AfterStop)
  /-- line 122: running the deferred function -/
  | deferred
  /-- line 124: about to close the emitter -/
  | closeEmitter
  /-- `ConcurrentDownload` has returned -/
  | exited
  deriving DecidableEq, Repr

/-- The pipe behind the emitter of a session, seen from the writing side: its
state is the list of buffers handed to the pump so far. -/
def sinkPipe : PipeOps (List (List Byte)) where
  read := fun p _ => (p, ([], none))
  write := fun p b => (p ++ [b], (b.length, none))
  closeReader := fun p => p
  closeWriter := fun p => p

/-- The state of a download session: the shared structure, the chunks
allocated so far, the program counters, `rangeEnd` of `ConcurrentDownload`,
the emitter, and (a ghost field) the chunks whose buffer `ProxyRead` has
returned. -/
structure Session where
  p : ProxyDownloadStruct
  chunks : List Chunk
  workers : List WorkerPC
  reader : ReaderPC
  rangeEnd : Int
  emitter : Emitter (List (List Byte))
  consumed : List Nat
  deriving DecidableEq, Repr

/-- The reply of the upstream to one segment request. -/
inductive FetchReply where
  /-- the request failed (`err != nil`) -/
  | transportError
  /-- a response whose status does not start with `20` -/
  | badStatus
  /-- a `20x` response with its body (`none`: `resp.Body()` is nil) -/
  | ok (body : Option (List Byte))
  deriving DecidableEq, Repr

/-- Go `len(p.ReadyChunkQueue)`: always 0 for an unbuffered channel. -/
def chanLen (p : ProxyDownloadStruct) : Int :=
  if p.MaxBufferedChunk = 0 then 0 else (p.ReadyChunkQueue.length : Int)

/-- Source `GetRemainingSize` (proxy.go:315-319). -/
def GetRemainingSize (p : ProxyDownloadStruct) (bufferSize : Int) : Int :=
  wrap64 (chanLen p * bufferSize)

/-- Some goroutine is blocked in a receive on `ReadyChunkQueue`. -/
def receiverWaiting (s : Session) : Bool :=
  (match s.reader with
    | .recv => true
    | .drain _ => true
    | _ => false) || s.workers.any (fun pc => pc == WorkerPC.drain)

/-- The send `p.ReadyChunkQueue <- chunk` can proceed: there is room in the
buffer of the channel, or the channel is unbuffered and a receiver waits. -/
def canSend (s : Session) : Bool :=
  decide ((s.p.ReadyChunkQueue.length : Int) < s.p.MaxBufferedChunk) ||
    (decide (s.p.MaxBufferedChunk = 0) && s.p.ReadyChunkQueue.isEmpty && receiverWaiting s)

/-- The retry limit of `ProxyWorker` (proxy.go:264-267); `none` is the panic of
an integer division by zero. -/
def maxRetries (startOffset EndOffset : Int) : Option Nat :=
  if startOffset < 1048576 then some 7
  else
    match divInt64 (wrap64 (EndOffset - startOffset)) EndOffset with
    | none => none
    | some q => if wrap64 (q * 1000) < 2 then some 7 else some 5

/-- Go `buffer := make([]byte, n); copy(buffer, body)`. -/
def copyInto (n : Nat) (body : List Byte) : List Byte :=
  (body ++ List.replicate n 0).take n

/-- Set the program counter of worker `i`. -/
def Session.setWorker (s : Session) (i : Nat) (pc : WorkerPC) : Session :=
  { s with workers := s.workers.set i pc }

/-- The receive of `ProxyStop` (proxy.go:197-199): take the oldest chunk off the
queue and drop its buffer; `none` when the queue is empty. -/
def drainOne (s : Session) : Option Session :=
  match s.p.ReadyChunkQueue with
  | [] => none
  | c :: q =>
    match s.chunks[c]? with
    | none => none
    | some ch =>
      some { s with p := { s.p with ReadyChunkQueue := q }, chunks := s.chunks.set c (ch.put []) }

/-- One step of worker `i` in `ProxyWorker` (proxy.go:206-313) that needs
nothing from outside; `none` when the worker cannot move (it is blocked in the
send, waits for a reply, waits in the drain loop with an empty queue, or has
ended). -/
def ProxyWorker (s : Session) (i : Nat) : Option Session :=
  match s.workers[i]? with
  | none => none
  | some .loopTop =>
    some (s.setWorker i (if s.p.ProxyRunning then .plan else .done))
  | some .plan =>
    let startOffset := s.p.NextChunkStartOffset
    let p1 := { s.p with NextChunkStartOffset := wrap64 (s.p.NextChunkStartOffset + s.p.ChunkSize) }
    if startOffset ≤ s.p.EndOffset then
      if canSend s then
        let endOffset := wrap64 (startOffset + s.p.ChunkSize - 1)
        let endOffset := if endOffset > s.p.EndOffset then s.p.EndOffset else endOffset
        let c := s.chunks.length
        some (Session.setWorker
          { s with
            p := { p1 with ReadyChunkQueue := p1.ReadyChunkQueue ++ [c] }
            chunks := s.chunks ++ [newChunk startOffset endOffset] } i (.bpTop c))
      else none
    else some (Session.setWorker { s with p := p1 } i .done)
  | some (.bpTop c) =>
    some (s.setWorker i (if s.p.ProxyRunning then .bpCheck c else .fetchTop c))
  | some (.bpCheck c) =>
    let remainingSize := GetRemainingSize s.p s.p.ChunkSize
    let maxBufferSize := wrap64 (s.p.ChunkSize * s.p.MaxBufferedChunk)
    some (s.setWorker i (if remainingSize ≥ maxBufferSize then .bpTop c else .fetchTop c))
  | some (.fetchTop c) =>
    if s.p.ProxyRunning then
      match s.chunks[c]? with
      | none => none
      | some ch =>
        match maxRetries ch.startOffset s.p.EndOffset with
        | none => some (s.setWorker i .panicked)
        | some m => some (s.setWorker i (.fetching c 0 m))
    else some (s.setWorker i .loopTop)
  | some (.fetching _ _ _) => none
  | some .stop =>
    some (Session.setWorker { s with p := { s.p with ProxyRunning := false } } i .drain)
  | some .drain =>
    match drainOne s with
    | none => none
    | some s1 => some (s1.setWorker i .drain)
  | some .done => none
  | some .panicked => none

/-- The reply `r` to the request of worker `i` arrives (proxy.go:281-309). -/
def fetchReply (s : Session) (i : Nat) (r : FetchReply) : Option Session :=
  match s.workers[i]? with
  | some (.fetching c retry m) =>
    match r with
    | .transportError =>
      some (s.setWorker i (if retry + 1 < m then .fetching c (retry + 1) m else .stop))
    | .badStatus => some (s.setWorker i .stop)
    | .ok none => some (s.setWorker i .loopTop)
    | .ok (some body) =>
      match s.chunks[c]? with
      | none => none
      | some ch =>
        let n := wrap64 (ch.endOffset - ch.startOffset + 1)
        if n < 0 then some (s.setWorker i .panicked)
        else
          some (Session.setWorker
            { s with chunks := s.chunks.set c (ch.put (copyInto n.toNat body)) } i .loopTop)
  | _ => none

/-- The one-second timer of `ProxyStop` fires for worker `i` (proxy.go:200):
`ProxyStop` and, after it, `ProxyWorker` return. -/
def workerTimeout (s : Session) (i : Nat) : Option Session :=
  match s.workers[i]? with
  | some .drain => if s.p.ReadyChunkQueue.isEmpty then some (s.setWorker i .done) else none
  | _ => none

/-- One step of the goroutine of `ConcurrentDownload` (proxy.go:122-204, with
`ProxyRead` and `ProxyStop` inlined) that needs no timer; `none` when it
cannot move. -/
def readerStep (s : Session) : Option Session :=
  match s.reader with
  | .readTop =>
    if s.p.CurrentOffset > s.p.EndOffset then some { s with reader := .stop .returnNil }
    else some { s with reader := .recv }
  | .recv =>
    match s.p.ReadyChunkQueue with
    | [] => none
    | c :: q => some { s with p := { s.p with ReadyChunkQueue := q }, reader := .waitTop c }
  | .waitTop c =>
    if s.p.ProxyRunning then some { s with reader := .waitGet c }
    else some { s with reader := .gotNil }
  | .waitGet c =>
    match s.chunks[c]? with
    | none => none
    | some ch =>
      let buffer := ch.get
      if buffer.length > 0 then
        some { s with
          p := { s.p with CurrentOffset := wrap64 (s.p.CurrentOffset + (buffer.length : Int)) }
          consumed := s.consumed ++ [c]
          reader := .write buffer }
      else some { s with reader := .waitTop c }
  | .gotNil => some { s with reader := .stop .runDeferred }
  | .write buffer =>
    let r := Emitter.Write sinkPipe s.emitter buffer
    match r.2.2 with
    | some _ => some { s with emitter := r.1, reader := .stop .runDeferred }
    | none => some { s with emitter := r.1, reader := .checkDone }
  | .checkDone =>
    if s.p.CurrentOffset ≥ s.rangeEnd then some { s with reader := .stop .runDeferred }
    else some { s with reader := .readTop }
  | .stop next =>
    some { s with p := { s.p with ProxyRunning := false }, reader := .drain next }
  | .drain next =>
    match drainOne s with
    | none => none
    | some s1 => some { s1 with reader := .drain next }
  | .deferred => some { s with reader := .stop .closeEmitter }
  | .closeEmitter =>
    some { s with emitter := (Emitter.Close sinkPipe s.emitter).1, reader := .exited }
  | .exited => none

/-- A timer of the goroutine of `ConcurrentDownload` fires: the `ProxyTimeout`
of `ProxyRead` (proxy.go:169) or the one second of `ProxyStop` (proxy.go:200).
A timer can only fire while the queue is empty. -/
def readerTimeout (s : Session) : Option Session :=
  match s.reader with
  | .recv =>
    if s.p.ReadyChunkQueue.isEmpty then some { s with reader := .stop .returnNil } else none
  | .drain next =>
    if s.p.ReadyChunkQueue.isEmpty then
      some { s with reader :=
        match next with
        | .returnNil => .gotNil
        | .runDeferred => .deferred
        | .closeEmitter => .closeEmitter }
    else none
  | _ => none

/-- The actions of a session. -/
inductive Action where
  /-- worker `i` performs its next step -/
  | worker (i : Nat)
  /-- the reply to the request of worker `i` arrives -/
  | fetchReply (i : Nat) (r : FetchReply)
  /-- the timer of `ProxyStop` fires for worker `i` -/
  | workerTimeout (i : Nat)
  /-- the goroutine of `ConcurrentDownload` performs its next step -/
  | reader
  /-- a timer of the goroutine of `ConcurrentDownload` fires -/
  | readerTimeout
  /-- `handleGetMethod` closes the emitter (its deferred function, after the
  copy to the client has ended) -/
  | clientClose
  deriving DecidableEq, Repr

/-- One step of the session; `none` when the action is not enabled. -/
def step (s : Session) : Action → Option Session
  | .worker i => ProxyWorker s i
  | .fetchReply i r => fetchReply s i r
  | .workerTimeout i => workerTimeout s i
  | .reader => readerStep s
  | .readerTimeout => readerTimeout s
  | .clientClose => some { s with emitter := (Emitter.Close sinkPipe s.emitter).1 }

/-- Run a schedule; `none` when one of its actions is not enabled. -/
def run (s : Session) : List Action → Option Session
  | [] => some s
  | a :: rest =>
    match step s a with
    | none => none
    | some s1 => run s1 rest

/-- The start of `ConcurrentDownload` (proxy.go:97-120): the session with its
`numSplits` workers, before any of them has moved. `none` is a run-time panic
(division by zero, or a negative channel size). -/
def ConcurrentDownload (rangeStart rangeEnd fileSize splitSize numTasks : Int)
    (emitter : Emitter (List (List Byte))) : Option Session :=
  let _ := fileSize
  let totalLength := wrap64 (rangeEnd - rangeStart + 1)
  match divInt64 totalLength splitSize with
  | none => none
  | some q =>
    let numSplits := wrap64 (q + 1)
    let numSplits := if numSplits > numTasks then numTasks else numSplits
    let proxyTimeout := 10
    match divInt64 (128 * 1024 * 1024) splitSize with
    | none => none
    | some maxChunks =>
      match newProxyDownloadStruct proxyTimeout maxChunks splitSize rangeStart rangeEnd numTasks with
      | none => none
      | some p =>
        some
          { p := p
            chunks := []
            workers := List.replicate numSplits.toNat WorkerPC.loopTop
            reader := ReaderPC.readTop
            rangeEnd := rangeEnd
            emitter := emitter
            consumed := [] }

/-- The bytes the session has written to the emitter so far. -/
def Session.emitted (s : Session) : List Byte := s.emitter.pipe.flatten

/-- The total length of the buffers that workers have put into chunks and that
`ProxyRead` has not returned. -/
def Session.buffered (s : Session) : Nat :=
  ((List.range s.chunks.length).map (fun i =>
    if i ∈ s.consumed then 0
    else match s.chunks[i]? with
      | some ch => ch.buffer.length
      | none => 0)).sum

/-- The bytes `upstream[a..=b]`. -/
def window (upstream : List Byte) (a b : Int) : List Byte :=
  (upstream.drop a.toNat).take (b - a + 1).toNat

/-! ### The invariant of a session -/

/-- What the program counter of a worker guarantees, in a session with `n`
chunks of which `k` have been returned by `ProxyRead`. -/
def WorkerOK (n k : Nat) (running : Bool) (M : Int) : WorkerPC → Prop
  | .bpTop c => c < n
  | .bpCheck c => c < n
  | .fetchTop c => c < n ∧ (running = true → (c : Int) + 1 ≤ k + M)
  | .fetching c _ _ => c < n ∧ (c : Int) + 1 ≤ k + M
  | .drain => running = false
  | _ => True

/-- What the program counter of `ConcurrentDownload` guarantees, with `qlen`
chunks in the queue. -/
def ReaderOK (n k qlen : Nat) (running : Bool) : ReaderPC → Prop
  | .waitTop c => c < n ∧ (running = true → c = k ∧ k + qlen + 1 = n)
  | .waitGet c => c = k ∧ k + qlen < n ∧ (running = true → k + qlen + 1 = n)
  | .drain _ => running = false
  | _ => running = true → k + qlen = n

/-- The parameters of a session: chunk size `cs` (at least 1, an `int64`),
channel capacity `M` with `cs * M` at most 128 MiB. -/
structure Params (cs M : Int) : Prop where
  cs_pos : 1 ≤ cs
  cs_lt : cs < 9223372036854775808
  M_nonneg : 0 ≤ M
  prod_le : cs * M ≤ 134217728

/-- The invariant of a session. -/
structure SessionInv (cs M E : Int) (s : Session) : Prop where
  hcs : s.p.ChunkSize = cs
  hM : s.p.MaxBufferedChunk = M
  hE : s.p.EndOffset = E
  hnext : -9223372036854775808 ≤ s.p.NextChunkStartOffset ∧
    s.p.NextChunkStartOffset < 9223372036854775808
  hqueue : s.p.ReadyChunkQueue =
    List.range' (s.chunks.length - s.p.ReadyChunkQueue.length) s.p.ReadyChunkQueue.length
  hk : s.consumed.length + s.p.ReadyChunkQueue.length ≤ s.chunks.length
  hcap : 1 ≤ M → (s.p.ReadyChunkQueue.length : Int) ≤ M
  hcons : s.consumed = List.range s.consumed.length
  hreader : ReaderOK s.chunks.length s.consumed.length s.p.ReadyChunkQueue.length
    s.p.ProxyRunning s.reader
  hworkers : ∀ pc ∈ s.workers,
    WorkerOK s.chunks.length s.consumed.length s.p.ProxyRunning M pc
  hbuf : ∀ (j : Nat) (ch : Chunk), s.chunks[j]? = some ch → ch.buffer ≠ [] →
    (j : Int) + 1 ≤ s.consumed.length + M
  hlen : ∀ (j : Nat) (ch : Chunk), s.chunks[j]? = some ch →
    (ch.buffer.length : Int) ≤ cs ∧ wrap64 (ch.endOffset - ch.startOffset + 1) ≤ cs

/-! ### The chunks before the last one -/

/-- The goroutine of `ConcurrentDownload` is in `ProxyRead`, before the buffer
of a chunk has been returned. -/
def ReaderPC.reading : ReaderPC → Bool
  | .readTop => true
  | .recv => true
  | .waitTop _ => true
  | .waitGet _ => true
  | _ => false

/-- The number of bytes `ProxyRead` has returned and `ConcurrentDownload` has
not written yet. -/
def ReaderPC.pending : ReaderPC → Nat
  | .write buffer => buffer.length
  | _ => 0

/-- A range `a..E` that is cut into `L` chunks of `cs` bytes and a last chunk
of one byte, with offsets that stay within `int64`. -/
structure TailParams (a E cs : Int) (L : Nat) : Prop where
  cs_pos : 1 ≤ cs
  cs_lt : cs < 9223372036854775808
  L_pos : 1 ≤ L
  a_lo : -9223372036854775808 ≤ a
  E_hi : E + cs < 9223372036854775808
  cut : (L : Int) * cs = E - a

/-- What holds of the chunks before the last one and of the progress of
`ConcurrentDownload`, in a session for such a range. -/
structure DeliveryInv (a E cs : Int) (L : Nat) (s : Session) : Prop where
  hrangeEnd : s.rangeEnd = E
  hnext : s.chunks.length ≤ L → s.p.NextChunkStartOffset = a + (s.chunks.length : Int) * cs
  hchunk : ∀ (j : Nat) (ch : Chunk), s.chunks[j]? = some ch → j < L →
    ch.startOffset = a + (j : Int) * cs ∧ ch.endOffset = a + (j : Int) * cs + cs - 1 ∧
      (ch.buffer = [] ∨ (ch.buffer.length : Int) = cs)
  hk : s.consumed.length ≤ L
  hcur : s.p.CurrentOffset = a + (s.consumed.length : Int) * cs
  hreading : s.reader.reading = true → s.consumed.length < L
  hemit : (s.emitted.length : Int) + (s.reader.pending : Int) ≤ (s.consumed.length : Int) * cs

/-! ## The GET handler (proxy.go:350-671) -/

/-- An ASCII digit, the class `[0-9]` of the regular expressions. -/
def isDigit (c : Char) : Bool := decide ('0' ≤ c ∧ c ≤ '9')

/-- The value of a string of decimal digits. -/
def digitsValue (ds : Str) : Nat :=
  ds.foldl (fun acc c => acc * 10 + (c.toNat - '0'.toNat)) 0

/-- The optional sign in front of a number: whether it is `-`, and the rest. -/
def splitSign : Str → Bool × Str
  | '-' :: r => (true, r)
  | '+' :: r => (false, r)
  | s => (false, s)

/-- Go `strconv.ParseInt(s, 10, 64)` with the error dropped, as at every call
in the source: 0 on a syntax error, the nearest `int64` on overflow. -/
def ParseInt (s : Str) : Int :=
  let signed := splitSign s
  if signed.2.isEmpty || !signed.2.all isDigit then 0
  else
    let v : Int := digitsValue signed.2
    if signed.1 then (if v > 9223372036854775808 then -9223372036854775808 else -v)
    else (if v > 9223372036854775807 then 9223372036854775807 else v)

/-- Go `strconv.FormatInt(i, 10)` and the verb `%d`. -/
def FormatInt (i : Int) : Str :=
  if i < 0 then '-' :: Nat.toDigits 10 i.natAbs else Nat.toDigits 10 i.toNat

/-- Remove `pre` from the front of `s`, if `s` starts with it. -/
def stripLeading : Str → Str → Option Str
  | [], s => some s
  | _ :: _, [] => none
  | a :: pre, b :: s => if a = b then stripLeading pre s else none

/-- A match of `bytes= *([0-9]+) *- *([0-9]*)` at the very start of `s`: the
two groups. Digits, blanks and `-` exclude each other, so the greedy choice is
the only one. -/
def matchRangeHere (s : Str) : Option (Str × Str) :=
  match stripLeading "bytes=".toList s with
  | none => none
  | some r1 =>
    let r2 := r1.dropWhile (fun c => c == ' ')
    let g1 := r2.takeWhile isDigit
    if g1.isEmpty then none
    else
      match (r2.dropWhile isDigit).dropWhile (fun c => c == ' ') with
      | '-' :: r3 => some (g1, (r3.dropWhile (fun c => c == ' ')).takeWhile isDigit)
      | _ => none

/-- Go `rangeRegex.FindStringSubmatch(requestRange)` for the expression of
proxy.go:431: the groups of the leftmost match. -/
def findRange : Str → Option (Str × Str)
  | [] => none
  | c :: cs =>
    match matchRangeHere (c :: cs) with
    | some g => some g
    | none => findRange cs

/-- Lines 428-441 of `handleGetMethod`: `statusCode`, `rangeStart` and
`rangeEnd` from the `Range` header of the request. -/
def parseRange (requestRange : Str) : Int × Int × Int :=
  match findRange requestRange with
  | some g => (206, ParseInt g.1, ParseInt g.2)
  | none => (200, 0, 0)

/-- The group of `/([0-9]+)` at the last `/` of `line` that a digit follows. -/
def lastSlashDigits : Str → Option Str
  | [] => none
  | c :: rest =>
    match lastSlashDigits rest with
    | some d => some d
    | none =>
      if c = '/' ∧ !(rest.takeWhile isDigit).isEmpty then some (rest.takeWhile isDigit) else none

/-- Cut a string at its newlines. -/
def splitLines : Str → List Str
  | [] => [[]]
  | c :: cs =>
    if c = '\n' then [] :: splitLines cs
    else
      match splitLines cs with
      | l :: ls => (c :: l) :: ls
      | [] => [[c]]

/-- Go `regexp.MustCompile(".*/([0-9]+)").FindStringSubmatch(s)`: group 1 of
the leftmost match. `.` does not match a newline, so a match lies within one
line, and the greedy `.*` takes the last `/` of the line a digit follows. -/
def findTotal (s : Str) : Option Str :=
  (splitLines s).findSome? lastSlashDigits

/-- The bytes that `net/textproto` accepts in a header name. -/
def validHeaderFieldByte (c : Char) : Bool :=
  let n := c.toNat
  (48 ≤ n && n ≤ 57) || (65 ≤ n && n ≤ 90) || (97 ≤ n && n ≤ 122) ||
  n = 33 || n = 35 || n = 36 || n = 37 || n = 38 || n = 39 || n = 42 || n = 43 ||
  n = 45 || n = 46 || n = 94 || n = 95 || n = 96 || n = 124 || n = 126

/-- The loop of `canonicalMIMEHeaderKey`: upper case at the start and after a
`-`, lower case elsewhere. -/
def canonicalLoop : Bool → Str → Str
  | _, [] => []
  | upper, c :: cs =>
    let c1 :=
      if upper && decide ('a' ≤ c ∧ c ≤ 'z') then Char.ofNat (c.toNat - 32)
      else if !upper && decide ('A' ≤ c ∧ c ≤ 'Z') then Char.ofNat (c.toNat + 32)
      else c
    c1 :: canonicalLoop (c1 == '-') cs

/-- Go `textproto.CanonicalMIMEHeaderKey`: a name with a byte that is not
allowed in a header name is returned as it is. -/
def CanonicalMIMEHeaderKey (s : Str) : Str :=
  if s.all validHeaderFieldByte then canonicalLoop true s else s

/-- Go map assignment `h[k] = vs`. -/
def mapSet (h : Header) (k : Str) (vs : List Str) : Header :=
  if h.any (fun kv => kv.1 == k) then h.map (fun kv => if kv.1 == k then (k, vs) else kv)
  else h ++ [(k, vs)]

/-- Go `http.Header.Get`: the first value under the canonical form of `key`,
or the empty string. -/
def Header.Get (h : Header) (key : Str) : Str :=
  match h.lookup (CanonicalMIMEHeaderKey key) with
  | some (v :: _) => v
  | _ => []

/-- Go `http.Header.Set`. -/
def Header.Set (h : Header) (key : Str) (value : Str) : Header :=
  mapSet h (CanonicalMIMEHeaderKey key) [value]

/-- Go `unicode.SimpleFold` as far as a comparison with an ASCII string can
observe it: the representative of the fold orbit of a rune (`s` for U+017F,
`k` for U+212A, the lower-case letter for an ASCII letter). -/
def foldRune (c : Char) : Char :=
  if 'A' ≤ c ∧ c ≤ 'Z' then Char.ofNat (c.toNat + 32)
  else if c.toNat = 0x17F then 's'
  else if c.toNat = 0x212A then 'k'
  else c

/-- Go `strings.EqualFold`. -/
def EqualFold (a b : Str) : Bool := a.map foldRune == b.map foldRune

/-- The query parameters (`query.Get`, empty when absent) and the header of a
GET request with a non-empty query. -/
structure Request where
  url : Str
  form : Str
  headers : Str
  auth : Str
  thread : Str
  size : Str
  Header : Header

/-- The arguments of a call of `ConcurrentDownload`. -/
structure DownloadArgs where
  downloadUrl : Str
  rangeStart : Int
  rangeEnd : Int
  fileSize : Int
  splitSize : Int
  numTasks : Int
  deriving DecidableEq, Repr

/-- What the body of a response is made of. -/
inductive Body where
  /-- nothing is written -/
  | empty
  /-- the message of `http.Error` -/
  | errorText
  /-- the body of the probe response, relayed -/
  | relayed
  /-- whatever `ConcurrentDownload` writes to the emitter -/
  | download (args : DownloadArgs)
  deriving DecidableEq, Repr

/-- The answer of `handleGetMethod`: status, response header at the time of
`WriteHeader`, body, and the requests it has sent to the upstream itself. -/
structure Response where
  status : Int
  header : Header
  body : Body
  probes : List (Str × Header)
  deriving DecidableEq, Repr

/-- The result of the probe block of `handleGetMethod` (proxy.go:457-578),
which is not embedded here: the request failed; the upstream answered with a
status outside 200..399; the block hit a run-time panic; or it produced the
normalised response header. -/
inductive ProbeOutcome where
  | transportError
  | badStatus (code : Int)
  | panicked
  | ok (responseHeaders : Header)

/-- What `handleGetMethod` takes from outside: the configured key, the decoders
of the Go standard library (`none`: an error), the content of `mediaCache` for
a URL, the clock, and the probe block. -/
structure World where
  authKey : Str
  base64Decode : Str → Option Str
  jsonUnmarshal : Str → Option (List (Str × Str))
  cacheHeaders : Str → Option Header
  cacheLastModified : Str → Option Int
  now : Int
  probe : Str → Header → ProbeOutcome

/-- Go `http.Error(w, msg, code)`. -/
def httpError (code : Int) (probes : List (Str × Header)) : Response :=
  { status := code
    header := [("Content-Type".toList, ["text/plain; charset=utf-8".toList]),
      ("X-Content-Type-Options".toList, ["nosniff".toList])]
    body := Body.errorText
    probes := probes }

/-- Lines 361-408 of `handleGetMethod`: the check of `auth`, the decoding of
`url` and `headers`, the merge of `headers` into the request header. The
result is the error response, or the URL and the request header. -/
def preflight (w : World) (req : Request) : Except Response (Str × Header) :=
  if req.auth ≠ [] ∧ req.auth ≠ w.authKey then .error (httpError 401 [])
  else if req.url = [] then .error (httpError 400 [])
  else
    match (if req.form = "base64".toList then w.base64Decode req.url else some req.url) with
    | none => .error (httpError 400 [])
    | some url =>
      if req.headers = [] then .ok (url, req.Header)
      else
        match (if req.form = "base64".toList then w.base64Decode req.headers
          else some req.headers) with
        | none => .error (httpError 400 [])
        | some strHeader =>
          match w.jsonUnmarshal strHeader with
          | none => .error (httpError 500 [])
          | some headers =>
            .ok (url, headers.foldl (fun h kv => Header.Set h kv.1 kv.2) req.Header)

/-- Lines 443-578 of `handleGetMethod`: the response header of the upstream,
from the cache when both entries are there and the header is at most 60 s old,
from the probe otherwise; with the requests sent to the upstream. `none` is a
panic. -/
def upstreamHeaders (w : World) (url : Str) (reqHeader : Header) :
    Option (Except Response (Header × List (Str × Header))) :=
  let lastModified : Int := (w.cacheLastModified url).getD 0
  let sent : Header := mapSet (newHeader reqHeader) "Range".toList ["bytes=0-1023".toList]
  match (if wrap64 (w.now - lastModified) > 60 then none else w.cacheHeaders url) with
  | some responseHeaders => some (.ok (responseHeaders, []))
  | none =>
    match w.probe url (newHeader reqHeader) with
    | .transportError => some (.error (httpError 500 [(url, sent)]))
    | .badStatus code => some (.error (httpError code [(url, sent)]))
    | .panicked => none
    | .ok responseHeaders => some (.ok (responseHeaders, [(url, sent)]))

/-- The loops of lines 584-590 and 643-649: the header of the response, copied
from the upstream header. -/
def copyHeaders (responseHeaders : Header) : Header :=
  Header.Set
    (responseHeaders.foldl
      (fun wh kv =>
        if EqualFold (ToLower kv.1) "connection".toList ||
            EqualFold (ToLower kv.1) "proxy-connection".toList then wh
        else Header.Set wh kv.1 (",".toList.intercalate kv.2))
      [])
    "Connection".toList "keep-alive".toList

/-- Lines 598-604: the total size of the upstream resource. -/
def contentSizeOf (responseHeaders : Header) : Int :=
  match findTotal (Header.Get responseHeaders "Content-Range".toList) with
  | some g => ParseInt g
  | none => ParseInt (Header.Get responseHeaders "Content-Length".toList)

/-- Lines 610-629: the number of tasks. -/
def numTasksOf (strThread : Str) (rangeStart rangeEnd contentSize : Int) : Int :=
  if strThread = [] then
    if wrap64 (rangeEnd - rangeStart) > 512 * 1024 * 1024 then
      if contentSize < 1 * 1024 * 1024 * 1024 then 16
      else if contentSize < 4 * 1024 * 1024 * 1024 then 32
      else if contentSize < 16 * 1024 * 1024 * 1024 then 64
      else 64
    else 1
  else
    let numTasks := ParseInt strThread
    if numTasks ≤ 0 then 1 else numTasks

/-- Lines 631-635: the chunk size handed to the downloader. -/
def splitSizeOf (strSplitSize : Str) : Int :=
  if strSplitSize ≠ [] then ParseInt strSplitSize else 128 * 1024

/-- Lines 580-670 of `handleGetMethod`: the response, from the header of the
upstream and the values of lines 428-441. -/
def answer (url : Str) (responseHeaders : Header) (statusCode rangeStart rangeEnd : Int)
    (strThread strSplitSize : Str) (probes : List (Str × Header)) : Response :=
  let acceptRange := Header.Get responseHeaders "Accept-Ranges".toList
  let contentRange := Header.Get responseHeaders "Content-Range".toList
  if contentRange = [] ∧ acceptRange = [] then
    { status := statusCode, header := copyHeaders responseHeaders, body := Body.relayed,
      probes := probes }
  else
    let contentSize := contentSizeOf responseHeaders
    let rangeEnd := if rangeEnd = 0 then wrap64 (contentSize - 1) else rangeEnd
    if rangeStart < contentSize then
      let numTasks := numTasksOf strThread rangeStart rangeEnd contentSize
      let splitSize := splitSizeOf strSplitSize
      let h1 := Header.Set responseHeaders "Content-Range".toList
        ("bytes ".toList ++ FormatInt rangeStart ++ "-".toList ++ FormatInt rangeEnd ++
          "/".toList ++ FormatInt contentSize)
      let h2 := Header.Set h1 "Content-Length".toList
        (FormatInt (wrap64 (rangeEnd - rangeStart + 1)))
      let h3 := Header.Set h2 "Accept-Ranges".toList "bytes".toList
      { status := statusCode, header := copyHeaders h3,
        body := Body.download
          { downloadUrl := url, rangeStart := rangeStart, rangeEnd := rangeEnd,
            fileSize := contentSize, splitSize := splitSize, numTasks := numTasks },
        probes := probes }
    else
      { status := 416,
        header := Header.Set [] "Content-Range".toList ("bytes */".toList ++ FormatInt contentSize),
        body := Body.empty, probes := probes }

/-- Source `handleGetMethod` (proxy.go:350-671); `none` is a panic. -/
def handleGetMethod (w : World) (req : Request) : Option Response :=
  match preflight w req with
  | .error resp => some resp
  | .ok (url, reqHeader) =>
    let r := parseRange (Header.Get reqHeader "Range".toList)
    match upstreamHeaders w url reqHeader with
    | none => none
    | some (.error resp) => some resp
    | some (.ok (responseHeaders, probes)) =>
      some (answer url responseHeaders r.1 r.2.1 r.2.2 req.thread req.size probes)

/-- A world for the examples: the key `drpys`, decoders that accept nothing,
an empty cache, and an upstream that answers the probe with the header
`hdrs`. -/
def exampleWorld (hdrs : Header) : World :=
  { authKey := "drpys".toList
    base64Decode := fun _ => none
    jsonUnmarshal := fun _ => none
    cacheHeaders := fun _ => none
    cacheLastModified := fun _ => none
    now := 1700000000
    probe := fun _ _ => ProbeOutcome.ok hdrs }

/-- The header of a range-capable upstream of 5000 bytes after the probe. -/
def exampleUpstream : Header :=
  [("Content-Range".toList, ["bytes 0-1023/5000".toList]),
   ("Content-Length".toList, ["5000".toList]),
   ("Content-Type".toList, ["video/mp4".toList])]

/-- A GET request for `http://up/v.mp4` with the given `Range` header and
`size` parameter, and nothing else. -/
def exampleRequest (range size : Str) : Request :=
  { url := "http://up/v.mp4".toList, form := [], headers := [], auth := [], thread := [],
    size := size, Header := [("Range".toList, [range])] }

/-! ## The file name of the probe (proxy.go:481-500) -/

/-- Go `strings.Index(s, c)` for a one-byte `c`: the position of the first
`c` in `s`, or -1. (Go counts bytes, this embedding runes: both pick the same
places of `s`.) -/
def Index (s : Str) (c : Char) : Int :=
  if c ∈ s then ((s.takeWhile (fun x => x != c)).length : Int) else -1

/-- Go `strings.LastIndex(s, c)` for a one-byte `c`: the position of the last
`c` in `s`, or -1. -/
def LastIndex (s : Str) (c : Char) : Int :=
  if c ∈ s then (s.length : Int) - 1 - ((s.reverse.takeWhile (fun x => x != c)).length : Int)
  else -1

/-- Go slice expression `s[lo:]`: a run-time panic (`none`) unless
`0 <= lo <= len(s)`. -/
def sliceFrom (s : Str) (lo : Int) : Option Str :=
  if 0 ≤ lo ∧ lo ≤ s.length then some (s.drop lo.toNat) else none

/-- Go slice expression `s[lo:hi]`: a run-time panic (`none`) unless
`0 <= lo <= hi <= len(s)`. -/
def sliceBetween (s : Str) (lo hi : Int) : Option Str :=
  if 0 ≤ lo ∧ lo ≤ hi ∧ hi ≤ s.length then some ((s.drop lo.toNat).take (hi - lo).toNat)
  else none

/-- Lines 489-499 of `handleGetMethod`: the file name taken from the URL, the
branch of a probe response without `Content-Disposition`. `none` is the panic
of a slice out of range. -/
def fileNameFromUrl (url : Str) : Option Str :=
  let lastSlashIndex := LastIndex url '/'
  let queryIndex := Index url '?'
  if queryIndex = -1 then sliceFrom url (lastSlashIndex + 1)
  else sliceBetween url (lastSlashIndex + 1) queryIndex

/-- The part of `s` after its last `c` (all of `s` when there is none). -/
def afterLast (c : Char) (s : Str) : Str :=
  (s.reverse.takeWhile (fun x => x != c)).reverse

/-- The file name as the specification words it: the part of the URL after its
last `/`, cut at the first `?`. -/
def fileNameSpec (url : Str) : Str :=
  (afterLast '/' url).takeWhile (fun x => x != '?')

/-! ## The number of chunks of a range -/

/-- The ceiling of `n / d` for positive `d`: `⌈n / d⌉`. -/
def ceilDiv (n d : Int) : Int := (n + d - 1) / d

/-! ### The chunks the planner allocates -/

/-- The offsets of the chunks allocated so far, in the order of allocation
(which is the order of the sends to `ReadyChunkQueue`: the critical section of
the planner allocates a chunk and sends it). -/
def Session.planned (s : Session) : List (Int × Int) :=
  s.chunks.map (fun ch => (ch.startOffset, ch.endOffset))

/-- The number of workers that have not returned. -/
def live (ws : List WorkerPC) : Nat :=
  ws.countP (fun pc => pc != WorkerPC.done)

/-- The number of chunks of `cs` bytes there are to plan for the range
`a..E`. -/
def chunkCount (a E cs : Int) : Nat := (ceilDiv (E - a + 1) cs).toNat

/-- A range `a..E` and a chunk size `cs` for `W` workers, with offsets that
stay within `int64`. -/
structure PlanParams (a E cs : Int) (W : Nat) : Prop where
  a_nonneg : 0 ≤ a
  a_le : a ≤ E
  cs_pos : 1 ≤ cs
  no_wrap : E + ((W : Int) + 1) * cs < 9223372036854775808

/-- What holds of the planner in a session for the range `a..E` started with
`W` workers: `NextChunkStartOffset` is `m` chunk sizes after `a`, where `m` is
the number of critical sections run so far; the first `chunkCount` of them
have allocated a chunk each, and each later one has ended a worker. -/
structure PlanInv (a E cs : Int) (W : Nat) (s : Session) : Prop where
  hcs : s.p.ChunkSize = cs
  hE : s.p.EndOffset = E
  hplan : ∃ m : Nat, s.p.NextChunkStartOffset = a + (m : Int) * cs ∧
    s.planned.length = min m (chunkCount a E cs) ∧
    max m (chunkCount a E cs) + live s.workers ≤ chunkCount a E cs + W
  hchunk : ∀ (j : Nat) (x y : Int), s.planned[j]? = some (x, y) →
    x = a + (j : Int) * cs ∧ y = min (a + (j : Int) * cs + cs - 1) E

/-! ## Schedules and requests of the examples -/

/-- A schedule for one worker, chunk size 2 and the range 0..2 of `upstream`:
the worker plans and fetches the chunk 0..1, `ConcurrentDownload` reads it and
writes it to the emitter, the worker plans and fetches the chunk 2..2, and
`ConcurrentDownload` goes on from its test of `CurrentOffset` to its end. Both
requests are answered with the window asked for. -/
def lostByteSchedule (upstream : List Byte) : List Action :=
  [ .worker 0, .worker 0, .worker 0, .worker 0, .worker 0,
    .fetchReply 0 (.ok (some (window upstream 0 1))),
    .reader, .reader, .reader, .reader, .reader,
    .worker 0, .worker 0, .worker 0, .worker 0, .worker 0,
    .fetchReply 0 (.ok (some (window upstream 2 2))),
    .reader, .reader, .reader, .readerTimeout, .reader, .reader, .readerTimeout, .reader,
    .worker 0 ]

/-- The session after `lostByteSchedule [10, 11, 12]`: every goroutine has
ended, the emitter is closed and has received the bytes 10 and 11. -/
def lostByteFinal : Session :=
  { p :=
      { ProxyRunning := false, NextChunkStartOffset := 4, CurrentOffset := 2, CurrentChunk := 0,
        ChunkSize := 2, MaxBufferedChunk := 67108864, startOffset := 0, EndOffset := 2,
        ProxyTimeout := 10, ReadyChunkQueue := [], ThreadCount := 1 }
    chunks :=
      [{ startOffset := 0, endOffset := 1, buffer := [10, 11] },
       { startOffset := 2, endOffset := 2, buffer := [] }]
    workers := [WorkerPC.done]
    reader := ReaderPC.exited
    rangeEnd := 2
    emitter := { pipe := [[10, 11]], closed := true }
    consumed := [0] }

/-- A schedule for one worker, chunk size 2 and the range 0..3 of `upstream`,
like `lostByteSchedule`: the worker plans and fetches the chunk 0..1,
`ConcurrentDownload` reads and writes it, the worker plans and fetches the
chunk 2..3, and `ConcurrentDownload` goes on to its end. -/
def completeSchedule (upstream : List Byte) : List Action :=
  [ .worker 0, .worker 0, .worker 0, .worker 0, .worker 0,
    .fetchReply 0 (.ok (some (window upstream 0 1))),
    .reader, .reader, .reader, .reader, .reader,
    .worker 0, .worker 0, .worker 0, .worker 0, .worker 0,
    .fetchReply 0 (.ok (some (window upstream 2 3))),
    .reader, .reader, .reader, .reader, .reader, .reader, .reader,
    .reader, .readerTimeout, .reader, .reader, .readerTimeout, .reader,
    .worker 0 ]

/-- The session after `completeSchedule [10, 11, 12, 13]`. -/
def completeFinal : Session :=
  { p :=
      { ProxyRunning := false, NextChunkStartOffset := 4, CurrentOffset := 4, CurrentChunk := 0,
        ChunkSize := 2, MaxBufferedChunk := 67108864, startOffset := 0, EndOffset := 3,
        ProxyTimeout := 10, ReadyChunkQueue := [], ThreadCount := 1 }
    chunks :=
      [{ startOffset := 0, endOffset := 1, buffer := [10, 11] },
       { startOffset := 2, endOffset := 3, buffer := [12, 13] }]
    workers := [WorkerPC.done]
    reader := ReaderPC.exited
    rangeEnd := 3
    emitter := { pipe := [[10, 11], [12, 13]], closed := true }
    consumed := [0, 1] }

/-- A schedule for one worker, chunk size 2 and the range 0..2: the worker
plans and fetches both chunks before `ConcurrentDownload` moves. -/
def bufferingSchedule : List Action :=
  [ .worker 0, .worker 0, .worker 0, .worker 0, .worker 0,
    .fetchReply 0 (.ok (some [10, 11])),
    .worker 0, .worker 0, .worker 0, .worker 0, .worker 0,
    .fetchReply 0 (.ok (some [12])) ]

/-- The session `ConcurrentDownload 0 2 3 2 1` starts with. -/
def exampleSession : Session :=
  { p :=
      { ProxyRunning := true, NextChunkStartOffset := 0, CurrentOffset := 0, CurrentChunk := 0,
        ChunkSize := 2, MaxBufferedChunk := 67108864, startOffset := 0, EndOffset := 2,
        ProxyTimeout := 10, ReadyChunkQueue := [], ThreadCount := 1 }
    chunks := []
    workers := [WorkerPC.loopTop]
    reader := ReaderPC.readTop
    rangeEnd := 2
    emitter := NewEmitter []
    consumed := [] }

/-- The session after `bufferingSchedule`. -/
def exampleBuffering : Session :=
  { p :=
      { ProxyRunning := true, NextChunkStartOffset := 4, CurrentOffset := 0, CurrentChunk := 0,
        ChunkSize := 2, MaxBufferedChunk := 67108864, startOffset := 0, EndOffset := 2,
        ProxyTimeout := 10, ReadyChunkQueue := [0, 1], ThreadCount := 1 }
    chunks :=
      [{ startOffset := 0, endOffset := 1, buffer := [10, 11] },
       { startOffset := 2, endOffset := 2, buffer := [12] }]
    workers := [WorkerPC.loopTop]
    reader := ReaderPC.readTop
    rangeEnd := 2
    emitter := NewEmitter []
    consumed := [] }

/-- The session `ConcurrentDownload 0 3 4 2 3` starts with: three workers. -/
def exampleSessionThree : Session :=
  { p :=
      { ProxyRunning := true, NextChunkStartOffset := 0, CurrentOffset := 0, CurrentChunk := 0,
        ChunkSize := 2, MaxBufferedChunk := 67108864, startOffset := 0, EndOffset := 3,
        ProxyTimeout := 10, ReadyChunkQueue := [], ThreadCount := 3 }
    chunks := []
    workers := [WorkerPC.loopTop, WorkerPC.loopTop, WorkerPC.loopTop]
    reader := ReaderPC.readTop
    rangeEnd := 3
    emitter := NewEmitter []
    consumed := [] }

/-! ## Theorems -/

/-! ### The invariant of a session is kept by every step -/

theorem workerOK_mono {n k n1 k1 : Nat} {running running1 : Bool} {M : Int} {pc : WorkerPC}
    (h : WorkerOK n k running M pc) (hn : n ≤ n1) (hk : k ≤ k1)
    (hr : running1 = true → running = true) : WorkerOK n1 k1 running1 M pc := by
  cases pc <;> simp only [WorkerOK] at h ⊢
  · omega
  · omega
  · exact ⟨by omega, fun h1 => by have := h.2 (hr h1); omega⟩
  · exact ⟨by omega, by omega⟩
  · cases running1 <;> simp_all

theorem inv_setWorker {cs M E : Int} {s : Session} (h : SessionInv cs M E s) (i : Nat) (pc1 : WorkerPC)
    (hpc : WorkerOK s.chunks.length s.consumed.length s.p.ProxyRunning M pc1) :
    SessionInv cs M E (s.setWorker i pc1) :=
  { hcs := h.hcs, hM := h.hM, hE := h.hE, hnext := h.hnext, hqueue := h.hqueue, hk := h.hk,
    hcap := h.hcap, hcons := h.hcons, hreader := h.hreader, hbuf := h.hbuf, hlen := h.hlen,
    hworkers := by
      intro pc hmem
      rcases List.mem_or_eq_of_mem_set hmem with h1 | h1
      · exact h.hworkers pc h1
      · rw [h1]; exact hpc }

theorem inv_setReader {cs M E : Int} {s : Session} (h : SessionInv cs M E s) (pc1 : ReaderPC)
    (hpc : ReaderOK s.chunks.length s.consumed.length s.p.ReadyChunkQueue.length
      s.p.ProxyRunning pc1) :
    SessionInv cs M E { s with reader := pc1 } :=
  { hcs := h.hcs, hM := h.hM, hE := h.hE, hnext := h.hnext, hqueue := h.hqueue, hk := h.hk,
    hcap := h.hcap, hcons := h.hcons, hreader := hpc, hbuf := h.hbuf, hlen := h.hlen,
    hworkers := h.hworkers }

theorem inv_setEmitter {cs M E : Int} {s : Session} (h : SessionInv cs M E s)
    (em : Emitter (List (List Byte))) : SessionInv cs M E { s with emitter := em } :=
  { hcs := h.hcs, hM := h.hM, hE := h.hE, hnext := h.hnext, hqueue := h.hqueue, hk := h.hk,
    hcap := h.hcap, hcons := h.hcons, hreader := h.hreader, hbuf := h.hbuf, hlen := h.hlen,
    hworkers := h.hworkers }

theorem readerOK_stopped {n k qlen : Nat} {running : Bool} {pc : ReaderPC}
    (h : ReaderOK n k qlen running pc) : ReaderOK n k qlen false pc := by
  cases pc <;> simp_all [ReaderOK]

theorem inv_stopFlag {cs M E : Int} {s : Session} (h : SessionInv cs M E s) :
    SessionInv cs M E { s with p := { s.p with ProxyRunning := false } } :=
  { hcs := h.hcs, hM := h.hM, hE := h.hE, hnext := h.hnext, hqueue := h.hqueue, hk := h.hk,
    hcap := h.hcap, hcons := h.hcons, hreader := readerOK_stopped h.hreader,
    hbuf := h.hbuf, hlen := h.hlen,
    hworkers := fun pc hmem =>
      workerOK_mono (h.hworkers pc hmem) (le_refl _) (le_refl _) (fun h1 => by cases h1) }

theorem wrap64_id (x : Int) (h1 : -9223372036854775808 ≤ x) (h2 : x < 9223372036854775808) :
    wrap64 x = x := by
  unfold wrap64; omega

theorem wrap64_range (x : Int) :
    -9223372036854775808 ≤ wrap64 x ∧ wrap64 x < 9223372036854775808 := by
  unfold wrap64; omega

/-- The length of a planned chunk is at most the chunk size, in 64-bit
arithmetic too. -/
theorem plan_geometry (start cs E : Int) (hs1 : -9223372036854775808 ≤ start)
    (hs2 : start < 9223372036854775808)
    (hcs : 1 ≤ cs) (hcs2 : cs < 9223372036854775808) (hle : start ≤ E) :
    wrap64 ((if wrap64 (start + cs - 1) > E then E else wrap64 (start + cs - 1)) - start + 1)
      ≤ cs := by
  unfold wrap64
  split <;> omega

theorem readerOK_dequeue {n k qlen : Nat} {pc : ReaderPC}
    (h : ReaderOK n k (qlen + 1) false pc) : ReaderOK n k qlen false pc := by
  cases pc <;> simp_all [ReaderOK]
  omega

theorem readerOK_enqueue {n k qlen : Nat} {running : Bool} {pc : ReaderPC}
    (h : ReaderOK n k qlen running pc) : ReaderOK (n + 1) k (qlen + 1) running pc := by
  cases pc <;> simp only [ReaderOK] at h ⊢
  all_goals first
    | exact h
    | (intro h1; have := h h1; omega)
    | (refine ⟨by omega, fun h1 => ?_⟩; have := h.2 h1; omega)
    | (refine ⟨h.1, by omega, fun h1 => ?_⟩; have := h.2.2 h1; omega)

theorem inv_drainOne {cs M E : Int} {s s1 : Session} (hp : Params cs M)
    (h : SessionInv cs M E s) (hr : s.p.ProxyRunning = false) (hd : drainOne s = some s1) :
    SessionInv cs M E s1 := by
  unfold drainOne at hd
  cases hq : s.p.ReadyChunkQueue with
  | nil => simp [hq] at hd
  | cons c q =>
    cases hc : s.chunks[c]? with
    | none => simp [hq, hc] at hd
    | some ch =>
      simp only [hq, hc, Option.some.injEq] at hd
      subst hd
      have hk := h.hk
      have hqueue := h.hqueue
      have hreader := h.hreader
      have hcap := h.hcap
      rw [hq] at hk hqueue hreader hcap
      simp only [List.length_cons] at hk hqueue hreader hcap
      rw [List.range'_succ] at hqueue
      have hq2 : q = List.range' (s.chunks.length - q.length) q.length := by
        have := (List.cons.inj hqueue).2
        rw [this]
        simp only [List.length_range']
        congr 1
        omega
      rw [hr] at hreader
      exact
        { hcs := h.hcs, hM := h.hM, hE := h.hE, hnext := h.hnext
          hqueue := by simpa [List.length_set] using hq2
          hk := by simp only [List.length_set]; omega
          hcap := fun h1 => by have := hcap h1; push_cast at this; simp only; omega
          hcons := h.hcons
          hreader := by
            simp only [List.length_set, hr]
            exact readerOK_dequeue hreader
          hworkers := by
            simp only [List.length_set]
            exact h.hworkers
          hbuf := by
            intro j ch1 hj hne
            simp only [List.getElem?_set] at hj
            split at hj
            · split at hj
              · simp only [Option.some.injEq] at hj
                subst hj
                exact absurd rfl hne
              · cases hj
            · exact h.hbuf j ch1 hj hne
          hlen := by
            intro j ch1 hj
            simp only [List.getElem?_set] at hj
            split at hj
            · split at hj
              · simp only [Option.some.injEq] at hj
                subst hj
                rename_i hcj _
                subst hcj
                have := (h.hlen c ch hc).2
                have h1 := hp.cs_pos
                exact ⟨by simp [Chunk.put]; omega, by simpa [Chunk.put] using this⟩
              · cases hj
            · exact h.hlen j ch1 hj }

theorem mem_of_getElem?_eq {α : Type} {l : List α} {i : Nat} {a : α} (h : l[i]? = some a) :
    a ∈ l := by
  rw [List.getElem?_eq_some_iff] at h
  obtain ⟨hi, rfl⟩ := h
  exact List.getElem_mem hi

theorem chanLen_mul_lt {cs M : Int} {p : ProxyDownloadStruct} (hp : 1 ≤ cs)
    (hM0 : 0 ≤ M) (hprod : cs * M ≤ 134217728) (hM : p.MaxBufferedChunk = M)
    (hcs : p.ChunkSize = cs) (hcap : 1 ≤ M → (p.ReadyChunkQueue.length : Int) ≤ M)
    (hpass : ¬ (GetRemainingSize p p.ChunkSize ≥ wrap64 (p.ChunkSize * p.MaxBufferedChunk))) :
    1 ≤ M ∧ (p.ReadyChunkQueue.length : Int) < M := by
  rw [hM, hcs] at hpass
  have hmax : wrap64 (cs * M) = cs * M := by
    apply wrap64_id
    · have : 0 ≤ cs * M := Int.mul_nonneg (by omega) hM0
      omega
    · omega
  rw [hmax] at hpass
  unfold GetRemainingSize chanLen at hpass
  try rw [hM] at hpass
  try rw [hcs] at hpass
  by_cases h0 : M = 0
  · exfalso
    apply hpass
    simp [h0, wrap64]
  · have h1 : 1 ≤ M := by omega
    have hq := hcap h1
    simp only [h0, if_false] at hpass
    have hle : (p.ReadyChunkQueue.length : Int) * cs ≤ M * cs :=
      Int.mul_le_mul_of_nonneg_right hq (by omega)
    have hge : 0 ≤ (p.ReadyChunkQueue.length : Int) * cs :=
      Int.mul_nonneg (by omega) (by omega)
    have hcomm : M * cs = cs * M := Int.mul_comm _ _
    rw [wrap64_id _ (by omega) (by omega)] at hpass
    refine ⟨h1, ?_⟩
    by_contra hcon
    have hge2 : M ≤ (p.ReadyChunkQueue.length : Int) := by omega
    have : M * cs ≤ (p.ReadyChunkQueue.length : Int) * cs :=
      Int.mul_le_mul_of_nonneg_right hge2 (by omega)
    apply hpass
    omega

theorem inv_plan {cs M E : Int} {s : Session} (hp : Params cs M)
    (h : SessionInv cs M E s) (i : Nat) (hle : s.p.NextChunkStartOffset ≤ s.p.EndOffset)
    (hsend : canSend s = true) (stop : Int)
    (hstop : stop = (if wrap64 (s.p.NextChunkStartOffset + s.p.ChunkSize - 1) > s.p.EndOffset
      then s.p.EndOffset else wrap64 (s.p.NextChunkStartOffset + s.p.ChunkSize - 1))) :
    SessionInv cs M E (Session.setWorker
      { s with
        p := { s.p with
          NextChunkStartOffset := wrap64 (s.p.NextChunkStartOffset + s.p.ChunkSize)
          ReadyChunkQueue := s.p.ReadyChunkQueue ++ [s.chunks.length] }
        chunks := s.chunks ++ [newChunk s.p.NextChunkStartOffset stop] } i
      (.bpTop s.chunks.length)) := by
  apply inv_setWorker
  · have hk := h.hk
    exact
      { hcs := h.hcs, hM := h.hM, hE := h.hE
        hnext := wrap64_range _
        hqueue := by
          simp only [List.length_append, List.length_singleton]
          rw [List.range'_concat]
          have h1 : s.chunks.length + 1 - (s.p.ReadyChunkQueue.length + 1)
              = s.chunks.length - s.p.ReadyChunkQueue.length := by omega
          rw [h1, ← h.hqueue]
          congr 2
          omega
        hk := by simp only [List.length_append, List.length_singleton]; omega
        hcap := by
          intro h1
          simp only [List.length_append, List.length_singleton]
          unfold canSend at hsend
          rw [h.hM] at hsend
          simp only [Bool.or_eq_true, Bool.and_eq_true, decide_eq_true_eq] at hsend
          push_cast
          omega
        hcons := h.hcons
        hreader := by
          simp only [List.length_append, List.length_singleton]
          exact readerOK_enqueue h.hreader
        hworkers := by
          intro pc hmem
          simp only [List.length_append, List.length_singleton]
          exact workerOK_mono (h.hworkers pc hmem) (by omega) (le_refl _) (fun h1 => h1)
        hbuf := by
          intro j ch hj hne
          simp only [List.getElem?_append] at hj
          split at hj
          · exact h.hbuf j ch hj hne
          · rename_i hjn
            cases hjj : j - s.chunks.length with
            | zero =>
              simp only [hjj, List.getElem?_cons_zero, Option.some.injEq] at hj
              subst hj
              exact absurd rfl hne
            | succ m => simp [hjj] at hj
        hlen := by
          intro j ch hj
          simp only [List.getElem?_append] at hj
          split at hj
          · exact h.hlen j ch hj
          · cases hjj : j - s.chunks.length with
            | zero =>
              simp only [hjj, List.getElem?_cons_zero, Option.some.injEq] at hj
              subst hj
              have hgeo := plan_geometry s.p.NextChunkStartOffset cs E h.hnext.1 h.hnext.2
                hp.cs_pos hp.cs_lt (by rw [← h.hE]; exact hle)
              have h1 := hp.cs_pos
              refine ⟨by simp [newChunk]; omega, ?_⟩
              simp only [newChunk, hstop, h.hcs, h.hE]
              exact hgeo
            | succ m => simp [hjj] at hj }
  · simp [WorkerOK]

theorem inv_ProxyWorker {cs M E : Int} {s s1 : Session} (hp : Params cs M)
    (h : SessionInv cs M E s) (i : Nat) (hstep : ProxyWorker s i = some s1) :
    SessionInv cs M E s1 := by
  unfold ProxyWorker at hstep
  cases hpc : s.workers[i]? with
  | none => simp [hpc] at hstep
  | some pc =>
    have hok := h.hworkers pc (mem_of_getElem?_eq hpc)
    cases pc with
    | loopTop =>
      simp only [hpc, Option.some.injEq] at hstep
      subst hstep
      apply inv_setWorker h
      split <;> simp [WorkerOK]
    | plan =>
      simp only [hpc] at hstep
      split at hstep
      · rename_i hle
        split at hstep
        · rename_i hsend
          simp only [Option.some.injEq] at hstep
          subst hstep
          exact inv_plan hp h i hle hsend _ rfl
        · cases hstep
      · simp only [Option.some.injEq] at hstep
        subst hstep
        apply inv_setWorker
        · exact
            { hcs := h.hcs, hM := h.hM, hE := h.hE, hnext := wrap64_range _
              hqueue := h.hqueue, hk := h.hk, hcap := h.hcap, hcons := h.hcons
              hreader := h.hreader, hworkers := h.hworkers, hbuf := h.hbuf, hlen := h.hlen }
        · simp [WorkerOK]
    | bpTop c =>
      simp only [hpc, Option.some.injEq] at hstep
      subst hstep
      apply inv_setWorker h
      simp only [WorkerOK] at hok
      cases hr : s.p.ProxyRunning <;> simp [WorkerOK, hok]
    | bpCheck c =>
      simp only [hpc, Option.some.injEq] at hstep
      subst hstep
      apply inv_setWorker h
      simp only [WorkerOK] at hok
      split
      · simpa [WorkerOK] using hok
      · rename_i hpass
        have hlt := chanLen_mul_lt hp.cs_pos hp.M_nonneg hp.prod_le h.hM h.hcs h.hcap hpass
        simp only [WorkerOK]
        refine ⟨hok, fun hr => ?_⟩
        have hrd := h.hreader
        have hk := h.hk
        have hq := hlt.2
        cases hrpc : s.reader <;> rw [hrpc] at hrd <;> simp only [ReaderOK] at hrd
        all_goals first
          | (have h9 := hrd hr; omega)
          | (have h9 := hrd.2 hr; omega)
          | (have h9 := hrd.2.2 hr; omega)
          | (rw [hr] at hrd; cases hrd)
    | fetchTop c =>
      simp only [hpc] at hstep
      simp only [WorkerOK] at hok
      split at hstep
      · rename_i hr
        split at hstep
        · cases hstep
        · split at hstep
          · simp only [Option.some.injEq] at hstep
            subst hstep
            exact inv_setWorker h i _ (by simp [WorkerOK])
          · simp only [Option.some.injEq] at hstep
            subst hstep
            exact inv_setWorker h i _ (by simp only [WorkerOK]; exact ⟨hok.1, hok.2 hr⟩)
      · simp only [Option.some.injEq] at hstep
        subst hstep
        exact inv_setWorker h i _ (by simp [WorkerOK])
    | fetching c r m => simp [hpc] at hstep
    | stop =>
      simp only [hpc, Option.some.injEq] at hstep
      subst hstep
      exact inv_setWorker (inv_stopFlag h) i _ (by simp [WorkerOK])
    | drain =>
      simp only [hpc] at hstep
      simp only [WorkerOK] at hok
      cases hd : drainOne s with
      | none => simp [hd] at hstep
      | some s2 =>
        simp only [hd, Option.some.injEq] at hstep
        subst hstep
        have h2 := inv_drainOne hp h hok hd
        apply inv_setWorker h2
        simp only [WorkerOK]
        unfold drainOne at hd
        split at hd
        · cases hd
        · split at hd
          · cases hd
          · simp only [Option.some.injEq] at hd
            subst hd
            exact hok
    | done => simp [hpc] at hstep
    | panicked => simp [hpc] at hstep

theorem copyInto_length (n : Nat) (body : List Byte) : (copyInto n body).length = n := by
  simp [copyInto]

theorem inv_fetchReply {cs M E : Int} {s s1 : Session}
    (h : SessionInv cs M E s) (i : Nat) (r : FetchReply) (hstep : fetchReply s i r = some s1) :
    SessionInv cs M E s1 := by
  unfold fetchReply at hstep
  split at hstep
  · rename_i c retry m hpc
    have hok := h.hworkers _ (mem_of_getElem?_eq hpc)
    simp only [WorkerOK] at hok
    cases r with
    | transportError =>
      simp only [Option.some.injEq] at hstep
      subst hstep
      apply inv_setWorker h
      split
      · simpa [WorkerOK] using hok
      · simp [WorkerOK]
    | badStatus =>
      simp only [Option.some.injEq] at hstep
      subst hstep
      exact inv_setWorker h i _ (by simp [WorkerOK])
    | ok body =>
      cases body with
      | none =>
        simp only [Option.some.injEq] at hstep
        subst hstep
        exact inv_setWorker h i _ (by simp [WorkerOK])
      | some body =>
        simp only at hstep
        split at hstep
        · cases hstep
        · rename_i ch hc
          split at hstep
          · simp only [Option.some.injEq] at hstep
            subst hstep
            exact inv_setWorker h i _ (by simp [WorkerOK])
          · rename_i hn
            simp only [Option.some.injEq] at hstep
            subst hstep
            apply inv_setWorker
            · exact
                { hcs := h.hcs, hM := h.hM, hE := h.hE, hnext := h.hnext
                  hqueue := by simpa [List.length_set] using h.hqueue
                  hk := by simp only [List.length_set]; exact h.hk
                  hcap := h.hcap
                  hcons := h.hcons
                  hreader := by simp only [List.length_set]; exact h.hreader
                  hworkers := by simp only [List.length_set]; exact h.hworkers
                  hbuf := by
                    intro j ch1 hj hne
                    simp only [List.getElem?_set] at hj
                    split at hj
                    · rename_i hcj
                      subst hcj
                      exact hok.2
                    · exact h.hbuf j ch1 hj hne
                  hlen := by
                    intro j ch1 hj
                    simp only [List.getElem?_set] at hj
                    split at hj
                    · split at hj
                      · simp only [Option.some.injEq] at hj
                        subst hj
                        have hg := (h.hlen c ch hc).2
                        refine ⟨?_, by simpa [Chunk.put] using hg⟩
                        simp only [Chunk.put, copyInto_length]
                        omega
                      · cases hj
                    · exact h.hlen j ch1 hj }
            · simp [WorkerOK]
  · cases hstep

theorem inv_workerTimeout {cs M E : Int} {s s1 : Session}
    (h : SessionInv cs M E s) (i : Nat) (hstep : workerTimeout s i = some s1) :
    SessionInv cs M E s1 := by
  unfold workerTimeout at hstep
  split at hstep
  · split at hstep
    · simp only [Option.some.injEq] at hstep
      subst hstep
      exact inv_setWorker h i _ (by simp [WorkerOK])
    · cases hstep
  · cases hstep

theorem inv_readerTimeout {cs M E : Int} {s s1 : Session}
    (h : SessionInv cs M E s) (hstep : readerTimeout s = some s1) :
    SessionInv cs M E s1 := by
  unfold readerTimeout at hstep
  have hrd := h.hreader
  split at hstep
  · rename_i hpc
    split at hstep
    · simp only [Option.some.injEq] at hstep
      subst hstep
      rw [hpc] at hrd
      exact inv_setReader h _ (by simpa [ReaderOK] using hrd)
    · cases hstep
  · rename_i next hpc
    split at hstep
    · simp only [Option.some.injEq] at hstep
      subst hstep
      rw [hpc] at hrd
      simp only [ReaderOK] at hrd
      apply inv_setReader h
      cases next <;> simp [ReaderOK, hrd]
    · cases hstep
  · cases hstep

theorem inv_readerStep {cs M E : Int} {s s1 : Session} (hp : Params cs M)
    (h : SessionInv cs M E s) (hstep : readerStep s = some s1) :
    SessionInv cs M E s1 := by
  unfold readerStep at hstep
  have hrd := h.hreader
  have hk := h.hk
  cases hpc : s.reader with
  | readTop =>
    rw [hpc] at hrd
    simp only [hpc] at hstep
    split at hstep <;>
    · simp only [Option.some.injEq] at hstep
      subst hstep
      exact inv_setReader h _ (by simpa [ReaderOK] using hrd)
  | recv =>
    rw [hpc] at hrd
    simp only [hpc] at hstep
    split at hstep
    · cases hstep
    · rename_i c q hq
      simp only [Option.some.injEq] at hstep
      subst hstep
      have hqueue := h.hqueue
      have hcap := h.hcap
      rw [hq] at hk hqueue hrd hcap
      simp only [List.length_cons] at hk hqueue hrd hcap
      rw [List.range'_succ] at hqueue
      have hc : c = s.chunks.length - (q.length + 1) := (List.cons.inj hqueue).1
      have hq2 : q = List.range' (s.chunks.length - q.length) q.length := by
        have := (List.cons.inj hqueue).2
        rw [this]
        simp only [List.length_range']
        congr 1
        omega
      simp only [ReaderOK] at hrd
      exact
        { hcs := h.hcs, hM := h.hM, hE := h.hE, hnext := h.hnext
          hqueue := hq2
          hk := by simp only; omega
          hcap := fun h1 => by have := hcap h1; push_cast at this; simp only; omega
          hcons := h.hcons
          hreader := by
            simp only [ReaderOK]
            refine ⟨by omega, fun hr => ?_⟩
            have := hrd hr
            omega
          hworkers := h.hworkers
          hbuf := h.hbuf
          hlen := h.hlen }
  | waitTop c =>
    rw [hpc] at hrd
    simp only [hpc] at hstep
    simp only [ReaderOK] at hrd
    split at hstep
    · rename_i hr
      simp only [Option.some.injEq] at hstep
      subst hstep
      apply inv_setReader h
      simp only [ReaderOK]
      have := hrd.2 hr
      exact ⟨this.1, by omega, fun _ => this.2⟩
    · rename_i hr
      simp only [Option.some.injEq] at hstep
      subst hstep
      apply inv_setReader h
      simp only [ReaderOK]
      intro h1
      exact absurd h1 hr
  | waitGet c =>
    rw [hpc] at hrd
    simp only [hpc] at hstep
    simp only [ReaderOK] at hrd
    split at hstep
    · cases hstep
    · rename_i ch hch
      split at hstep
      · simp only [Option.some.injEq] at hstep
        subst hstep
        obtain ⟨hck, hlt, hrun⟩ := hrd
        subst hck
        exact
          { hcs := h.hcs, hM := h.hM, hE := h.hE, hnext := h.hnext
            hqueue := h.hqueue
            hk := by simp only [List.length_append, List.length_singleton]; omega
            hcap := h.hcap
            hcons := by
              simp only [List.length_append, List.length_singleton]
              rw [List.range_succ, ← h.hcons]
            hreader := by
              simp only [ReaderOK, List.length_append, List.length_singleton]
              intro hr
              have := hrun hr
              omega
            hworkers := by
              intro pc hmem
              simp only [List.length_append, List.length_singleton]
              exact workerOK_mono (h.hworkers pc hmem) (le_refl _) (by omega) (fun h1 => h1)
            hbuf := by
              intro j ch1 hj hne
              have := h.hbuf j ch1 hj hne
              simp only [List.length_append, List.length_singleton]
              push_cast
              omega
            hlen := h.hlen }
      · simp only [Option.some.injEq] at hstep
        subst hstep
        apply inv_setReader h
        simp only [ReaderOK]
        refine ⟨by omega, fun hr => ⟨hrd.1, hrd.2.2 hr⟩⟩
  | gotNil =>
    rw [hpc] at hrd
    simp only [hpc, Option.some.injEq] at hstep
    subst hstep
    exact inv_setReader h _ (by simpa [ReaderOK] using hrd)
  | write buffer =>
    rw [hpc] at hrd
    simp only [hpc] at hstep
    split at hstep <;>
    · simp only [Option.some.injEq] at hstep
      subst hstep
      have h2 := inv_setEmitter h (Emitter.Write sinkPipe s.emitter buffer).1
      exact inv_setReader h2 _ (by simpa [ReaderOK] using hrd)
  | checkDone =>
    rw [hpc] at hrd
    simp only [hpc] at hstep
    split at hstep <;>
    · simp only [Option.some.injEq] at hstep
      subst hstep
      exact inv_setReader h _ (by simpa [ReaderOK] using hrd)
  | stop next =>
    simp only [hpc, Option.some.injEq] at hstep
    subst hstep
    exact inv_setReader (inv_stopFlag h) _ (by simp [ReaderOK])
  | drain next =>
    rw [hpc] at hrd
    simp only [hpc] at hstep
    simp only [ReaderOK] at hrd
    cases hd : drainOne s with
    | none => simp [hd] at hstep
    | some s2 =>
      simp only [hd, Option.some.injEq] at hstep
      subst hstep
      have h2 := inv_drainOne hp h hrd hd
      apply inv_setReader h2
      simp only [ReaderOK]
      unfold drainOne at hd
      split at hd
      · cases hd
      · split at hd
        · cases hd
        · simp only [Option.some.injEq] at hd
          subst hd
          exact hrd
  | deferred =>
    rw [hpc] at hrd
    simp only [hpc, Option.some.injEq] at hstep
    subst hstep
    exact inv_setReader h _ (by simpa [ReaderOK] using hrd)
  | closeEmitter =>
    rw [hpc] at hrd
    simp only [hpc, Option.some.injEq] at hstep
    subst hstep
    have h2 := inv_setEmitter h (Emitter.Close sinkPipe s.emitter).1
    exact inv_setReader h2 _ (by simpa [ReaderOK] using hrd)
  | exited => simp [hpc] at hstep

theorem inv_step {cs M E : Int} {s s1 : Session} (hp : Params cs M)
    (h : SessionInv cs M E s) (a : Action) (hstep : step s a = some s1) :
    SessionInv cs M E s1 := by
  cases a with
  | worker i => exact inv_ProxyWorker hp h i hstep
  | fetchReply i r => exact inv_fetchReply h i r hstep
  | workerTimeout i => exact inv_workerTimeout h i hstep
  | reader => exact inv_readerStep hp h hstep
  | readerTimeout => exact inv_readerTimeout h hstep
  | clientClose =>
    simp only [step, Option.some.injEq] at hstep
    subst hstep
    exact inv_setEmitter h _

theorem inv_run {cs M E : Int} (hp : Params cs M) (acts : List Action) :
    ∀ {s s1 : Session}, SessionInv cs M E s → run s acts = some s1 → SessionInv cs M E s1 := by
  induction acts with
  | nil =>
    intro s s1 h hrun
    simp only [run, Option.some.injEq] at hrun
    subst hrun
    exact h
  | cons a rest ih =>
    intro s s1 h hrun
    simp only [run] at hrun
    cases hs : step s a with
    | none => simp [hs] at hrun
    | some s2 =>
      simp only [hs] at hrun
      exact ih (inv_step hp h a hs) hrun

theorem sum_window (f : Nat → Nat) (k m B : Nat) :
    ∀ n : Nat, (∀ i, i < n → f i ≤ B) → (∀ i, i < n → f i ≠ 0 → k ≤ i ∧ i < k + m) →
      ((List.range n).map f).sum ≤ min (n - k) m * B := by
  intro n
  induction n with
  | zero => intro _ _; simp
  | succ n ih =>
    intro hB hw
    have ih1 := ih (fun i hi => hB i (by omega)) (fun i hi => hw i (by omega))
    rw [List.range_succ, List.map_append, List.sum_append]
    simp only [List.map_cons, List.map_nil, List.sum_cons, List.sum_nil, Nat.add_zero]
    by_cases hz : f n = 0
    · rw [hz, Nat.add_zero]
      refine le_trans ih1 (Nat.mul_le_mul_right B ?_)
      omega
    · have hwin := hw n (by omega) hz
      have hb := hB n (by omega)
      have hmin : min (n + 1 - k) m = min (n - k) m + 1 := by omega
      rw [hmin, Nat.add_mul, Nat.one_mul]
      omega

theorem inv_buffered_le {cs M E : Int} {s : Session} (hp : Params cs M)
    (h : SessionInv cs M E s) : (s.buffered : Int) ≤ M * cs := by
  have hsum := sum_window
    (fun i => if i ∈ s.consumed then 0
      else match s.chunks[i]? with
        | some ch => ch.buffer.length
        | none => 0)
    s.consumed.length M.toNat cs.toNat s.chunks.length
    (by
      intro i hi
      simp only
      split
      · exact Nat.zero_le _
      · split
        · rename_i ch hch
          have := (h.hlen i ch hch).1
          omega
        · exact Nat.zero_le _)
    (by
      intro i hi hne
      simp only at hne
      split at hne
      · exact absurd rfl hne
      · rename_i hmem
        rw [h.hcons, List.mem_range] at hmem
        split at hne
        · rename_i ch hch
          have hb : ch.buffer ≠ [] := by
            intro h0
            rw [h0] at hne
            exact hne rfl
          have := h.hbuf i ch hch hb
          have := hp.M_nonneg
          omega
        · exact absurd rfl hne)
  have hle : min (s.chunks.length - s.consumed.length) M.toNat * cs.toNat ≤ M.toNat * cs.toNat :=
    Nat.mul_le_mul_right _ (Nat.min_le_right _ _)
  have h1 : s.buffered ≤ M.toNat * cs.toNat := le_trans hsum hle
  have h2 : ((M.toNat * cs.toNat : Nat) : Int) = M * cs := by
    push_cast
    rw [Int.toNat_of_nonneg hp.M_nonneg, Int.toNat_of_nonneg (by have := hp.cs_pos; omega)]
  rw [← h2]
  exact_mod_cast h1

theorem params_of_chunkSize (cs : Int) (h1 : 1 ≤ cs) (h2 : cs < 9223372036854775808) :
    Params cs (134217728 / cs) := by
  have hpos : (0 : Int) < cs := by omega
  have hM : 0 ≤ 134217728 / cs := Int.ediv_nonneg (by decide) (by omega)
  have hle : 134217728 / cs * cs ≤ 134217728 := Int.ediv_mul_le _ (by omega)
  exact
    { cs_pos := h1, cs_lt := h2, M_nonneg := hM
      prod_le := by rw [Int.mul_comm]; exact hle }

theorem concurrentDownload_inv (rangeStart rangeEnd fileSize splitSize numTasks : Int)
    (em : Emitter (List (List Byte))) (s0 : Session)
    (h1 : 1 ≤ splitSize) (h2 : splitSize < 9223372036854775808)
    (hs1 : -9223372036854775808 ≤ rangeStart) (hs2 : rangeStart < 9223372036854775808)
    (hinit : ConcurrentDownload rangeStart rangeEnd fileSize splitSize numTasks em = some s0) :
    SessionInv splitSize (134217728 / splitSize) rangeEnd s0 := by
  have hne : splitSize ≠ 0 := by omega
  have hM : 0 ≤ (134217728 : Int) / splitSize := Int.ediv_nonneg (by decide) (by omega)
  have htd : Int.tdiv (128 * 1024 * 1024) splitSize = 134217728 / splitSize := by
    rw [Int.tdiv_eq_ediv (by decide) (by omega)]
    rfl
  have hMle : (134217728 : Int) / splitSize ≤ 134217728 :=
    Int.ediv_le_self _ (by decide)
  have hw : wrap64 (134217728 / splitSize) = 134217728 / splitSize :=
    wrap64_id _ (by omega) (by omega)
  simp only [ConcurrentDownload, divInt64, hne, if_false, htd, hw, newProxyDownloadStruct,
    show ¬ ((134217728 : Int) / splitSize < 0) from by omega, Option.some.injEq] at hinit
  subst hinit
  exact
    { hcs := rfl, hM := rfl, hE := rfl, hnext := ⟨hs1, hs2⟩
      hqueue := by simp
      hk := by simp
      hcap := fun _ => by simpa using hM
      hcons := by simp
      hreader := by simp [ReaderOK]
      hworkers := by
        intro pc hmem
        rw [List.mem_replicate] at hmem
        rw [hmem.2]
        simp [WorkerOK]
      hbuf := by intro j ch hj; simp at hj
      hlen := by intro j ch hj; simp at hj }



/-! ### C1: the bytes written to the emitter -/

theorem delivery_setWorker {a E cs : Int} {L : Nat} {s : Session} (h : DeliveryInv a E cs L s)
    (i : Nat) (pc : WorkerPC) : DeliveryInv a E cs L (s.setWorker i pc) :=
  { hrangeEnd := h.hrangeEnd, hnext := h.hnext, hchunk := h.hchunk, hk := h.hk,
    hcur := h.hcur, hreading := h.hreading, hemit := h.hemit }

theorem delivery_stopFlag {a E cs : Int} {L : Nat} {s : Session} (h : DeliveryInv a E cs L s) :
    DeliveryInv a E cs L { s with p := { s.p with ProxyRunning := false } } :=
  { hrangeEnd := h.hrangeEnd, hnext := h.hnext, hchunk := h.hchunk, hk := h.hk,
    hcur := h.hcur, hreading := h.hreading, hemit := h.hemit }

theorem delivery_setReader {a E cs : Int} {L : Nat} {s : Session} (h : DeliveryInv a E cs L s)
    (pc : ReaderPC) (h1 : pc.reading = true → s.consumed.length < L)
    (h2 : pc.pending ≤ s.reader.pending) :
    DeliveryInv a E cs L { s with reader := pc } :=
  { hrangeEnd := h.hrangeEnd, hnext := h.hnext, hchunk := h.hchunk, hk := h.hk,
    hcur := h.hcur, hreading := h1
    hemit := by
      have := h.hemit
      have h3 : ((pc.pending : Nat) : Int) ≤ (s.reader.pending : Int) := by exact_mod_cast h2
      show (s.emitted.length : Int) + (pc.pending : Int) ≤ (s.consumed.length : Int) * cs
      omega }

theorem delivery_drainOne {a E cs : Int} {L : Nat} {s s1 : Session}
    (h : DeliveryInv a E cs L s) (hd : drainOne s = some s1) :
    DeliveryInv a E cs L s1 ∧ s1.consumed = s.consumed ∧ s1.reader = s.reader := by
  unfold drainOne at hd
  split at hd
  · cases hd
  · split at hd
    · cases hd
    · rename_i x0 c q hq x1 ch hc
      simp only [Option.some.injEq] at hd
      subst hd
      refine ⟨?_, rfl, rfl⟩
      exact
        { hrangeEnd := h.hrangeEnd
          hnext := by simpa [List.length_set] using h.hnext
          hchunk := by
            intro j ch1 hj hjL
            simp only [List.getElem?_set] at hj
            split at hj
            · split at hj
              · simp only [Option.some.injEq] at hj
                subst hj
                rename_i hcj _
                subst hcj
                have := h.hchunk c ch hc hjL
                exact ⟨this.1, this.2.1, Or.inl rfl⟩
              · cases hj
            · exact h.hchunk j ch1 hj hjL
          hk := h.hk
          hcur := h.hcur
          hreading := h.hreading
          hemit := h.hemit }

theorem delivery_ProxyWorker {a E cs : Int} {L : Nat} {s s1 : Session}
    (hp : TailParams a E cs L) (hcs : s.p.ChunkSize = cs) (hE : s.p.EndOffset = E)
    (h : DeliveryInv a E cs L s) (i : Nat) (hstep : ProxyWorker s i = some s1) :
    DeliveryInv a E cs L s1 := by
  unfold ProxyWorker at hstep
  cases hpc : s.workers[i]? with
  | none => simp [hpc] at hstep
  | some pc =>
    cases pc with
    | loopTop =>
      simp only [hpc, Option.some.injEq] at hstep
      subst hstep
      exact delivery_setWorker h i _
    | plan =>
      simp only [hpc] at hstep
      split at hstep
      · rename_i hle
        split at hstep
        · simp only [Option.some.injEq] at hstep
          subst hstep
          apply delivery_setWorker
          have hcut := hp.cut
          have hcs1 := hp.cs_pos
          have hElt := hp.E_hi
          have halo := hp.a_lo
          exact
            { hrangeEnd := h.hrangeEnd
              hnext := by
                intro hn
                simp only [List.length_append, List.length_singleton] at hn ⊢
                have h0 := h.hnext (by omega)
                have hmono : ((s.chunks.length : Int) + 1) * cs ≤ (L : Int) * cs :=
                  Int.mul_le_mul_of_nonneg_right (by omega) (by omega)
                have hexp : ((s.chunks.length : Int) + 1) * cs
                    = (s.chunks.length : Int) * cs + cs := by ring
                have hnn : 0 ≤ (s.chunks.length : Int) * cs :=
                  Int.mul_nonneg (by omega) (by omega)
                rw [h0, hcs]
                push_cast
                rw [hexp]
                have hw := wrap64_id (a + (s.chunks.length : Int) * cs + cs) (by omega) (by omega)
                omega
              hchunk := by
                intro j ch hj hjL
                simp only [List.getElem?_append] at hj
                split at hj
                · exact h.hchunk j ch hj hjL
                · rename_i hjn
                  cases hjj : j - s.chunks.length with
                  | zero =>
                    simp only [hjj, List.getElem?_cons_zero, Option.some.injEq] at hj
                    subst hj
                    have hjeq : j = s.chunks.length := by omega
                    subst hjeq
                    have h0 := h.hnext (by omega)
                    have hmono : ((s.chunks.length : Int) + 1) * cs ≤ (L : Int) * cs :=
                      Int.mul_le_mul_of_nonneg_right (by omega) (by omega)
                    have hexp : ((s.chunks.length : Int) + 1) * cs
                        = (s.chunks.length : Int) * cs + cs := by ring
                    have hnn : 0 ≤ (s.chunks.length : Int) * cs :=
                      Int.mul_nonneg (by omega) (by omega)
                    have hw : wrap64 (s.p.NextChunkStartOffset + s.p.ChunkSize - 1)
                        = a + (s.chunks.length : Int) * cs + cs - 1 := by
                      rw [h0, hcs]
                      apply wrap64_id <;> omega
                    refine ⟨h0, ?_, Or.inl rfl⟩
                    show (if wrap64 (s.p.NextChunkStartOffset + s.p.ChunkSize - 1) > s.p.EndOffset
                      then s.p.EndOffset
                      else wrap64 (s.p.NextChunkStartOffset + s.p.ChunkSize - 1)) = _
                    rw [hw, hE, if_neg (by omega)]
                  | succ m => simp [hjj] at hj
              hk := h.hk
              hcur := h.hcur
              hreading := h.hreading
              hemit := h.hemit }
        · cases hstep
      · rename_i hgt
        simp only [Option.some.injEq] at hstep
        subst hstep
        apply delivery_setWorker
        exact
          { hrangeEnd := h.hrangeEnd
            hnext := by
              intro hn
              exfalso
              have hn1 : s.chunks.length ≤ L := hn
              have h0 := h.hnext hn1
              have hcut := hp.cut
              have hcs1 := hp.cs_pos
              have hmono : (s.chunks.length : Int) * cs ≤ (L : Int) * cs :=
                Int.mul_le_mul_of_nonneg_right (by omega) (by omega)
              apply hgt
              rw [h0, hE]
              omega
            hchunk := h.hchunk
            hk := h.hk
            hcur := h.hcur
            hreading := h.hreading
            hemit := h.hemit }
    | bpTop c =>
      simp only [hpc, Option.some.injEq] at hstep
      subst hstep
      exact delivery_setWorker h i _
    | bpCheck c =>
      simp only [hpc, Option.some.injEq] at hstep
      subst hstep
      exact delivery_setWorker h i _
    | fetchTop c =>
      simp only [hpc] at hstep
      split at hstep
      · split at hstep
        · cases hstep
        · split at hstep <;>
          · simp only [Option.some.injEq] at hstep
            subst hstep
            exact delivery_setWorker h i _
      · simp only [Option.some.injEq] at hstep
        subst hstep
        exact delivery_setWorker h i _
    | fetching c r m => simp [hpc] at hstep
    | stop =>
      simp only [hpc, Option.some.injEq] at hstep
      subst hstep
      exact delivery_setWorker (delivery_stopFlag h) i _
    | drain =>
      simp only [hpc] at hstep
      cases hd : drainOne s with
      | none => simp [hd] at hstep
      | some s2 =>
        simp only [hd, Option.some.injEq] at hstep
        subst hstep
        exact delivery_setWorker (delivery_drainOne h hd).1 i _
    | done => simp [hpc] at hstep
    | panicked => simp [hpc] at hstep

theorem delivery_fetchReply {a E cs : Int} {L : Nat} {s s1 : Session}
    (hp : TailParams a E cs L)
    (h : DeliveryInv a E cs L s) (i : Nat) (r : FetchReply) (hstep : fetchReply s i r = some s1) :
    DeliveryInv a E cs L s1 := by
  unfold fetchReply at hstep
  split at hstep
  · rename_i c retry m hpc
    cases r with
    | transportError =>
      simp only [Option.some.injEq] at hstep
      subst hstep
      exact delivery_setWorker h i _
    | badStatus =>
      simp only [Option.some.injEq] at hstep
      subst hstep
      exact delivery_setWorker h i _
    | ok body =>
      cases body with
      | none =>
        simp only [Option.some.injEq] at hstep
        subst hstep
        exact delivery_setWorker h i _
      | some body =>
        simp only at hstep
        split at hstep
        · cases hstep
        · rename_i ch hc
          split at hstep
          · simp only [Option.some.injEq] at hstep
            subst hstep
            exact delivery_setWorker h i _
          · rename_i hn
            simp only [Option.some.injEq] at hstep
            subst hstep
            apply delivery_setWorker
            exact
              { hrangeEnd := h.hrangeEnd
                hnext := by simpa [List.length_set] using h.hnext
                hchunk := by
                  intro j ch1 hj hjL
                  simp only [List.getElem?_set] at hj
                  split at hj
                  · split at hj
                    · simp only [Option.some.injEq] at hj
                      subst hj
                      rename_i hcj _
                      subst hcj
                      have h0 := h.hchunk c ch hc hjL
                      refine ⟨h0.1, h0.2.1, Or.inr ?_⟩
                      simp only [Chunk.put, copyInto_length]
                      have hcs1 := hp.cs_pos
                      have hcs2 := hp.cs_lt
                      have hw : wrap64 (ch.endOffset - ch.startOffset + 1) = cs := by
                        rw [h0.1, h0.2.1]
                        have : a + (c : Int) * cs + cs - 1 - (a + (c : Int) * cs) + 1 = cs := by
                          ring
                        rw [this]
                        apply wrap64_id <;> omega
                      rw [hw]
                      omega
                    · cases hj
                  · exact h.hchunk j ch1 hj hjL
                hk := h.hk
                hcur := h.hcur
                hreading := h.hreading
                hemit := h.hemit }
  · cases hstep

theorem delivery_workerTimeout {a E cs : Int} {L : Nat} {s s1 : Session}
    (h : DeliveryInv a E cs L s) (i : Nat) (hstep : workerTimeout s i = some s1) :
    DeliveryInv a E cs L s1 := by
  unfold workerTimeout at hstep
  split at hstep
  · split at hstep
    · simp only [Option.some.injEq] at hstep
      subst hstep
      exact delivery_setWorker h i _
    · cases hstep
  · cases hstep

theorem close_sink_pipe (em : Emitter (List (List Byte))) :
    (Emitter.Close sinkPipe em).1.pipe = em.pipe := by
  unfold Emitter.Close
  split <;> rfl

theorem delivery_setEmitter {a E cs : Int} {L : Nat} {s : Session} (h : DeliveryInv a E cs L s)
    (em : Emitter (List (List Byte))) (hpipe : em.pipe = s.emitter.pipe) :
    DeliveryInv a E cs L { s with emitter := em } :=
  { hrangeEnd := h.hrangeEnd, hnext := h.hnext, hchunk := h.hchunk, hk := h.hk,
    hcur := h.hcur, hreading := h.hreading
    hemit := by
      have := h.hemit
      simp only [Session.emitted] at this ⊢
      rw [hpipe]
      exact this }

theorem delivery_readerTimeout {a E cs : Int} {L : Nat} {s s1 : Session}
    (h : DeliveryInv a E cs L s) (hstep : readerTimeout s = some s1) :
    DeliveryInv a E cs L s1 := by
  unfold readerTimeout at hstep
  split at hstep
  · split at hstep
    · simp only [Option.some.injEq] at hstep
      subst hstep
      exact delivery_setReader h _ (by simp [ReaderPC.reading]) (by simp [ReaderPC.pending])
    · cases hstep
  · rename_i next hpc
    split at hstep
    · simp only [Option.some.injEq] at hstep
      subst hstep
      apply delivery_setReader h
      · cases next <;> simp [ReaderPC.reading]
      · cases next <;> simp [ReaderPC.pending]
    · cases hstep
  · cases hstep

theorem delivery_readerStep {a E cs M : Int} {L : Nat} {s s1 : Session}
    (hp : TailParams a E cs L) (hinv : SessionInv cs M E s)
    (h : DeliveryInv a E cs L s) (hstep : readerStep s = some s1) :
    DeliveryInv a E cs L s1 := by
  unfold readerStep at hstep
  have hrd := hinv.hreader
  have hreading := h.hreading
  have hemit := h.hemit
  cases hpc : s.reader with
  | readTop =>
    rw [hpc] at hreading
    simp only [hpc] at hstep
    split at hstep
    · simp only [Option.some.injEq] at hstep
      subst hstep
      exact delivery_setReader h _ (by simp [ReaderPC.reading]) (by simp [ReaderPC.pending])
    · simp only [Option.some.injEq] at hstep
      subst hstep
      exact delivery_setReader h _ (fun _ => hreading rfl) (by simp [ReaderPC.pending])
  | recv =>
    rw [hpc] at hreading hemit
    simp only [hpc] at hstep
    split at hstep
    · cases hstep
    · simp only [Option.some.injEq] at hstep
      subst hstep
      exact
        { hrangeEnd := h.hrangeEnd, hnext := h.hnext, hchunk := h.hchunk, hk := h.hk
          hcur := h.hcur
          hreading := fun _ => hreading rfl
          hemit := by simpa [ReaderPC.pending, Session.emitted] using hemit }
  | waitTop c =>
    rw [hpc] at hreading
    simp only [hpc] at hstep
    split at hstep
    · simp only [Option.some.injEq] at hstep
      subst hstep
      exact delivery_setReader h _ (fun _ => hreading rfl) (by simp [ReaderPC.pending])
    · simp only [Option.some.injEq] at hstep
      subst hstep
      exact delivery_setReader h _ (by simp [ReaderPC.reading]) (by simp [ReaderPC.pending])
  | waitGet c =>
    rw [hpc] at hreading hrd hemit
    simp only [hpc] at hstep
    simp only [ReaderOK] at hrd
    split at hstep
    · cases hstep
    · rename_i ch hch
      split at hstep
      · rename_i hlen
        simp only [Option.some.injEq] at hstep
        subst hstep
        have hkL := hreading rfl
        have hck := hrd.1
        subst hck
        have hcg := h.hchunk s.consumed.length ch hch hkL
        have hbuf : (ch.buffer.length : Int) = cs := by
          rcases hcg.2.2 with h0 | h0
          · simp only [Chunk.get, h0, List.length_nil] at hlen
            omega
          · exact h0
        have hcs1 := hp.cs_pos
        have hcut := hp.cut
        have hElt := hp.E_hi
        have halo := hp.a_lo
        have hmono : ((s.consumed.length : Int) + 1) * cs ≤ (L : Int) * cs :=
          Int.mul_le_mul_of_nonneg_right (by omega) (by omega)
        have hexp : ((s.consumed.length : Int) + 1) * cs
            = (s.consumed.length : Int) * cs + cs := by ring
        have hnn : 0 ≤ (s.consumed.length : Int) * cs := Int.mul_nonneg (by omega) (by omega)
        exact
          { hrangeEnd := h.hrangeEnd, hnext := h.hnext, hchunk := h.hchunk
            hk := by simp only [List.length_append, List.length_singleton]; omega
            hcur := by
              simp only [List.length_append, List.length_singleton, Chunk.get]
              rw [h.hcur, hbuf]
              push_cast
              rw [hexp]
              have hw := wrap64_id (a + (s.consumed.length : Int) * cs + cs) (by omega)
                (by omega)
              omega
            hreading := by simp [ReaderPC.reading]
            hemit := by
              simp only [List.length_append, List.length_singleton, ReaderPC.pending, Chunk.get,
                Session.emitted] at hemit ⊢
              push_cast
              rw [hexp, hbuf]
              omega }
      · simp only [Option.some.injEq] at hstep
        subst hstep
        exact delivery_setReader h _ (fun _ => hreading rfl) (by simp [ReaderPC.pending])
  | gotNil =>
    simp only [hpc, Option.some.injEq] at hstep
    subst hstep
    exact delivery_setReader h _ (by simp [ReaderPC.reading]) (by simp [ReaderPC.pending])
  | write buffer =>
    rw [hpc] at hemit
    simp only [hpc] at hstep
    simp only [ReaderPC.pending, Session.emitted] at hemit
    by_cases hcl : s.emitter.closed = true
    · simp only [Emitter.Write, hcl, if_true, Option.some.injEq] at hstep
      subst hstep
      exact
        { hrangeEnd := h.hrangeEnd, hnext := h.hnext, hchunk := h.hchunk, hk := h.hk
          hcur := h.hcur
          hreading := by simp [ReaderPC.reading]
          hemit := by
            simp only [ReaderPC.pending, Session.emitted]
            push_cast
            omega }
    · simp only [Emitter.Write, hcl, sinkPipe, Bool.false_eq_true, if_false,
        Option.some.injEq] at hstep
      subst hstep
      exact
        { hrangeEnd := h.hrangeEnd, hnext := h.hnext, hchunk := h.hchunk, hk := h.hk
          hcur := h.hcur
          hreading := by simp [ReaderPC.reading]
          hemit := by
            simp only [ReaderPC.pending, Session.emitted, List.flatten_append,
              List.length_append, List.flatten_cons, List.flatten_nil, List.append_nil]
            push_cast
            omega }
  | checkDone =>
    simp only [hpc] at hstep
    split at hstep
    · simp only [Option.some.injEq] at hstep
      subst hstep
      exact delivery_setReader h _ (by simp [ReaderPC.reading]) (by simp [ReaderPC.pending])
    · rename_i hlt
      simp only [Option.some.injEq] at hstep
      subst hstep
      apply delivery_setReader h _ _ (by simp [ReaderPC.pending])
      intro _
      rw [h.hcur, h.hrangeEnd] at hlt
      have hk := h.hk
      have hcut := hp.cut
      by_contra hcon
      have hkL : s.consumed.length = L := by omega
      rw [hkL] at hlt
      omega
  | stop next =>
    simp only [hpc, Option.some.injEq] at hstep
    subst hstep
    refine delivery_setReader (s := { s with p := { s.p with ProxyRunning := false } })
      (delivery_stopFlag h) _ (by simp [ReaderPC.reading]) (by simp [ReaderPC.pending])
  | drain next =>
    simp only [hpc] at hstep
    cases hd : drainOne s with
    | none => simp [hd] at hstep
    | some s2 =>
      simp only [hd, Option.some.injEq] at hstep
      subst hstep
      have h2 := delivery_drainOne h hd
      exact delivery_setReader h2.1 _ (by simp [ReaderPC.reading]) (by simp [ReaderPC.pending])
  | deferred =>
    simp only [hpc, Option.some.injEq] at hstep
    subst hstep
    exact delivery_setReader h _ (by simp [ReaderPC.reading]) (by simp [ReaderPC.pending])
  | closeEmitter =>
    simp only [hpc, Option.some.injEq] at hstep
    subst hstep
    have h2 := delivery_setEmitter h (Emitter.Close sinkPipe s.emitter).1 (close_sink_pipe _)
    exact delivery_setReader h2 _ (by simp [ReaderPC.reading]) (by simp [ReaderPC.pending])
  | exited => simp [hpc] at hstep

theorem delivery_step {a E cs M : Int} {L : Nat} {s s1 : Session}
    (hp : TailParams a E cs L) (hinv : SessionInv cs M E s)
    (h : DeliveryInv a E cs L s) (act : Action) (hstep : step s act = some s1) :
    DeliveryInv a E cs L s1 := by
  cases act with
  | worker i => exact delivery_ProxyWorker hp hinv.hcs hinv.hE h i hstep
  | fetchReply i r => exact delivery_fetchReply hp h i r hstep
  | workerTimeout i => exact delivery_workerTimeout h i hstep
  | reader => exact delivery_readerStep hp hinv h hstep
  | readerTimeout => exact delivery_readerTimeout h hstep
  | clientClose =>
    simp only [step, Option.some.injEq] at hstep
    subst hstep
    exact delivery_setEmitter h _ (close_sink_pipe _)

theorem delivery_run {a E cs M : Int} {L : Nat} (hp : TailParams a E cs L)
    (hq : Params cs M) (acts : List Action) :
    ∀ {s s1 : Session}, SessionInv cs M E s → DeliveryInv a E cs L s →
      run s acts = some s1 → DeliveryInv a E cs L s1 := by
  induction acts with
  | nil =>
    intro s s1 _ h hrun
    simp only [run, Option.some.injEq] at hrun
    subst hrun
    exact h
  | cons act rest ih =>
    intro s s1 hinv h hrun
    simp only [run] at hrun
    cases hs : step s act with
    | none => simp [hs] at hrun
    | some s2 =>
      simp only [hs] at hrun
      exact ih (inv_step hq hinv act hs) (delivery_step hp hinv h act hs) hrun

theorem window_length (upstream : List Byte) (a E : Int) (ha : 0 ≤ a) (haE : a ≤ E)
    (hE : E < upstream.length) : ((window upstream a E).length : Int) = E - a + 1 := by
  unfold window
  rw [List.length_take, List.length_drop]
  omega

/-- Whatever the schedule: when the range `a..E` is cut into `L >= 1` chunks of
`cs` bytes and a last chunk of one byte, `ConcurrentDownload` never writes more
than the first `E - a` bytes to the emitter, so what it has written is never
`upstream[a..=E]`. -/
theorem last_byte_never_written (a E fileSize cs numTasks : Int)
    (em : Emitter (List (List Byte))) (s0 s : Session) (acts : List Action) (L : Nat)
    (hcs : 1 ≤ cs) (hcs2 : cs < 9223372036854775808) (ha : -9223372036854775808 ≤ a)
    (hE : E + cs < 9223372036854775808) (hL : 1 ≤ L) (hcut : (L : Int) * cs = E - a)
    (hem : em.pipe = [])
    (hinit : ConcurrentDownload a E fileSize cs numTasks em = some s0)
    (hrun : run s0 acts = some s) :
    (s.emitted.length : Int) ≤ E - a ∧
    ∀ upstream : List Byte, 0 ≤ a → E < upstream.length → s.emitted ≠ window upstream a E := by
  have hp : TailParams a E cs L :=
    { cs_pos := hcs, cs_lt := hcs2, L_pos := hL, a_lo := ha, E_hi := hE, cut := hcut }
  have hq := params_of_chunkSize cs hcs hcs2
  have hLcs : (1 : Int) * cs ≤ (L : Int) * cs :=
    Int.mul_le_mul_of_nonneg_right (by omega) (by omega)
  have haE : a < E := by omega
  have hinv0 := concurrentDownload_inv a E fileSize cs numTasks em s0 hcs hcs2 ha (by omega)
    hinit
  have hne : cs ≠ 0 := by omega
  have hM : 0 ≤ (134217728 : Int) / cs := Int.ediv_nonneg (by decide) (by omega)
  have htd : Int.tdiv (128 * 1024 * 1024) cs = 134217728 / cs := by
    rw [Int.tdiv_eq_ediv (by decide) (by omega)]
    rfl
  have hMle : (134217728 : Int) / cs ≤ 134217728 := Int.ediv_le_self _ (by decide)
  have hw : wrap64 (134217728 / cs) = 134217728 / cs := wrap64_id _ (by omega) (by omega)
  have hd0 : DeliveryInv a E cs L s0 := by
    simp only [ConcurrentDownload, divInt64, hne, if_false, htd, hw, newProxyDownloadStruct,
      show ¬ ((134217728 : Int) / cs < 0) from by omega, Option.some.injEq] at hinit
    subst hinit
    exact
      { hrangeEnd := rfl
        hnext := by intro _; simp
        hchunk := by intro j ch hj; simp at hj
        hk := by simp
        hcur := by simp
        hreading := by intro _; simpa using hL
        hemit := by simp [Session.emitted, ReaderPC.pending, hem] }
  have hd := delivery_run hp hq acts hinv0 hd0 hrun
  have hemit := hd.hemit
  have hk := hd.hk
  have hkcs : (s.consumed.length : Int) * cs ≤ (L : Int) * cs :=
    Int.mul_le_mul_of_nonneg_right (by omega) (by omega)
  have hlen : (s.emitted.length : Int) ≤ E - a := by omega
  refine ⟨hlen, ?_⟩
  intro upstream ha0 hup heq
  have hwl := window_length upstream a E ha0 (by omega) hup
  rw [← heq] at hwl
  omega

set_option maxRecDepth 8000 in
/-- The theorem `last_byte_never_written` at the session of C1: range 0..2,
chunk size 2, one chunk of two bytes and a last chunk of one byte. -/
theorem last_byte_never_written_example :
    (lostByteFinal.emitted.length : Int) ≤ 2 - 0 ∧
    lostByteFinal.emitted ≠ window [10, 11, 12] 0 2 :=
  have h := last_byte_never_written 0 2 3 2 1 (NewEmitter []) exampleSession lostByteFinal
    (lostByteSchedule [10, 11, 12]) 1 (by decide) (by decide) (by decide) (by decide)
    (by decide) (by decide) rfl (by decide) (by decide)
  ⟨h.1, h.2 [10, 11, 12] (by decide) (by decide)⟩


set_option maxRecDepth 8000 in
/-- C1 (the code at the failing input): one worker, chunk size 2, the range
0..2 of the three-byte upstream `[10, 11, 12]`. Every request is answered with
the window asked for, the worker has fetched both chunks, and
`ConcurrentDownload` returns after it has written the first chunk only:
`CurrentOffset` is 2, which is `>= rangeEnd`, and the loop ends
(proxy.go:147); `ProxyStop` takes the second chunk off the queue and drops its
buffer. The emitter has received two bytes and is closed; `upstream[0..=2]`
has three. -/
theorem C1_last_byte_lost :
    (ConcurrentDownload 0 2 3 2 1 (NewEmitter [])).bind
        (fun s0 => run s0 (lostByteSchedule [10, 11, 12])) = some lostByteFinal ∧
    lostByteFinal.reader = ReaderPC.exited ∧
    lostByteFinal.emitted = [10, 11] ∧
    window [10, 11, 12] 0 2 = [10, 11, 12] := by
  refine ⟨by decide, by decide, by decide, by decide⟩

set_option maxRecDepth 8000 in
/-- For comparison with C1: with the range 0..3 and the same chunk size, the
last chunk is two bytes long and the same course of events writes the whole
range to the emitter. -/
theorem complete_range_example :
    (ConcurrentDownload 0 3 4 2 1 (NewEmitter [])).bind
        (fun s0 => run s0 (completeSchedule [10, 11, 12, 13])) = some completeFinal ∧
    completeFinal.emitted = window [10, 11, 12, 13] 0 3 := by
  refine ⟨by decide, by decide⟩

/-! ### C2, C3: the response to a range request -/

theorem digitChar_digit (m : Nat) (h : m < 10) :
    isDigit (Nat.digitChar m) = true ∧ (Nat.digitChar m).toNat - '0'.toNat = m := by
  interval_cases m <;> decide

theorem digitsValue_append (xs : Str) (d : Char) :
    digitsValue (xs ++ [d]) = digitsValue xs * 10 + (d.toNat - '0'.toNat) := by
  simp [digitsValue, List.foldl_append]

theorem toDigitsCore_spec (fuel : Nat) :
    ∀ (n : Nat) (ds : Str), n < fuel →
      ∃ pre : Str, Nat.toDigitsCore 10 fuel n ds = pre ++ ds ∧ pre ≠ [] ∧
        pre.all isDigit = true ∧ digitsValue pre = n := by
  induction fuel with
  | zero => intro n ds h; omega
  | succ fuel ih =>
    intro n ds h
    have hd := digitChar_digit (n % 10) (Nat.mod_lt _ (by decide))
    simp only [Nat.toDigitsCore]
    split
    · rename_i h0
      refine ⟨[Nat.digitChar (n % 10)], rfl, by simp, by simp [hd.1], ?_⟩
      have hlt : n < 10 := by omega
      simp only [digitsValue, List.foldl_cons, List.foldl_nil, Nat.zero_mul, Nat.zero_add]
      rw [hd.2]
      omega
    · rename_i h0
      obtain ⟨pre, h1, _, h3, h4⟩ := ih (n / 10) (Nat.digitChar (n % 10) :: ds) (by omega)
      refine ⟨pre ++ [Nat.digitChar (n % 10)], by simp [h1], by simp, ?_, ?_⟩
      · simp [List.all_append, h3, hd.1]
      · rw [digitsValue_append, h4, hd.2]
        omega

theorem toDigits_spec (n : Nat) :
    Nat.toDigits 10 n ≠ [] ∧ (Nat.toDigits 10 n).all isDigit = true ∧
      digitsValue (Nat.toDigits 10 n) = n := by
  obtain ⟨pre, h1, h2, h3, h4⟩ := toDigitsCore_spec (n + 1) n [] (by omega)
  have : Nat.toDigits 10 n = pre := by simp [Nat.toDigits, h1]
  rw [this]
  exact ⟨h2, h3, h4⟩

theorem parseInt_digits (ds : Str) (h1 : ds ≠ []) (h2 : ds.all isDigit = true)
    (h3 : (digitsValue ds : Int) ≤ 9223372036854775807) : ParseInt ds = digitsValue ds := by
  cases ds with
  | nil => exact absurd rfl h1
  | cons c cs =>
    have hc : isDigit c = true := by
      simp only [List.all_cons, Bool.and_eq_true] at h2
      exact h2.1
    have hm : c ≠ '-' := by rintro rfl; revert hc; decide
    have hp : c ≠ '+' := by rintro rfl; revert hc; decide
    have hsplit : splitSign (c :: cs) = (false, c :: cs) := by
      unfold splitSign
      split
      · rename_i r heq
        exact absurd (List.cons.inj heq).1 hm
      · rename_i r heq
        exact absurd (List.cons.inj heq).1 hp
      · rfl
    unfold ParseInt
    simp only [hsplit, h2]
    simp
    omega

theorem parseInt_formatInt (n : Int) (h0 : 0 ≤ n) (h1 : n ≤ 9223372036854775807) :
    ParseInt (FormatInt n) = n := by
  have hs := toDigits_spec n.toNat
  unfold FormatInt
  rw [if_neg (by omega)]
  rw [parseInt_digits _ hs.1 hs.2.1 (by rw [hs.2.2]; omega), hs.2.2]
  omega

theorem stripLeading_append (pre s : Str) : stripLeading pre (pre ++ s) = some s := by
  induction pre with
  | nil => cases s <;> rfl
  | cons a pre ih => simp [stripLeading, ih]

theorem takeWhile_all_append {p : Char → Bool} (l r : Str) (x : Char)
    (hl : l.all p = true) (hx : p x = false) :
    (l ++ x :: r).takeWhile p = l ∧ (l ++ x :: r).dropWhile p = x :: r := by
  induction l with
  | nil => simp [List.takeWhile, List.dropWhile, hx]
  | cons a l ih =>
    simp only [List.all_cons, Bool.and_eq_true] at hl
    have := ih hl.2
    simp [List.takeWhile, List.dropWhile, hl.1, this.1, this.2]

theorem takeWhile_all {p : Char → Bool} (l : Str) (hl : l.all p = true) :
    l.takeWhile p = l := by
  induction l with
  | nil => rfl
  | cons a l ih =>
    simp only [List.all_cons, Bool.and_eq_true] at hl
    simp [List.takeWhile, hl.1, ih hl.2]

theorem dropBlanks_digits (l : Str) (hl : l.all isDigit = true) :
    l.dropWhile (fun c => c == ' ') = l := by
  cases l with
  | nil => rfl
  | cons a l =>
    simp only [List.all_cons, Bool.and_eq_true] at hl
    have ha : (a == ' ') = false := by
      have h1 := hl.1
      by_contra hc
      simp only [Bool.not_eq_false, beq_iff_eq] at hc
      subst hc
      revert h1
      decide
    simp [List.dropWhile, ha]

theorem findRange_digits (d1 d2 : Str) (h1 : d1 ≠ []) (hd1 : d1.all isDigit = true)
    (hd2 : d2.all isDigit = true) :
    findRange ("bytes=".toList ++ d1 ++ '-' :: d2) = some (d1, d2) := by
  have hm : matchRangeHere ("bytes=".toList ++ d1 ++ '-' :: d2) = some (d1, d2) := by
    unfold matchRangeHere
    rw [List.append_assoc, stripLeading_append]
    simp only
    have hd1b : (d1 ++ '-' :: d2).dropWhile (fun c => c == ' ') = d1 ++ '-' :: d2 := by
      cases d1 with
      | nil => exact absurd rfl h1
      | cons a l =>
        simp only [List.all_cons, Bool.and_eq_true] at hd1
        have ha : (a == ' ') = false := by
          have h1 := hd1.1
          by_contra hc
          simp only [Bool.not_eq_false, beq_iff_eq] at hc
          subst hc
          revert h1
          decide
        simp [List.dropWhile, ha]
    have htd := takeWhile_all_append d1 d2 '-' hd1 (by decide)
    rw [hd1b, htd.1, htd.2]
    have hne : d1.isEmpty = false := by
      cases d1 with
      | nil => exact absurd rfl h1
      | cons a l => rfl
    simp only [hne]
    have hdash : ('-' :: d2).dropWhile (fun c => c == ' ') = '-' :: d2 := by
      simp [List.dropWhile]
    rw [hdash]
    simp only [Bool.false_eq_true, if_false]
    rw [dropBlanks_digits d2 hd2, takeWhile_all d2 hd2]
  have hshape : "bytes=".toList ++ d1 ++ '-' :: d2
      = 'b' :: ("ytes=".toList ++ d1 ++ '-' :: d2) := rfl
  rw [hshape] at hm ⊢
  simp only [findRange, hm]

theorem parseRange_format (s e : Int) (hs0 : 0 ≤ s) (hs1 : s ≤ 9223372036854775807)
    (he0 : 0 ≤ e) (he1 : e ≤ 9223372036854775807) :
    parseRange ("bytes=".toList ++ FormatInt s ++ '-' :: FormatInt e) = (206, s, e) := by
  have hS := toDigits_spec s.toNat
  have hE := toDigits_spec e.toNat
  have hfs : FormatInt s = Nat.toDigits 10 s.toNat := by
    unfold FormatInt; rw [if_neg (by omega)]
  have hfe : FormatInt e = Nat.toDigits 10 e.toNat := by
    unfold FormatInt; rw [if_neg (by omega)]
  unfold parseRange
  rw [hfs, hfe, findRange_digits _ _ hS.1 hS.2.1 hE.2.1]
  simp only
  rw [← hfs, ← hfe, parseInt_formatInt s hs0 hs1, parseInt_formatInt e he0 he1]

theorem lookup_map_replace (h : Header) (k : Str) (vs : List Str)
    (hany : h.any (fun kv => kv.1 == k) = true) :
    (h.map (fun kv => if kv.1 == k then (k, vs) else kv)).lookup k = some vs := by
  induction h with
  | nil => simp at hany
  | cons a h ih =>
    obtain ⟨ak, av⟩ := a
    by_cases ha : ak = k
    · subst ha
      simp only [List.map_cons, beq_self_eq_true, if_true]
      rw [List.lookup_cons]
      simp only [beq_self_eq_true]
    · have ha2 : (ak == k) = false := by simpa using ha
      have ha3 : (k == ak) = false := by simpa using fun h => ha h.symm
      simp only [List.any_cons, ha2, Bool.false_or] at hany
      simp only [List.map_cons, ha2, Bool.false_eq_true, if_false]
      rw [List.lookup_cons]
      simp only [ha3]
      exact ih hany

theorem lookup_append_new (h : Header) (k : Str) (vs : List Str)
    (hany : ¬ (h.any (fun kv => kv.1 == k) = true)) :
    (h ++ [(k, vs)]).lookup k = some vs := by
  induction h with
  | nil =>
    simp only [List.nil_append]
    rw [List.lookup_cons]
    simp only [beq_self_eq_true]
  | cons a h ih =>
    obtain ⟨ak, av⟩ := a
    simp only [List.any_cons, Bool.or_eq_true, not_or] at hany
    have ha3 : (k == ak) = false := by
      have h1 := hany.1
      simp only [beq_iff_eq] at h1
      simpa using fun h => h1 h.symm
    simp only [List.cons_append]
    rw [List.lookup_cons]
    simp only [ha3]
    exact ih hany.2

theorem lookup_mapSet_same (h : Header) (k : Str) (vs : List Str) :
    (mapSet h k vs).lookup k = some vs := by
  unfold mapSet
  split
  · rename_i hany
    exact lookup_map_replace h k vs hany
  · rename_i hany
    exact lookup_append_new h k vs hany

theorem lookup_map_other (h : Header) (k k1 : Str) (vs : List Str) (hne : k1 ≠ k) :
    (h.map (fun kv => if kv.1 == k then (k, vs) else kv)).lookup k1 = h.lookup k1 := by
  have hk : (k1 == k) = false := by simpa using hne
  induction h with
  | nil => rfl
  | cons a h ih =>
    obtain ⟨ak, av⟩ := a
    by_cases ha : ak = k
    · subst ha
      simp only [List.map_cons, beq_self_eq_true, if_true]
      rw [List.lookup_cons, List.lookup_cons]
      simp only [hk]
      exact ih
    · have ha2 : (ak == k) = false := by simpa using ha
      simp only [List.map_cons, ha2, Bool.false_eq_true, if_false]
      rw [List.lookup_cons, List.lookup_cons]
      cases hka : k1 == ak
      · exact ih
      · rfl

theorem lookup_append_other (h : Header) (k k1 : Str) (vs : List Str) (hne : k1 ≠ k) :
    (h ++ [(k, vs)]).lookup k1 = h.lookup k1 := by
  have hk : (k1 == k) = false := by simpa using hne
  induction h with
  | nil =>
    simp only [List.nil_append]
    rw [List.lookup_cons]
    simp only [hk]
  | cons a h ih =>
    obtain ⟨ak, av⟩ := a
    simp only [List.cons_append]
    rw [List.lookup_cons, List.lookup_cons]
    cases hka : k1 == ak
    · exact ih
    · rfl

theorem lookup_mapSet_other (h : Header) (k k1 : Str) (vs : List Str) (hne : k1 ≠ k) :
    (mapSet h k vs).lookup k1 = h.lookup k1 := by
  unfold mapSet
  split
  · exact lookup_map_other h k k1 vs hne
  · exact lookup_append_other h k k1 vs hne

theorem get_set_same (h : Header) (k v : Str) : Header.Get (Header.Set h k v) k = v := by
  simp [Header.Get, Header.Set, lookup_mapSet_same]

theorem get_set_other (h : Header) (k k1 v : Str)
    (hne : CanonicalMIMEHeaderKey k1 ≠ CanonicalMIMEHeaderKey k) :
    Header.Get (Header.Set h k v) k1 = Header.Get h k1 := by
  simp [Header.Get, Header.Set, lookup_mapSet_other _ _ _ _ hne]

theorem mem_mapSet (h : Header) (k : Str) (vs : List Str) (kv : Str × List Str)
    (hm : kv ∈ mapSet h k vs) : kv = (k, vs) ∨ (kv.1 ≠ k ∧ kv ∈ h) := by
  unfold mapSet at hm
  split at hm
  · rw [List.mem_map] at hm
    obtain ⟨a, ha, rfl⟩ := hm
    by_cases hak : a.1 = k
    · left; simp [hak]
    · right
      have : (a.1 == k) = false := by simpa using hak
      simp [this, hak, ha]
  · rename_i hany
    rw [List.mem_append] at hm
    rcases hm with hm | hm
    · right
      refine ⟨?_, hm⟩
      intro hk
      apply hany
      rw [List.any_eq_true]
      exact ⟨kv, hm, by simp [hk]⟩
    · left
      simpa using hm

theorem mapSet_mem_same (h : Header) (k : Str) (vs : List Str) : (k, vs) ∈ mapSet h k vs := by
  unfold mapSet
  split
  · rename_i hany
    rw [List.any_eq_true] at hany
    obtain ⟨a, ha, hak⟩ := hany
    rw [List.mem_map]
    exact ⟨a, ha, by simp [hak]⟩
  · simp

theorem mapSet_mem_other (h : Header) (k : Str) (vs : List Str) (kv : Str × List Str)
    (hne : kv.1 ≠ k) (hm : kv ∈ h) : kv ∈ mapSet h k vs := by
  unfold mapSet
  split
  · rw [List.mem_map]
    refine ⟨kv, hm, ?_⟩
    have : (kv.1 == k) = false := by simpa using hne
    simp [this]
  · exact List.mem_append_left _ hm

/-- The header `K` (canonical, not a connection header) of the copy of a
header set with canonical names is the value of `K` in the set, when the set
has `K` with the single value `v` only. -/
theorem get_copyHeaders (h : Header) (K v : Str)
    (hcanon : ∀ kv ∈ h, CanonicalMIMEHeaderKey kv.1 = kv.1)
    (hK : CanonicalMIMEHeaderKey K = K)
    (hKc : (EqualFold (ToLower K) "connection".toList ||
      EqualFold (ToLower K) "proxy-connection".toList) = false)
    (hKn : K ≠ CanonicalMIMEHeaderKey "Connection".toList)
    (hmem : (K, [v]) ∈ h) (honly : ∀ vs, (K, vs) ∈ h → vs = [v]) :
    Header.Get (copyHeaders h) K = v := by
  unfold copyHeaders
  rw [get_set_other _ _ _ _ (by rw [hK]; exact hKn)]
  suffices hs : ∀ w0 : Header, Header.Get (h.foldl
      (fun wh kv =>
        if EqualFold (ToLower kv.1) "connection".toList ||
            EqualFold (ToLower kv.1) "proxy-connection".toList then wh
        else Header.Set wh kv.1 (",".toList.intercalate kv.2)) w0) K = v from hs []
  induction h using List.reverseRecOn with
  | nil => simp at hmem
  | append_singleton l a ih =>
    intro w0
    rw [List.foldl_append]
    simp only [List.foldl_cons, List.foldl_nil]
    by_cases hak : a.1 = K
    · have ha : a = (K, [v]) := by
        have := honly a.2 (by rw [← hak]; simp)
        exact Prod.ext hak this
      rw [ha]
      simp only [hKc]
      simp only [Bool.false_eq_true, if_false]
      rw [get_set_same]
      simp [List.intercalate]
    · have hin : (K, [v]) ∈ l := by
        rw [List.mem_append] at hmem
        rcases hmem with hm | hm
        · exact hm
        · simp only [List.mem_singleton] at hm
          exact absurd (by rw [← hm]) hak
      have hih := ih (fun kv hkv => hcanon kv (List.mem_append_left _ hkv)) hin
        (fun vs hvs => honly vs (List.mem_append_left _ hvs)) w0
      split
      · exact hih
      · rw [get_set_other _ _ _ _ (by
          rw [hK, hcanon a (by simp)]
          exact fun h => hak h.symm)]
        exact hih

theorem mapSet_canonical (h : Header) (k : Str) (vs : List Str)
    (hcanon : ∀ kv ∈ h, CanonicalMIMEHeaderKey kv.1 = kv.1)
    (hk : CanonicalMIMEHeaderKey k = k) :
    ∀ kv ∈ mapSet h k vs, CanonicalMIMEHeaderKey kv.1 = kv.1 := by
  intro kv hkv
  rcases mem_mapSet h k vs kv hkv with h1 | h1
  · rw [h1]; exact hk
  · exact hcanon kv h1.2

theorem mapSet_only (h : Header) (k : Str) (vs vs1 : List Str)
    (hm : (k, vs1) ∈ mapSet h k vs) : vs1 = vs := by
  rcases mem_mapSet h k vs _ hm with h1 | h1
  · exact (Prod.mk.inj h1).2
  · exact absurd rfl h1.1

theorem mapSet_only_other (h : Header) (k k1 : Str) (vs V : List Str) (hne : k1 ≠ k)
    (honly : ∀ vs1, (k1, vs1) ∈ h → vs1 = V) :
    ∀ vs1, (k1, vs1) ∈ mapSet h k vs → vs1 = V := by
  intro vs1 hm
  rcases mem_mapSet h k vs _ hm with h1 | h1
  · exact absurd (Prod.mk.inj h1).1 hne
  · exact honly vs1 h1.2

/-- The three headers of the served range in the response header built by
lines 637-649 of `handleGetMethod`, for an upstream header with canonical
names. -/
theorem get_range_headers (rh : Header) (v1 v2 v3 : Str)
    (hcanon : ∀ kv ∈ rh, CanonicalMIMEHeaderKey kv.1 = kv.1) :
    let h3 := Header.Set (Header.Set (Header.Set rh "Content-Range".toList v1)
      "Content-Length".toList v2) "Accept-Ranges".toList v3
    Header.Get (copyHeaders h3) "Content-Range".toList = v1 ∧
    Header.Get (copyHeaders h3) "Content-Length".toList = v2 ∧
    Header.Get (copyHeaders h3) "Accept-Ranges".toList = v3 := by
  intro h3
  have hCR : CanonicalMIMEHeaderKey "Content-Range".toList = "Content-Range".toList := by decide
  have hCL : CanonicalMIMEHeaderKey "Content-Length".toList = "Content-Length".toList := by
    decide
  have hAR : CanonicalMIMEHeaderKey "Accept-Ranges".toList = "Accept-Ranges".toList := by decide
  have n1 : "Content-Range".toList ≠ "Content-Length".toList := by decide
  have n2 : "Content-Range".toList ≠ "Accept-Ranges".toList := by decide
  have n3 : "Content-Length".toList ≠ "Accept-Ranges".toList := by decide
  have hh3 : h3 = mapSet (mapSet (mapSet rh "Content-Range".toList [v1])
      "Content-Length".toList [v2]) "Accept-Ranges".toList [v3] := by
    simp only [h3, Header.Set, hCR, hCL, hAR]
  have hc1 := mapSet_canonical rh _ [v1] hcanon hCR
  have hc2 := mapSet_canonical _ _ [v2] hc1 hCL
  have hc3 := mapSet_canonical _ _ [v3] hc2 hAR
  rw [hh3]
  refine ⟨?_, ?_, ?_⟩
  · apply get_copyHeaders _ _ _ hc3 hCR (by decide) (by decide)
    · exact mapSet_mem_other _ _ _ _ n2 (mapSet_mem_other _ _ _ _ n1 (mapSet_mem_same _ _ _))
    · exact mapSet_only_other _ _ _ _ _ n2
        (mapSet_only_other _ _ _ _ _ n1 (fun vs1 hm => mapSet_only _ _ _ _ hm))
  · apply get_copyHeaders _ _ _ hc3 hCL (by decide) (by decide)
    · exact mapSet_mem_other _ _ _ _ n3 (mapSet_mem_same _ _ _)
    · exact mapSet_only_other _ _ _ _ _ n3 (fun vs1 hm => mapSet_only _ _ _ _ hm)
  · apply get_copyHeaders _ _ _ hc3 hAR (by decide) (by decide)
    · exact mapSet_mem_same _ _ _
    · exact fun vs1 hm => mapSet_only _ _ _ _ hm

/-- What C2 says, where the code does it: for a request that passes the
checks of its parameters, a range-capable upstream of total size `N` whose
header has canonical names, and `Range: bytes=s-e` with `0 <= s <= e < N`,
the end `e` not being 0 unless `N` is 1, the response has status 206,
`Content-Range: bytes s-e/N`, `Content-Length: e-s+1`, `Accept-Ranges: bytes`,
and the downloader is started for the range `s..e`. -/
theorem range_request_served (w : World) (req : Request) (url : Str)
    (reqHeader responseHeaders : Header) (probes : List (Str × Header)) (N s e : Int)
    (hpre : preflight w req = Except.ok (url, reqHeader))
    (hup : upstreamHeaders w url reqHeader = some (Except.ok (responseHeaders, probes)))
    (hcanon : ∀ kv ∈ responseHeaders, CanonicalMIMEHeaderKey kv.1 = kv.1)
    (hcap : Header.Get responseHeaders "Content-Range".toList ≠ [] ∨
      Header.Get responseHeaders "Accept-Ranges".toList ≠ [])
    (hN : contentSizeOf responseHeaders = N) (hN63 : N ≤ 9223372036854775807)
    (hrange : Header.Get reqHeader "Range".toList
      = "bytes=".toList ++ FormatInt s ++ '-' :: FormatInt e)
    (hs : 0 ≤ s) (hse : s ≤ e) (heN : e < N) (he : e ≠ 0 ∨ N = 1) :
    (handleGetMethod w req).map
      (fun r => (r.status, Header.Get r.header "Content-Range".toList,
        Header.Get r.header "Content-Length".toList,
        Header.Get r.header "Accept-Ranges".toList, r.body, r.probes))
      = some (206,
          "bytes ".toList ++ FormatInt s ++ "-".toList ++ FormatInt e ++ "/".toList ++
            FormatInt N,
          FormatInt (e - s + 1), "bytes".toList,
          Body.download
            { downloadUrl := url, rangeStart := s, rangeEnd := e, fileSize := N,
              splitSize := splitSizeOf req.size, numTasks := numTasksOf req.thread s e N },
          probes) := by
  have hparse := parseRange_format s e hs (by omega) (by omega) (by omega)
  have hnot : ¬ (Header.Get responseHeaders "Content-Range".toList = [] ∧
      Header.Get responseHeaders "Accept-Ranges".toList = []) := by
    rintro ⟨h1, h2⟩
    rcases hcap with h | h
    · exact h h1
    · exact h h2
  have hend : (if e = 0 then wrap64 (N - 1) else e) = e := by
    split
    · rename_i h0
      rcases he with h | h
      · exact absurd h0 h
      · subst h; subst h0; decide
    · rfl
  have hlt : s < N := by omega
  have hw : wrap64 (e - s + 1) = e - s + 1 := wrap64_id _ (by omega) (by omega)
  have hget := get_range_headers responseHeaders
    ("bytes ".toList ++ FormatInt s ++ "-".toList ++ FormatInt e ++ "/".toList ++ FormatInt N)
    (FormatInt (e - s + 1)) "bytes".toList hcanon
  simp only [handleGetMethod, hpre, hup, hrange, hparse, answer, hnot, if_false, hN, hend, hlt,
    if_true, hw, Option.map_some', hget.1, hget.2.1, hget.2.2]

/-- For comparison with C2: `Range: bytes=10-20` is answered with
`Content-Range: bytes 10-20/5000` and `Content-Length: 11`. -/
theorem range_request_example :
    (handleGetMethod (exampleWorld exampleUpstream) (exampleRequest "bytes=10-20".toList [])).map
      (fun r => (r.status, Header.Get r.header "Content-Range".toList,
        Header.Get r.header "Content-Length".toList,
        Header.Get r.header "Accept-Ranges".toList))
      = some (206, "bytes 10-20/5000".toList, "11".toList, "bytes".toList) := by
  rfl

/-- C2 (the code at the failing input): for a range-capable upstream of 5000
bytes and `Range: bytes=0-0`, the response has status 206 and
`Accept-Ranges: bytes`, but `Content-Range: bytes 0-4999/5000` and
`Content-Length: 5000`, and the downloader is started for the range 0..4999:
an end of 0 is taken for an absent end (proxy.go:606-608). -/
theorem C2_range_zero_zero :
    (handleGetMethod (exampleWorld exampleUpstream) (exampleRequest "bytes=0-0".toList [])).map
      (fun r => (r.status, Header.Get r.header "Content-Range".toList,
        Header.Get r.header "Content-Length".toList,
        Header.Get r.header "Accept-Ranges".toList))
      = some (206, "bytes 0-4999/5000".toList, "5000".toList, "bytes".toList) ∧
    (handleGetMethod (exampleWorld exampleUpstream) (exampleRequest "bytes=0-0".toList [])).map
      (fun r => r.body)
      = some (Body.download
          { downloadUrl := "http://up/v.mp4".toList, rangeStart := 0, rangeEnd := 4999,
            fileSize := 5000, splitSize := 131072, numTasks := 1 }) := by
  constructor <;> rfl

/-- C3: when the request passes the checks of its parameters, the upstream is
range-capable with total size `N`, and `rangeStart >= N`, then
`handleGetMethod` answers with status 416 and the single header
`Content-Range: bytes */N`, writes no body and does not call
`ConcurrentDownload`. -/
theorem C3_range_not_satisfiable (w : World) (req : Request) (url : Str)
    (reqHeader responseHeaders : Header) (probes : List (Str × Header)) (N : Int)
    (hpre : preflight w req = Except.ok (url, reqHeader))
    (hup : upstreamHeaders w url reqHeader = some (Except.ok (responseHeaders, probes)))
    (hcap : Header.Get responseHeaders "Content-Range".toList ≠ [] ∨
      Header.Get responseHeaders "Accept-Ranges".toList ≠ [])
    (hN : contentSizeOf responseHeaders = N)
    (hstart : N ≤ (parseRange (Header.Get reqHeader "Range".toList)).2.1) :
    handleGetMethod w req =
      some
        { status := 416
          header := [("Content-Range".toList, ["bytes */".toList ++ FormatInt N])]
          body := Body.empty
          probes := probes } := by
  have hnot : ¬ (Header.Get responseHeaders "Content-Range".toList = [] ∧
      Header.Get responseHeaders "Accept-Ranges".toList = []) := by
    rintro ⟨h1, h2⟩
    rcases hcap with h | h
    · exact h h1
    · exact h h2
  subst hN
  have hlt : ¬ ((parseRange (Header.Get reqHeader "Range".toList)).2.1 <
      contentSizeOf responseHeaders) := by
    omega
  simp only [handleGetMethod, hpre, hup, answer, hnot, if_false, hlt]
  rfl

/-- C3, for the upstream of 5000 bytes and `Range: bytes=5000-`. -/
theorem C3_range_not_satisfiable_witness :
    handleGetMethod (exampleWorld exampleUpstream) (exampleRequest "bytes=5000-".toList []) =
      some
        { status := 416
          header := [("Content-Range".toList, ["bytes */".toList ++ FormatInt 5000])]
          body := Body.empty
          probes := [("http://up/v.mp4".toList,
            mapSet (newHeader [("Range".toList, ["bytes=5000-".toList])]) "Range".toList
              ["bytes=0-1023".toList])] } :=
  C3_range_not_satisfiable (exampleWorld exampleUpstream)
    (exampleRequest "bytes=5000-".toList []) "http://up/v.mp4".toList
    [("Range".toList, ["bytes=5000-".toList])] exampleUpstream _ 5000
    (by rfl) (by rfl) (Or.inl (by decide)) (by rfl) (by decide)

/-! ### C4, C5: the header filter -/

theorem isSpace_not_letter (c : Char) (h : isSpace c = true) :
    toLowerRune c = c ∧ c ≠ 'h' ∧ c ≠ 'r' ∧ c ≠ 'a' := by
  have hc : c.toNat < 65 ∨ 90 < c.toNat := by
    simp only [isSpace, Bool.or_eq_true, Bool.and_eq_true, decide_eq_true_eq] at h
    omega
  have h1 : ¬ ('A' ≤ c ∧ c ≤ 'Z') := by
    rintro ⟨ha, hz⟩
    have ha' : 65 ≤ c.toNat := ha
    have hz' : c.toNat ≤ 90 := hz
    omega
  have h2 : c.toNat ≠ 0x130 := by
    simp only [isSpace, Bool.or_eq_true, Bool.and_eq_true, decide_eq_true_eq] at h
    omega
  have h3 : c.toNat ≠ 0x212A := by
    simp only [isSpace, Bool.or_eq_true, Bool.and_eq_true, decide_eq_true_eq] at h
    omega
  refine ⟨by simp [toLowerRune, h1, h2, h3], ?_, ?_, ?_⟩ <;>
  · rintro rfl
    revert h
    decide

theorem trimSpace_nil_all_space (s : Str) (h : (TrimSpace s).length = 0) :
    ∀ c ∈ s, isSpace c = true := by
  have h0 : TrimSpace s = [] := List.length_eq_zero.mp h
  unfold TrimSpace at h0
  rw [List.reverse_eq_nil_iff, List.dropWhile_eq_nil_iff] at h0
  have h1 : s.dropWhile isSpace = [] := by
    cases hd : s.dropWhile isSpace with
    | nil => rfl
    | cons a t =>
      have ha : isSpace a = true := h0 a (by simp [hd])
      have hne : s.dropWhile isSpace ≠ [] := by simp [hd]
      have := List.head_dropWhile_not isSpace s hne
      simp [hd, ha] at this
  rw [List.dropWhile_eq_nil_iff] at h1
  exact h1

/-- The guard on names that trim to empty never changes the answer: such a
name never lower-cases to one of the four names. -/
theorem shouldFilterHeaderName_iff (k : Str) :
    shouldFilterHeaderName k = true ↔ ToLower k ∈ filteredNames := by
  unfold shouldFilterHeaderName
  split
  · rename_i h
    have hall := trimSpace_nil_all_space k h
    constructor
    · intro hf; cases hf
    · intro hmem
      exfalso
      cases k with
      | nil => revert hmem; decide
      | cons c t =>
        have hc := isSpace_not_letter c (hall c (by simp))
        simp only [ToLower, List.map_cons, hc.1, filteredNames, List.mem_cons,
          List.mem_singleton, List.not_mem_nil, or_false] at hmem
        have hhead : c = 'h' ∨ c = 'r' ∨ c = 'a' := by
          rcases hmem with h1 | h1 | h1 | h1 <;>
          · have := congrArg List.head? h1
            simp at this
            simp [this]
        rcases hhead with h1 | h1 | h1
        · exact hc.2.1 h1
        · exact hc.2.2.1 h1
        · exact hc.2.2.2 h1
  · simp [filteredNames, or_assoc]

/-- C4 (as stated, refuted): it is not the case that the filter excludes a
name exactly when it lower-cases to one of the four names or trims to the empty
string: the empty name trims to empty and is kept. -/
theorem C4_counterexample :
    ¬ (∀ k : Str, shouldFilterHeaderName k = true ↔
        (ToLower k ∈ filteredNames ∨ TrimSpace k = [])) := by
  intro h
  have h1 := (h []).2 (Or.inr (by decide))
  revert h1
  decide

/-- C4 (amended): an entry of the request header is in `newHeader` exactly when
its name, lower-cased, is none of `host`, `http-client-ip`, `remote-addr`,
`accept-encoding`, and it is kept with its values as they were; a name that
trims to the empty string is kept; `Range` is kept. -/
theorem C4_header_filter (h : Header) (k : Str) (v : List Str) :
    ((k, v) ∈ newHeader h ↔ ((k, v) ∈ h ∧ ToLower k ∉ filteredNames)) ∧
    (shouldFilterHeaderName k = true ↔ ToLower k ∈ filteredNames) ∧
    (if (TrimSpace k).length = 0 then shouldFilterHeaderName k = false else True) ∧
    shouldFilterHeaderName "Range".toList = false ∧
    newHeader [("Range".toList, v)] = [("Range".toList, v)] := by
  refine ⟨?_, shouldFilterHeaderName_iff k, ?_, by decide, ?_⟩
  · unfold newHeader
    rw [List.mem_filter]
    simp only [Bool.not_eq_true', ← shouldFilterHeaderName_iff]
    simp
  · split
    · rename_i h0
      simp [shouldFilterHeaderName, h0]
    · trivial
  · have hr : shouldFilterHeaderName ['R', 'a', 'n', 'g', 'e'] = false := by decide
    simp [newHeader, hr]

/-- C5: the header filter is idempotent: filtering a filtered header set gives
the same header set. -/
theorem C5_filter_idempotent (h : Header) : newHeader (newHeader h) = newHeader h := by
  unfold newHeader
  rw [List.filter_filter]
  congr 1
  funext kv
  simp

/-! ### C6, C7: the emitter -/

theorem closeTimes_closed {P : Type} (ops : PipeOps P) (n : Nat) (em : Emitter P)
    (h : em.closed = true) :
    Emitter.closeTimes ops n em = (em, List.replicate n none) := by
  induction n with
  | zero => rfl
  | succ n ih =>
    simp only [Emitter.closeTimes, Emitter.Close, h, if_true, ih, List.replicate_succ]

theorem close_closed {P : Type} (ops : PipeOps P) (em : Emitter P) :
    (Emitter.Close ops em).1.closed = true := by
  unfold Emitter.Close
  split
  · assumption
  · rfl

theorem call_keeps_closed {P : Type} (ops : PipeOps P) (em : Emitter P) (c : EmitterCall)
    (h : em.closed = true) : Emitter.call ops em c = em := by
  cases c <;> simp [Emitter.call, Emitter.Read, Emitter.Write, Emitter.WriteString,
    Emitter.Close, h]

theorem calls_keep_closed {P : Type} (ops : PipeOps P) (cs : List EmitterCall)
    (em : Emitter P) (h : em.closed = true) : cs.foldl (Emitter.call ops) em = em := by
  induction cs with
  | nil => rfl
  | cons c cs ih => rw [List.foldl_cons, call_keeps_closed ops em c h, ih]

/-- C6: `Close` is idempotent. For every emitter state and every `n ≥ 1`,
`n` calls of `Close` all return nil and leave the emitter in the state one call
leaves it in: `closed` and `IsClosed()` are true, and, when the emitter was
open, the two pipe ends have been closed exactly once (reader, then writer). -/
theorem C6_close_idempotent {P : Type} (ops : PipeOps P) (em : Emitter P) (n : Nat)
    (hn : 1 ≤ n) :
    (Emitter.closeTimes ops n em).1 = (Emitter.Close ops em).1 ∧
    (Emitter.closeTimes ops n em).2 = List.replicate n none ∧
    (Emitter.Close ops em).2 = none ∧
    (Emitter.closeTimes ops n em).1.closed = true ∧
    (Emitter.closeTimes ops n em).1.IsClosed = true ∧
    (Emitter.closeTimes ops n em).1.pipe =
      (if em.closed then em.pipe else ops.closeWriter (ops.closeReader em.pipe)) := by
  obtain ⟨m, rfl⟩ : ∃ m, n = m + 1 := ⟨n - 1, by omega⟩
  have hc := close_closed ops em
  have h2 : (Emitter.Close ops em).2 = none := by
    unfold Emitter.Close; split <;> rfl
  have hstep : Emitter.closeTimes ops (m + 1) em
      = ((Emitter.Close ops em).1, List.replicate (m + 1) none) := by
    simp only [Emitter.closeTimes, closeTimes_closed ops m _ hc, h2, List.replicate_succ]
  rw [hstep]
  refine ⟨rfl, rfl, h2, hc, hc, ?_⟩
  unfold Emitter.Close
  split <;> rfl

/-- C6, at an open emitter over the recording pipe, closed three times. -/
theorem C6_close_idempotent_witness :
    1 ≤ 3 ∧
    (Emitter.closeTimes logPipe 3 (NewEmitter [])).1
      = { pipe := [PipeEvent.closeReader, PipeEvent.closeWriter], closed := true } ∧
    (Emitter.closeTimes logPipe 3 (NewEmitter [])).1 = (Emitter.Close logPipe (NewEmitter [])).1 :=
  ⟨by decide, by decide, (C6_close_idempotent logPipe (NewEmitter []) 3 (by decide)).1⟩

/-- C7: once `Close` has been called, whatever calls follow, `Read` returns
`(0, EOF)` and `Write` and `WriteString` return `(0, ErrClosedPipe)` for every
argument and leave the emitter, its pipe included, as `Close` left it; on an
emitter that has not been closed `IsClosed` is false (it is false on a new one)
and `Read` and `Write` return what the pipe returns. -/
theorem C7_closed_emitter {P : Type} (ops : PipeOps P) (em : Emitter P)
    (later : List EmitterCall) (len : Nat) (b : List Byte) (s : String) (p : P) :
    let closedEm := (Emitter.Close ops em).1
    let em1 := later.foldl (Emitter.call ops) closedEm
    em1 = closedEm ∧
    Emitter.Read ops em1 len = (closedEm, ([], some IOErr.EOF)) ∧
    Emitter.Write ops em1 b = (closedEm, (0, some IOErr.ErrClosedPipe)) ∧
    Emitter.WriteString ops em1 s = (closedEm, (0, some IOErr.ErrClosedPipe)) ∧
    em1.IsClosed = true ∧
    (NewEmitter p).IsClosed = false ∧
    Emitter.Read ops (NewEmitter p) len
      = ({ pipe := (ops.read p len).1, closed := false }, (ops.read p len).2) ∧
    Emitter.Write ops (NewEmitter p) b
      = ({ pipe := (ops.write p b).1, closed := false }, (ops.write p b).2) ∧
    Emitter.WriteString ops (NewEmitter p) s
      = ({ pipe := (ops.write p s.toUTF8.toList).1, closed := false },
          (ops.write p s.toUTF8.toList).2) := by
  intro closedEm em1
  have hc : closedEm.closed = true := close_closed ops em
  have h1 : em1 = closedEm := calls_keep_closed ops later closedEm hc
  rw [h1]
  refine ⟨rfl, ?_, ?_, ?_, hc, rfl, rfl, rfl, rfl⟩
  · simp [Emitter.Read, hc]
  · simp [Emitter.Write, hc]
  · simp [Emitter.WriteString, Emitter.Write, hc]

/-! ### C8: the chunk size -/

/-- C8 (the code at the failing input): the chunk size is whatever
`strconv.ParseInt` makes of a non-empty `size`: 0 for `size=0` and for
`size=abc`, -1 for `size=-1`. The value goes to `ConcurrentDownload` as it is,
where a chunk size of 0 is a division by zero and a negative one a channel of
negative size: the goroutine panics. -/
theorem C8_chunk_size_not_checked :
    splitSizeOf "0".toList = 0 ∧ splitSizeOf "abc".toList = 0 ∧
    splitSizeOf "-1".toList = -1 ∧ splitSizeOf [] = 131072 ∧
    (handleGetMethod (exampleWorld exampleUpstream)
        (exampleRequest "bytes=10-20".toList "0".toList)).map (fun r => r.body)
      = some (Body.download
          { downloadUrl := "http://up/v.mp4".toList, rangeStart := 10, rangeEnd := 20,
            fileSize := 5000, splitSize := 0, numTasks := 1 }) ∧
    divInt64 (128 * 1024 * 1024) (splitSizeOf "0".toList) = none ∧
    ConcurrentDownload 10 20 5000 0 1 (NewEmitter []) = none ∧
    ConcurrentDownload 10 20 5000 (-1) 1 (NewEmitter []) = none := by
  refine ⟨by decide, by decide, by decide, by decide, by rfl, by decide, by decide, by decide⟩

/-! ### C9: the buffered bytes -/

/-- C9: in a session started by `ConcurrentDownload` with a chunk size of at
least 1, after any schedule of steps of the workers, replies of the upstream,
timers and steps of `ConcurrentDownload`, the total length of the buffers that
workers have put into chunks and `ProxyRead` has not returned is at most
`MaxBufferedChunk * ChunkSize`, where `MaxBufferedChunk` is
`⌊128 MiB / ChunkSize⌋`, and this product is at most 128 MiB. -/
theorem C9_buffered_bound (rangeStart rangeEnd fileSize splitSize numTasks : Int)
    (em : Emitter (List (List Byte))) (s0 s : Session) (acts : List Action)
    (h1 : 1 ≤ splitSize) (h2 : splitSize < 9223372036854775808)
    (hs1 : -9223372036854775808 ≤ rangeStart) (hs2 : rangeStart < 9223372036854775808)
    (hinit : ConcurrentDownload rangeStart rangeEnd fileSize splitSize numTasks em = some s0)
    (hrun : run s0 acts = some s) :
    s.p.ChunkSize = splitSize ∧
    s.p.MaxBufferedChunk = 134217728 / splitSize ∧
    (s.buffered : Int) ≤ s.p.MaxBufferedChunk * s.p.ChunkSize ∧
    s.p.MaxBufferedChunk * s.p.ChunkSize ≤ 134217728 := by
  have hp := params_of_chunkSize splitSize h1 h2
  have h0 := concurrentDownload_inv rangeStart rangeEnd fileSize splitSize numTasks em s0
    h1 h2 hs1 hs2 hinit
  have h := inv_run hp acts h0 hrun
  have hb := inv_buffered_le hp h
  have hprod := hp.prod_le
  rw [h.hcs, h.hM]
  refine ⟨rfl, rfl, hb, ?_⟩
  rw [Int.mul_comm]
  exact hprod

/-- C9, for one worker that has fetched both chunks of the range 0..2 (chunk
size 2) before anything was read: three bytes are buffered. -/
theorem C9_buffered_bound_witness :
    exampleBuffering.buffered = 3 ∧
    (exampleBuffering.buffered : Int)
      ≤ exampleBuffering.p.MaxBufferedChunk * exampleBuffering.p.ChunkSize :=
  ⟨by decide,
   (C9_buffered_bound 0 2 3 2 1 (NewEmitter []) exampleSession exampleBuffering
      bufferingSchedule (by decide) (by decide) (by decide) (by decide) (by decide)
      (by decide)).2.2.1⟩

/-! ### C10: the errors of the request parameters -/

theorem answer_status (url : Str) (responseHeaders : Header) (statusCode rangeStart rangeEnd : Int)
    (strThread strSplitSize : Str) (probes : List (Str × Header)) :
    (answer url responseHeaders statusCode rangeStart rangeEnd strThread strSplitSize
        probes).status = statusCode ∨
    (answer url responseHeaders statusCode rangeStart rangeEnd strThread strSplitSize
        probes).status = 416 := by
  unfold answer
  dsimp only
  split
  · exact Or.inl rfl
  · split
    · exact Or.inl rfl
    · exact Or.inr rfl

theorem upstreamHeaders_error (w : World) (url : Str) (reqHeader : Header) (resp : Response)
    (h : upstreamHeaders w url reqHeader = some (.error resp)) : resp.probes ≠ [] := by
  unfold upstreamHeaders at h
  dsimp only at h
  split at h
  · cases h
  · split at h
    · simp only [Option.some.injEq, Except.error.injEq] at h
      subst h
      simp [httpError]
    · simp only [Option.some.injEq, Except.error.injEq] at h
      subst h
      simp [httpError]
    · cases h
    · cases h

/-- A `Range` header that holds a match among other text is served as the
range of the leftmost match: `bytes=1-2junk` and `xbytes=1-2,bytes=3-4` give
status 206 and the download of 1..2. -/
theorem range_among_text_example :
    (handleGetMethod (exampleWorld exampleUpstream)
        (exampleRequest "bytes=1-2junk".toList [])).map
      (fun r => (r.status, r.probes.length, r.body))
      = some (206, 1,
          Body.download
            { downloadUrl := "http://up/v.mp4".toList, rangeStart := 1, rangeEnd := 2,
              fileSize := 5000, splitSize := 131072, numTasks := 1 }) ∧
    (handleGetMethod (exampleWorld exampleUpstream)
        (exampleRequest "xbytes=1-2,bytes=3-4".toList [])).map
      (fun r => (r.status, r.probes.length, r.body))
      = some (206, 1,
          Body.download
            { downloadUrl := "http://up/v.mp4".toList, rangeStart := 1, rangeEnd := 2,
              fileSize := 5000, splitSize := 131072, numTasks := 1 }) := by
  refine ⟨by rfl, by rfl⟩

/-- C10 (as stated, refuted): a request with a `Range` header that does not
parse is not answered with status 400: the probe is sent to the upstream and
the answer has status 200, the downloader being started for the whole
resource. -/
theorem C10_counterexample :
    (handleGetMethod (exampleWorld exampleUpstream) (exampleRequest "junk".toList [])).map
      (fun r => (r.status, r.probes.length, r.body))
      = some (200, 1,
          Body.download
            { downloadUrl := "http://up/v.mp4".toList, rangeStart := 0, rangeEnd := 4999,
              fileSize := 5000, splitSize := 131072, numTasks := 1 }) := by
  rfl

/-- C10 (amended): a GET request whose `auth` is empty or equal to the
configured key is answered by `http.Error`, with no request sent to the
upstream, with status 400 when `url` is missing, when `url` is not valid base64
under `form=base64`, and when `headers` is not valid base64 under `form=base64`
(the `url` being accepted); with status 500 when `headers` is not valid JSON
for a map of strings. The `Range` header is no source of an error: whatever it
holds, a request that has passed these checks is not answered with status 400
unless a request has been sent to the upstream (whose status it then is), and
once the header of the upstream is there the response is that of lines 580-670
for the status code 200 and the range 0..0 (the whole resource) when the
expression `bytes= *([0-9]+) *- *([0-9]*)` matches nowhere in the header, with
status 200 or 416; and for the status code 206 and the numbers of the leftmost
match when it matches somewhere, with status 206 or 416. `junk` has no match;
`bytes=1-2junk` and `xbytes=1-2,bytes=3-4` have the match 1, 2. -/
theorem C10_parameter_errors (w : World) (req : Request)
    (hauth : req.auth = [] ∨ req.auth = w.authKey) :
    (if req.url = [] then handleGetMethod w req = some (httpError 400 [])
     else
      match (if req.form = "base64".toList then w.base64Decode req.url else some req.url) with
      | none => handleGetMethod w req = some (httpError 400 [])
      | some _ =>
        if req.headers = [] then True
        else
          match (if req.form = "base64".toList then w.base64Decode req.headers
            else some req.headers) with
          | none => handleGetMethod w req = some (httpError 400 [])
          | some strHeader =>
            match w.jsonUnmarshal strHeader with
            | none => handleGetMethod w req = some (httpError 500 [])
            | some _ => True) ∧
    (httpError 400 []).status = 400 ∧ (httpError 400 []).probes = [] ∧
    (httpError 500 []).status = 500 ∧ (httpError 500 []).probes = [] ∧
    (∀ (url : Str) (reqHeader : Header) (resp : Response),
      preflight w req = .ok (url, reqHeader) → handleGetMethod w req = some resp →
      (resp.status = 400 → resp.probes ≠ []) ∧
      (∀ (responseHeaders : Header) (probes : List (Str × Header)),
        upstreamHeaders w url reqHeader = some (.ok (responseHeaders, probes)) →
        (findRange (Header.Get reqHeader "Range".toList) = none →
          resp = answer url responseHeaders 200 0 0 req.thread req.size probes ∧
          (resp.status = 200 ∨ resp.status = 416)) ∧
        (∀ g : Str × Str, findRange (Header.Get reqHeader "Range".toList) = some g →
          resp = answer url responseHeaders 206 (ParseInt g.1) (ParseInt g.2) req.thread
            req.size probes ∧
          (resp.status = 206 ∨ resp.status = 416)))) ∧
    findRange "junk".toList = none ∧
    findRange "bytes=1-2junk".toList = some ("1".toList, "2".toList) ∧
    findRange "xbytes=1-2,bytes=3-4".toList = some ("1".toList, "2".toList) := by
  have hna : ¬ (req.auth ≠ [] ∧ req.auth ≠ w.authKey) := by
    rintro ⟨h1, h2⟩
    rcases hauth with h | h
    · exact h1 h
    · exact h2 h
  refine ⟨?_, rfl, rfl, rfl, rfl, ?_, by decide, by decide, by decide⟩
  · split
    · rename_i hu
      simp only [handleGetMethod, preflight, hna, hu, if_false, if_true]
    · rename_i hu
      split
      · rename_i hdec
        simp only [handleGetMethod, preflight, hna, hu, if_false, hdec]
      · rename_i url hdec
        split
        · trivial
        · rename_i hh
          split
          · rename_i hdec2
            simp only [handleGetMethod, preflight, hna, hu, if_false, hdec, hh, hdec2]
          · rename_i strHeader hdec2
            split
            · rename_i hj
              simp only [handleGetMethod, preflight, hna, hu, if_false, hdec, hh, hdec2, hj]
            · trivial
  · intro url reqHeader resp hpre hresp
    simp only [handleGetMethod, hpre] at hresp
    cases hup : upstreamHeaders w url reqHeader with
    | none => simp [hup] at hresp
    | some r =>
      cases r with
      | error e =>
        simp only [hup, Option.some.injEq] at hresp
        subst hresp
        refine ⟨fun _ => upstreamHeaders_error w url reqHeader _ hup, ?_⟩
        intro responseHeaders probes h
        cases h
      | ok v =>
        obtain ⟨hdrs, pr⟩ := v
        simp only [hup, Option.some.injEq] at hresp
        subst hresp
        have hst := answer_status url hdrs (parseRange (Header.Get reqHeader "Range".toList)).1
          (parseRange (Header.Get reqHeader "Range".toList)).2.1
          (parseRange (Header.Get reqHeader "Range".toList)).2.2 req.thread req.size pr
        constructor
        · intro h400
          exfalso
          cases hf : findRange (Header.Get reqHeader "Range".toList) with
          | none =>
            simp only [parseRange, hf] at hst h400
            omega
          | some g =>
            simp only [parseRange, hf] at hst h400
            omega
        · intro responseHeaders probes h
          simp only [Option.some.injEq, Except.ok.injEq, Prod.mk.injEq] at h
          obtain ⟨h1, h2⟩ := h
          subst h1
          subst h2
          constructor
          · intro hf
            simp only [parseRange, hf] at hst ⊢
            exact ⟨trivial, hst⟩
          · intro g hf
            simp only [parseRange, hf] at hst ⊢
            exact ⟨trivial, hst⟩

/-- C10 (amended), for a request without `url` (status 400, nothing sent to
the upstream), and for the request with the `Range` header `junk` to a
range-capable upstream of 5000 bytes (status 200 or 416, here 200). -/
theorem C10_parameter_errors_witness :
    handleGetMethod (exampleWorld exampleUpstream)
        { url := [], form := [], headers := [], auth := [], thread := [], size := [],
          Header := [] }
      = some (httpError 400 []) ∧
    ((answer "http://up/v.mp4".toList exampleUpstream 200 0 0 [] []
        [("http://up/v.mp4".toList,
          mapSet (newHeader [("Range".toList, ["junk".toList])]) "Range".toList
            ["bytes=0-1023".toList])]).status = 200 ∨
     (answer "http://up/v.mp4".toList exampleUpstream 200 0 0 [] []
        [("http://up/v.mp4".toList,
          mapSet (newHeader [("Range".toList, ["junk".toList])]) "Range".toList
            ["bytes=0-1023".toList])]).status = 416) :=
  ⟨(C10_parameter_errors (exampleWorld exampleUpstream)
    { url := [], form := [], headers := [], auth := [], thread := [], size := [],
      Header := [] } (Or.inl rfl)).1,
   ((((C10_parameter_errors (exampleWorld exampleUpstream) (exampleRequest "junk".toList [])
      (Or.inl rfl)).2.2.2.2.2.1 "http://up/v.mp4".toList [("Range".toList, ["junk".toList])]
      _ rfl rfl).2 exampleUpstream _ rfl).1 (by decide)).2⟩

/-! ### C11: the file name taken from the URL -/

theorem split_first (s : Str) (c : Char) (h : c ∈ s) :
    ∃ p r, s = p ++ c :: r ∧ c ∉ p ∧ s.takeWhile (fun x => x != c) = p := by
  have hd : s.dropWhile (fun x => x != c) ≠ [] := by
    intro h0
    rw [List.dropWhile_eq_nil_iff] at h0
    have := h0 c h
    simp at this
  have hhead := List.head_dropWhile_not (fun x => x != c) s hd
  cases hdw : s.dropWhile (fun x => x != c) with
  | nil => exact absurd hdw hd
  | cons x r =>
    simp only [hdw, List.head_cons] at hhead
    have hx : x = c := by simpa using hhead
    subst hx
    refine ⟨s.takeWhile (fun y => y != x), r, ?_, ?_, rfl⟩
    · rw [← hdw, List.takeWhile_append_dropWhile]
    · intro hmem
      have := List.mem_takeWhile_imp hmem
      simp at this

theorem split_last (s : Str) (c : Char) (h : c ∈ s) :
    ∃ p r, s = p ++ c :: r ∧ c ∉ r ∧ s.reverse.takeWhile (fun x => x != c) = r.reverse := by
  obtain ⟨p1, r1, h1, h2, h3⟩ := split_first s.reverse c (by simpa using h)
  refine ⟨r1.reverse, p1.reverse, ?_, by simpa using h2, by simpa using h3⟩
  have := congrArg List.reverse h1
  simpa using this

theorem takeWhile_ne_of_not_mem (s : Str) (c : Char) (h : c ∉ s) :
    s.takeWhile (fun x => x != c) = s := by
  rw [List.takeWhile_eq_self_iff]
  intro x hx
  simp only [bne_iff_ne, ne_eq]
  rintro rfl
  exact h hx

theorem take_length_takeWhile (l : Str) (p : Char → Bool) :
    l.take (l.takeWhile p).length = l.takeWhile p := by
  have h := List.take_left (l.takeWhile p) (l.dropWhile p)
  rwa [List.takeWhile_append_dropWhile] at h

/-- The file name derivation of lines 489-499 against the words of the
specification: the slice is out of range exactly when a `?` stands before the
last `/` of the URL; in every other case the result is the part of the URL
after its last `/`, cut at the first `?`. -/
theorem fileNameFromUrl_eq (url : Str) :
    fileNameFromUrl url =
      if '?' ∈ url ∧ Index url '?' < LastIndex url '/' then none
      else some (fileNameSpec url) := by
  unfold fileNameFromUrl fileNameSpec afterLast
  by_cases hq : '?' ∈ url
  · obtain ⟨p, r, hs, hp, htw⟩ := split_first url '?' hq
    have hIdx : Index url '?' = p.length := by simp [Index, hq, htw]
    rw [hIdx]
    by_cases hsl : '/' ∈ url
    · obtain ⟨p2, r2, hs2, hr2, htw2⟩ := split_last url '/' hsl
      have hlen2 : url.length = p2.length + 1 + r2.length := by
        rw [hs2]; simp; omega
      have hLast : LastIndex url '/' = p2.length := by
        simp only [LastIndex, hsl, if_true, htw2, List.length_reverse]
        omega
      rw [hLast]
      have hne : (p.length : Int) ≠ -1 := by omega
      simp only [hne, if_false, hq, true_and, htw2, List.reverse_reverse]
      by_cases hlt : (p.length : Int) < p2.length
      · simp only [hlt, if_true, sliceBetween]
        rw [if_neg (by omega)]
      · simp only [hlt, if_false]
        -- the first `?` is in `r2`
        have hqp2 : '?' ∉ p2 := by
          intro hmem
          obtain ⟨a1, a2, ha, ha1, _⟩ := split_first p2 '?' hmem
          have htw3 : url.takeWhile (fun x => x != '?') = a1 := by
            rw [hs2, ha, List.append_assoc]
            rw [List.takeWhile_append_of_pos]
            · simp
            · intro x hx
              simp only [bne_iff_ne, ne_eq]
              rintro rfl
              exact ha1 hx
          have : p.length < p2.length := by
            rw [← htw, htw3, ha]; simp
          omega
        have htwq : url.takeWhile (fun x => x != '?')
            = p2 ++ '/' :: r2.takeWhile (fun x => x != '?') := by
          rw [hs2, List.takeWhile_append_of_pos]
          · simp
          · intro x hx
            simp only [bne_iff_ne, ne_eq]
            rintro rfl
            exact hqp2 hx
        have hplen : p.length = p2.length + 1 + (r2.takeWhile (fun x => x != '?')).length := by
          rw [← htw, htwq]; simp; omega
        have hle : (r2.takeWhile (fun x => x != '?')).length ≤ r2.length :=
          List.Sublist.length_le (List.takeWhile_sublist _)
        simp only [sliceBetween]
        rw [if_pos (by omega)]
        congr 1
        have h1 : ((p2.length : Int) + 1).toNat = p2.length + 1 := by omega
        have h2 : ((p.length : Int) - ((p2.length : Int) + 1)).toNat
            = (r2.takeWhile (fun x => x != '?')).length := by omega
        rw [h1, h2]
        have h3 : List.drop (p2.length + 1) url = r2 := by
          rw [hs2]
          have : p2 ++ '/' :: r2 = (p2 ++ ['/']) ++ r2 := by simp
          rw [this]
          have hl : (p2 ++ ['/']).length = p2.length + 1 := by simp
          rw [← hl, List.drop_left]
        rw [h3]
        exact take_length_takeWhile r2 _
    · have hLast : LastIndex url '/' = -1 := by simp [LastIndex, hsl]
      rw [hLast]
      have hne : (p.length : Int) ≠ -1 := by omega
      have hnlt : ¬ ((p.length : Int) < -1) := by omega
      simp only [hne, if_false, hq, true_and, hnlt]
      have hrev : url.reverse.takeWhile (fun x => x != '/') = url.reverse :=
        takeWhile_ne_of_not_mem _ _ (by simpa using hsl)
      rw [hrev, List.reverse_reverse]
      have hle : p.length ≤ url.length := by rw [hs]; simp
      simp only [sliceBetween]
      rw [if_pos (by omega)]
      congr 1
      have h1 : ((-1 : Int) + 1).toNat = 0 := by decide
      have h2 : ((p.length : Int) - (-1 + 1)).toNat = p.length := by omega
      rw [h1, h2, List.drop_zero, ← htw]
      exact (take_length_takeWhile url _).trans rfl
  · have hIdx : Index url '?' = -1 := by simp [Index, hq]
    rw [hIdx]
    simp only [if_true, hq, false_and, if_false]
    by_cases hsl : '/' ∈ url
    · obtain ⟨p2, r2, hs2, hr2, htw2⟩ := split_last url '/' hsl
      have hlen2 : url.length = p2.length + 1 + r2.length := by
        rw [hs2]; simp; omega
      have hLast : LastIndex url '/' = p2.length := by
        simp only [LastIndex, hsl, if_true, htw2, List.length_reverse]
        omega
      rw [hLast, htw2, List.reverse_reverse]
      have hqr : '?' ∉ r2 := by
        intro hmem
        apply hq
        rw [hs2]
        simp [hmem]
      rw [takeWhile_ne_of_not_mem _ _ hqr]
      simp only [sliceFrom]
      rw [if_pos (by omega)]
      congr 1
      have h1 : ((p2.length : Int) + 1).toNat = p2.length + 1 := by omega
      rw [h1]
      conv_lhs => rw [hs2]
      have : p2 ++ '/' :: r2 = (p2 ++ ['/']) ++ r2 := by simp
      rw [this]
      have hl : (p2 ++ ['/']).length = p2.length + 1 := by simp
      rw [← hl, List.drop_left]
    · have hLast : LastIndex url '/' = -1 := by simp [LastIndex, hsl]
      rw [hLast]
      have hrev : url.reverse.takeWhile (fun x => x != '/') = url.reverse :=
        takeWhile_ne_of_not_mem _ _ (by simpa using hsl)
      rw [hrev, List.reverse_reverse, takeWhile_ne_of_not_mem _ _ hq]
      simp only [sliceFrom]
      rw [if_pos (by omega)]
      rfl

/-- C11 (the code at the failing input): for the URL
`http://up/v?next=/a/b.mp4` the last `/` is at 19 and the first `?` at 11, so
`url[lastSlashIndex+1 : queryIndex]` is `url[20:11]`: the slice is out of
range and the handler panics, where the part after the last `/`, cut at the
first `?`, is `b.mp4`. A URL without `/` and a URL whose `?` comes after the
last `/` give that part. -/
theorem C11_slice_out_of_range :
    fileNameFromUrl "http://up/v?next=/a/b.mp4".toList = none ∧
    LastIndex "http://up/v?next=/a/b.mp4".toList '/' = 19 ∧
    Index "http://up/v?next=/a/b.mp4".toList '?' = 11 ∧
    fileNameSpec "http://up/v?next=/a/b.mp4".toList = "b.mp4".toList ∧
    fileNameFromUrl "v.mp4?x=1".toList = some "v.mp4".toList ∧
    fileNameFromUrl "http://up/d/v.mp4?x=1".toList = some "v.mp4".toList := by
  refine ⟨by decide, by decide, by decide, by decide, by decide, by decide⟩

/-! ### The number of chunks and the number of workers -/

theorem ceilDiv_of_dvd (n d : Int) (hd : 1 ≤ d) (h : n % d = 0) : ceilDiv n d = n / d := by
  unfold ceilDiv
  have h1 := Int.emod_add_ediv n d
  rw [h] at h1
  have h2 : n + d - 1 = (d - 1) + d * (n / d) := by omega
  rw [h2, Int.add_mul_ediv_left _ _ (by omega), Int.ediv_eq_zero_of_lt (by omega) (by omega)]
  omega

theorem ceilDiv_of_not_dvd (n d : Int) (hd : 1 ≤ d) (h : n % d ≠ 0) :
    ceilDiv n d = n / d + 1 := by
  unfold ceilDiv
  have h1 := Int.emod_add_ediv n d
  have h3 := Int.emod_nonneg n (show d ≠ 0 by omega)
  have h4 := Int.emod_lt_of_pos n (show 0 < d by omega)
  have h2 : n + d - 1 = (n % d - 1) + d * (n / d + 1) := by
    have : d * (n / d + 1) = d * (n / d) + d := by ring
    omega
  rw [h2, Int.add_mul_ediv_left _ _ (by omega), Int.ediv_eq_zero_of_lt (by omega) (by omega)]
  omega

theorem concurrentDownload_workers (a E fileSize cs W : Int) (em : Emitter (List (List Byte)))
    (s0 : Session) (hcs : 1 ≤ cs) (hcs2 : cs < 9223372036854775808)
    (hinit : ConcurrentDownload a E fileSize cs W em = some s0) :
    s0.workers.length =
      (if wrap64 (wrap64 (Int.tdiv (wrap64 (E - a + 1)) cs) + 1) > W then W
        else wrap64 (wrap64 (Int.tdiv (wrap64 (E - a + 1)) cs) + 1)).toNat := by
  have hne : cs ≠ 0 := by omega
  have hM : 0 ≤ (134217728 : Int) / cs := Int.ediv_nonneg (by decide) (by omega)
  have htd : Int.tdiv (128 * 1024 * 1024) cs = 134217728 / cs := by
    rw [Int.tdiv_eq_ediv (by decide) (by omega)]
    rfl
  have hMle : (134217728 : Int) / cs ≤ 134217728 := Int.ediv_le_self _ (by decide)
  have hw : wrap64 (134217728 / cs) = 134217728 / cs := wrap64_id _ (by omega) (by omega)
  simp only [ConcurrentDownload, divInt64, hne, if_false, htd, hw, newProxyDownloadStruct,
    show ¬ ((134217728 : Int) / cs < 0) from by omega, Option.some.injEq] at hinit
  subst hinit
  simp

/-! ### C12: the chunks the planner allocates -/

theorem ceilDiv_succ (n d : Int) (hd : 1 ≤ d) : ceilDiv (n + 1) d = n / d + 1 := by
  unfold ceilDiv
  have h : n + 1 + d - 1 = n + 1 * d := by omega
  rw [h, Int.add_mul_ediv_right _ _ (by omega)]

theorem chunkCount_eq {a E cs : Int} {W : Nat} (hp : PlanParams a E cs W) :
    (chunkCount a E cs : Int) = (E - a) / cs + 1 := by
  have h1 := hp.a_le
  have h2 := hp.cs_pos
  have hq : 0 ≤ (E - a) / cs := Int.ediv_nonneg (by omega) (by omega)
  unfold chunkCount
  rw [show E - a + 1 = (E - a) + 1 from rfl, ceilDiv_succ _ _ h2]
  omega

theorem chunkCount_pos {a E cs : Int} {W : Nat} (hp : PlanParams a E cs W) :
    1 ≤ chunkCount a E cs := by
  have h := chunkCount_eq hp
  have hq : 0 ≤ (E - a) / cs := Int.ediv_nonneg (by have := hp.a_le; omega) (by have := hp.cs_pos; omega)
  omega

theorem lt_chunkCount_iff {a E cs : Int} {W : Nat} (hp : PlanParams a E cs W) (m : Nat) :
    m < chunkCount a E cs ↔ a + (m : Int) * cs ≤ E := by
  have h := chunkCount_eq hp
  have h2 := hp.cs_pos
  have hiff : (m : Int) ≤ (E - a) / cs ↔ (m : Int) * cs ≤ E - a :=
    Int.le_ediv_iff_mul_le (by omega)
  constructor
  · intro hm
    have := hiff.1 (by omega)
    omega
  · intro hm
    have := hiff.2 (by omega)
    omega

theorem offset_bounds {a E cs : Int} {W : Nat} (hp : PlanParams a E cs W) (m : Nat)
    (hm : m ≤ chunkCount a E cs + W) :
    0 ≤ a + (m : Int) * cs ∧ a + (m : Int) * cs < 9223372036854775808 := by
  have h := chunkCount_eq hp
  have h2 := hp.cs_pos
  have h3 := hp.no_wrap
  have h4 := hp.a_nonneg
  have h5 := hp.a_le
  have hq : (E - a) / cs * cs ≤ E - a := Int.ediv_mul_le _ (by omega)
  have hnn : 0 ≤ (m : Int) * cs := Int.mul_nonneg (by omega) (by omega)
  have hmono : (m : Int) * cs ≤ ((E - a) / cs + 1 + (W : Int)) * cs :=
    Int.mul_le_mul_of_nonneg_right (by omega) (by omega)
  have hexp : ((E - a) / cs + 1 + (W : Int)) * cs = (E - a) / cs * cs + ((W : Int) + 1) * cs := by
    ring
  constructor <;> omega

theorem live_set (ws : List WorkerPC) (i : Nat) (pc0 pc1 : WorkerPC) (h : ws[i]? = some pc0) :
    live (ws.set i pc1) + (if pc0 = WorkerPC.done then 0 else 1)
      = live ws + (if pc1 = WorkerPC.done then 0 else 1) := by
  induction ws generalizing i with
  | nil => simp at h
  | cons w ws ih =>
    cases i with
    | zero =>
      simp only [List.getElem?_cons_zero, Option.some.injEq] at h
      subst h
      simp only [live, List.set_cons_zero, List.countP_cons]
      by_cases h0 : w = WorkerPC.done <;> by_cases h1 : pc1 = WorkerPC.done <;> simp [h0, h1]
    | succ i =>
      simp only [List.getElem?_cons_succ] at h
      have := ih i h
      simp only [live, List.set_cons_succ, List.countP_cons] at this ⊢
      omega

theorem live_set_le (ws : List WorkerPC) (i : Nat) (pc0 pc1 : WorkerPC) (h : ws[i]? = some pc0)
    (h0 : pc0 ≠ WorkerPC.done) : live (ws.set i pc1) ≤ live ws := by
  have := live_set ws i pc0 pc1 h
  rw [if_neg h0] at this
  split at this <;> omega

theorem live_set_done (ws : List WorkerPC) (i : Nat) (pc0 : WorkerPC) (h : ws[i]? = some pc0)
    (h0 : pc0 ≠ WorkerPC.done) : live (ws.set i WorkerPC.done) + 1 = live ws := by
  have := live_set ws i pc0 WorkerPC.done h
  rw [if_neg h0, if_pos rfl] at this
  omega

theorem live_pos (ws : List WorkerPC) (i : Nat) (pc0 : WorkerPC) (h : ws[i]? = some pc0)
    (h0 : pc0 ≠ WorkerPC.done) : 1 ≤ live ws := by
  have := live_set_done ws i pc0 h h0
  omega

theorem live_replicate (n : Nat) : live (List.replicate n WorkerPC.loopTop) = n := by
  induction n with
  | zero => rfl
  | succ n ih =>
    simp only [live, List.replicate_succ, List.countP_cons] at ih ⊢
    rw [ih]
    rfl

/-- A step that leaves the planner's variables and the offsets of the chunks
alone, and revives no worker, keeps the invariant of the planner. -/
theorem plan_frame {a E cs : Int} {W : Nat} {s s1 : Session} (h : PlanInv a E cs W s)
    (h1 : s1.p.NextChunkStartOffset = s.p.NextChunkStartOffset)
    (h2 : s1.p.ChunkSize = s.p.ChunkSize) (h3 : s1.p.EndOffset = s.p.EndOffset)
    (h4 : s1.planned = s.planned) (h5 : live s1.workers ≤ live s.workers) :
    PlanInv a E cs W s1 := by
  obtain ⟨m, hm1, hm2, hm3⟩ := h.hplan
  exact
    { hcs := by rw [h2]; exact h.hcs
      hE := by rw [h3]; exact h.hE
      hplan := ⟨m, by rw [h1]; exact hm1, by rw [h4]; exact hm2, by omega⟩
      hchunk := by rw [h4]; exact h.hchunk }

theorem planned_set_put (chunks : List Chunk) (c : Nat) (ch : Chunk) (buf : List Byte)
    (h : chunks[c]? = some ch) :
    (chunks.set c (ch.put buf)).map (fun ch => (ch.startOffset, ch.endOffset))
      = chunks.map (fun ch => (ch.startOffset, ch.endOffset)) := by
  apply List.ext_getElem?
  intro j
  simp only [List.getElem?_map, List.getElem?_set]
  split
  · rename_i hcj
    subst hcj
    split
    · simp [h, Chunk.put]
    · rename_i hlt
      have : chunks[c]? = none := by
        rw [List.getElem?_eq_none_iff]
        omega
      rw [this] at h
      cases h
  · rfl

theorem plan_drainOne {a E cs : Int} {W : Nat} {s s1 : Session}
    (h : PlanInv a E cs W s) (hd : drainOne s = some s1) :
    PlanInv a E cs W s1 ∧ s1.workers = s.workers := by
  unfold drainOne at hd
  split at hd
  · cases hd
  · split at hd
    · cases hd
    · rename_i x0 c q hq x1 ch hc
      simp only [Option.some.injEq] at hd
      subst hd
      refine ⟨plan_frame h rfl rfl rfl ?_ (Nat.le_refl _), rfl⟩
      exact planned_set_put s.chunks c ch [] hc

theorem plan_setWorker {a E cs : Int} {W : Nat} {s : Session} (h : PlanInv a E cs W s)
    (i : Nat) (pc0 pc1 : WorkerPC) (hpc : s.workers[i]? = some pc0) (h0 : pc0 ≠ WorkerPC.done) :
    PlanInv a E cs W (s.setWorker i pc1) :=
  plan_frame h rfl rfl rfl rfl (live_set_le s.workers i pc0 pc1 hpc h0)

theorem plan_stopFlag {a E cs : Int} {W : Nat} {s : Session} (h : PlanInv a E cs W s) :
    PlanInv a E cs W { s with p := { s.p with ProxyRunning := false } } :=
  plan_frame h rfl rfl rfl rfl (Nat.le_refl _)

/-- The critical section of the planner keeps the invariant of the planner. -/
theorem plan_plan {a E cs : Int} {W : Nat} {s s1 : Session} (hp : PlanParams a E cs W)
    (h : PlanInv a E cs W s) (i : Nat) (hpc : s.workers[i]? = some WorkerPC.plan)
    (hstep : ProxyWorker s i = some s1) : PlanInv a E cs W s1 := by
  obtain ⟨m, hm1, hm2, hm3⟩ := h.hplan
  have hcs := h.hcs
  have hE := h.hE
  have hcs1 := hp.cs_pos
  have hlive := live_pos s.workers i _ hpc (by simp)
  have hb0 := offset_bounds hp m (by omega)
  have hb1 := offset_bounds hp (m + 1) (by omega)
  have hexp : ((m + 1 : Nat) : Int) * cs = (m : Int) * cs + cs := by
    push_cast
    ring
  rw [hexp] at hb1
  have hnext : wrap64 (s.p.NextChunkStartOffset + s.p.ChunkSize) = a + ((m + 1 : Nat) : Int) * cs := by
    rw [hm1, hcs, hexp]
    have := wrap64_id (a + (m : Int) * cs + cs) (by omega) (by omega)
    omega
  have hiff := lt_chunkCount_iff hp m
  unfold ProxyWorker at hstep
  simp only [hpc] at hstep
  split at hstep
  · rename_i hle
    rw [hm1, hE] at hle
    have hmN : m < chunkCount a E cs := hiff.2 hle
    split at hstep
    · simp only [Option.some.injEq] at hstep
      subst hstep
      have hlen : s.chunks.length = m := by
        have : s.planned.length = s.chunks.length := by simp [Session.planned]
        omega
      have hend : wrap64 (s.p.NextChunkStartOffset + s.p.ChunkSize - 1)
          = a + (m : Int) * cs + cs - 1 := by
        rw [hm1, hcs]
        apply wrap64_id <;> omega
      exact
        { hcs := hcs
          hE := hE
          hplan := by
            refine ⟨m + 1, hnext, ?_, ?_⟩
            · simp only [Session.planned, Session.setWorker, List.length_map, List.length_append,
                List.length_singleton]
              omega
            · have := live_set_le s.workers i _ (WorkerPC.bpTop s.chunks.length) hpc (by simp)
              show max (m + 1) (chunkCount a E cs) + live (s.workers.set i _) ≤ _
              omega
          hchunk := by
            intro j x y hj
            simp only [Session.planned, Session.setWorker, List.map_append, List.map_cons,
              List.map_nil, List.getElem?_append, List.length_map] at hj
            split at hj
            · exact h.hchunk j x y hj
            · rename_i hjn
              cases hjj : j - s.chunks.length with
              | zero =>
                simp only [hjj, List.getElem?_cons_zero, Option.some.injEq, newChunk,
                  Prod.mk.injEq] at hj
                have hjeq : j = m := by omega
                subst hjeq
                obtain ⟨hx, hy⟩ := hj
                refine ⟨by rw [← hx, hm1], ?_⟩
                rw [← hy, hend, hE]
                split <;> omega
              | succ k => simp [hjj] at hj }
    · cases hstep
  · rename_i hgt
    rw [hm1, hE] at hgt
    have hmN : ¬ m < chunkCount a E cs := fun hlt => hgt (hiff.1 hlt)
    simp only [Option.some.injEq] at hstep
    subst hstep
    exact
      { hcs := hcs
        hE := hE
        hplan := by
          refine ⟨m + 1, hnext, ?_, ?_⟩
          · show s.planned.length = _
            omega
          · have := live_set_done s.workers i _ hpc (by simp)
            show max (m + 1) (chunkCount a E cs) + live (s.workers.set i _) ≤ _
            omega
        hchunk := h.hchunk }

theorem plan_ProxyWorker {a E cs : Int} {W : Nat} {s s1 : Session} (hp : PlanParams a E cs W)
    (h : PlanInv a E cs W s) (i : Nat) (hstep : ProxyWorker s i = some s1) :
    PlanInv a E cs W s1 := by
  cases hpc : s.workers[i]? with
  | none => simp [ProxyWorker, hpc] at hstep
  | some pc =>
    cases pc with
    | plan => exact plan_plan hp h i hpc hstep
    | loopTop =>
      simp only [ProxyWorker, hpc, Option.some.injEq] at hstep
      subst hstep
      exact plan_setWorker h i _ _ hpc (by simp)
    | bpTop c =>
      simp only [ProxyWorker, hpc, Option.some.injEq] at hstep
      subst hstep
      exact plan_setWorker h i _ _ hpc (by simp)
    | bpCheck c =>
      simp only [ProxyWorker, hpc, Option.some.injEq] at hstep
      subst hstep
      exact plan_setWorker h i _ _ hpc (by simp)
    | fetchTop c =>
      simp only [ProxyWorker, hpc] at hstep
      split at hstep
      · split at hstep
        · cases hstep
        · split at hstep <;>
          · simp only [Option.some.injEq] at hstep
            subst hstep
            exact plan_setWorker h i _ _ hpc (by simp)
      · simp only [Option.some.injEq] at hstep
        subst hstep
        exact plan_setWorker h i _ _ hpc (by simp)
    | fetching c r m => simp [ProxyWorker, hpc] at hstep
    | stop =>
      simp only [ProxyWorker, hpc, Option.some.injEq] at hstep
      subst hstep
      exact plan_setWorker (plan_stopFlag h) i _ _ hpc (by simp)
    | drain =>
      simp only [ProxyWorker, hpc] at hstep
      cases hd : drainOne s with
      | none => simp [hd] at hstep
      | some s2 =>
        simp only [hd, Option.some.injEq] at hstep
        subst hstep
        have h2 := plan_drainOne h hd
        exact plan_setWorker h2.1 i _ _ (by rw [h2.2]; exact hpc) (by simp)
    | done => simp [ProxyWorker, hpc] at hstep
    | panicked => simp [ProxyWorker, hpc] at hstep

theorem plan_fetchReply {a E cs : Int} {W : Nat} {s s1 : Session}
    (h : PlanInv a E cs W s) (i : Nat) (r : FetchReply) (hstep : fetchReply s i r = some s1) :
    PlanInv a E cs W s1 := by
  unfold fetchReply at hstep
  split at hstep
  · rename_i c retry m hpc
    cases r with
    | transportError =>
      simp only [Option.some.injEq] at hstep
      subst hstep
      exact plan_setWorker h i _ _ hpc (by simp)
    | badStatus =>
      simp only [Option.some.injEq] at hstep
      subst hstep
      exact plan_setWorker h i _ _ hpc (by simp)
    | ok body =>
      cases body with
      | none =>
        simp only [Option.some.injEq] at hstep
        subst hstep
        exact plan_setWorker h i _ _ hpc (by simp)
      | some body =>
        simp only at hstep
        split at hstep
        · cases hstep
        · rename_i ch hc
          split at hstep
          · simp only [Option.some.injEq] at hstep
            subst hstep
            exact plan_setWorker h i _ _ hpc (by simp)
          · simp only [Option.some.injEq] at hstep
            subst hstep
            refine plan_frame h rfl rfl rfl ?_ (live_set_le s.workers i _ _ hpc (by simp))
            exact planned_set_put s.chunks c ch _ hc
  · cases hstep

theorem plan_workerTimeout {a E cs : Int} {W : Nat} {s s1 : Session}
    (h : PlanInv a E cs W s) (i : Nat) (hstep : workerTimeout s i = some s1) :
    PlanInv a E cs W s1 := by
  unfold workerTimeout at hstep
  split at hstep
  · rename_i hpc
    split at hstep
    · simp only [Option.some.injEq] at hstep
      subst hstep
      exact plan_setWorker h i _ _ hpc (by simp)
    · cases hstep
  · cases hstep

theorem plan_readerTimeout {a E cs : Int} {W : Nat} {s s1 : Session}
    (h : PlanInv a E cs W s) (hstep : readerTimeout s = some s1) :
    PlanInv a E cs W s1 := by
  unfold readerTimeout at hstep
  split at hstep
  · split at hstep
    · simp only [Option.some.injEq] at hstep
      subst hstep
      exact plan_frame h rfl rfl rfl rfl (Nat.le_refl _)
    · cases hstep
  · split at hstep
    · simp only [Option.some.injEq] at hstep
      subst hstep
      exact plan_frame h rfl rfl rfl rfl (Nat.le_refl _)
    · cases hstep
  · cases hstep

theorem plan_readerStep {a E cs : Int} {W : Nat} {s s1 : Session}
    (h : PlanInv a E cs W s) (hstep : readerStep s = some s1) :
    PlanInv a E cs W s1 := by
  unfold readerStep at hstep
  split at hstep
  · split at hstep <;>
    · simp only [Option.some.injEq] at hstep
      subst hstep
      exact plan_frame h rfl rfl rfl rfl (Nat.le_refl _)
  · split at hstep
    · cases hstep
    · simp only [Option.some.injEq] at hstep
      subst hstep
      exact plan_frame h rfl rfl rfl rfl (Nat.le_refl _)
  · split at hstep <;>
    · simp only [Option.some.injEq] at hstep
      subst hstep
      exact plan_frame h rfl rfl rfl rfl (Nat.le_refl _)
  · split at hstep
    · cases hstep
    · dsimp only at hstep
      split at hstep <;>
      · simp only [Option.some.injEq] at hstep
        subst hstep
        exact plan_frame h rfl rfl rfl rfl (Nat.le_refl _)
  · simp only [Option.some.injEq] at hstep
    subst hstep
    exact plan_frame h rfl rfl rfl rfl (Nat.le_refl _)
  · dsimp only at hstep
    split at hstep <;>
    · simp only [Option.some.injEq] at hstep
      subst hstep
      exact plan_frame h rfl rfl rfl rfl (Nat.le_refl _)
  · split at hstep <;>
    · simp only [Option.some.injEq] at hstep
      subst hstep
      exact plan_frame h rfl rfl rfl rfl (Nat.le_refl _)
  · simp only [Option.some.injEq] at hstep
    subst hstep
    exact plan_frame h rfl rfl rfl rfl (Nat.le_refl _)
  · cases hd : drainOne s with
    | none => simp [hd] at hstep
    | some s2 =>
      simp only [hd, Option.some.injEq] at hstep
      subst hstep
      have h2 := plan_drainOne h hd
      exact plan_frame h2.1 rfl rfl rfl rfl (Nat.le_refl _)
  · simp only [Option.some.injEq] at hstep
    subst hstep
    exact plan_frame h rfl rfl rfl rfl (Nat.le_refl _)
  · simp only [Option.some.injEq] at hstep
    subst hstep
    exact plan_frame h rfl rfl rfl rfl (Nat.le_refl _)
  · cases hstep

theorem plan_step {a E cs : Int} {W : Nat} {s s1 : Session} (hp : PlanParams a E cs W)
    (h : PlanInv a E cs W s) (act : Action) (hstep : step s act = some s1) :
    PlanInv a E cs W s1 := by
  cases act with
  | worker i => exact plan_ProxyWorker hp h i hstep
  | fetchReply i r => exact plan_fetchReply h i r hstep
  | workerTimeout i => exact plan_workerTimeout h i hstep
  | reader => exact plan_readerStep h hstep
  | readerTimeout => exact plan_readerTimeout h hstep
  | clientClose =>
    simp only [step, Option.some.injEq] at hstep
    subst hstep
    exact plan_frame h rfl rfl rfl rfl (Nat.le_refl _)

theorem plan_run {a E cs : Int} {W : Nat} (hp : PlanParams a E cs W) (acts : List Action) :
    ∀ (s s1 : Session), PlanInv a E cs W s → run s acts = some s1 → PlanInv a E cs W s1 := by
  induction acts with
  | nil =>
    intro s s1 h hrun
    simp only [run, Option.some.injEq] at hrun
    subst hrun
    exact h
  | cons act rest ih =>
    intro s s1 h hrun
    simp only [run] at hrun
    cases hs : step s act with
    | none => simp [hs] at hrun
    | some s2 =>
      simp only [hs] at hrun
      exact ih s2 s1 (plan_step hp h act hs) hrun

theorem concurrentDownload_plan (a E fileSize cs T : Int) (em : Emitter (List (List Byte)))
    (s0 : Session) (hcs : 1 ≤ cs) (hcs2 : cs < 9223372036854775808)
    (hinit : ConcurrentDownload a E fileSize cs T em = some s0) :
    PlanInv a E cs s0.workers.length s0 := by
  have hne : cs ≠ 0 := by omega
  have hM : 0 ≤ (134217728 : Int) / cs := Int.ediv_nonneg (by decide) (by omega)
  have htd : Int.tdiv (128 * 1024 * 1024) cs = 134217728 / cs := by
    rw [Int.tdiv_eq_ediv (by decide) (by omega)]
    rfl
  have hMle : (134217728 : Int) / cs ≤ 134217728 := Int.ediv_le_self _ (by decide)
  have hw : wrap64 (134217728 / cs) = 134217728 / cs := wrap64_id _ (by omega) (by omega)
  simp only [ConcurrentDownload, divInt64, hne, if_false, htd, hw, newProxyDownloadStruct,
    show ¬ ((134217728 : Int) / cs < 0) from by omega, Option.some.injEq] at hinit
  subst hinit
  exact
    { hcs := rfl
      hE := rfl
      hplan := by
        refine ⟨0, by simp, by simp [Session.planned], ?_⟩
        simp only [live_replicate, List.length_replicate]
        omega
      hchunk := by intro j x y hj; simp [Session.planned] at hj }

/-- The offsets of an allocated chunk, from the invariant of the planner. -/
theorem plan_chunk {a E cs : Int} {W : Nat} {s : Session} (hp : PlanParams a E cs W)
    (h : PlanInv a E cs W s) (j : Nat) (ch : Chunk) (hj : s.chunks[j]? = some ch) :
    j < chunkCount a E cs ∧ a + (j : Int) * cs ≤ E ∧ ch.startOffset = a + (j : Int) * cs ∧
      ch.endOffset = min (a + (j : Int) * cs + cs - 1) E := by
  obtain ⟨m, _, hm2, _⟩ := h.hplan
  have hlen : s.planned.length = s.chunks.length := by simp [Session.planned]
  have hjlt : j < s.chunks.length := by
    rcases Nat.lt_or_ge j s.chunks.length with hlt | hge
    · exact hlt
    · have : s.chunks[j]? = none := List.getElem?_eq_none_iff.2 hge
      rw [this] at hj
      cases hj
  have hjN : j < chunkCount a E cs := by omega
  have hpl : s.planned[j]? = some (ch.startOffset, ch.endOffset) := by
    simp [Session.planned, List.getElem?_map, hj]
  have := h.hchunk j _ _ hpl
  exact ⟨hjN, (lt_chunkCount_iff hp j).1 hjN, this.1, this.2⟩

set_option maxRecDepth 8000 in
/-- C12 (as stated, refuted): for the range 2..100 and the chunk size
`2^63 - 1`, the first critical section of the planner computes the end
`2 + (2^63 - 1) - 1`, which wraps to `-2^63`: the chunk it allocates and sends
has the offsets 2 and `-2^63`, its start is above its end and it does not end
at 100. (The channel has no buffer for this chunk size, so the worker sends
once `ConcurrentDownload` waits in the receive of `ProxyRead`.) -/
theorem C12_counterexample :
    ((ConcurrentDownload 2 100 101 9223372036854775807 1 (NewEmitter [])).bind
      (fun s0 => run s0 [.reader, .worker 0, .worker 0])).map (fun s => s.chunks)
      = some [{ startOffset := 2, endOffset := -9223372036854775808, buffer := [] }] ∧
    ¬ ((2 : Int) ≤ -9223372036854775808) := by
  refine ⟨by decide, by decide⟩

/-- C12 (amended): for `0 <= rangeStart <= rangeEnd`, a chunk size of at least
1 and `numTasks >= 0` with `rangeEnd + (numTasks + 1) * splitSize < 2^63` (no
offset the planner computes leaves `int64`), in a session started by
`ConcurrentDownload`, after any schedule of steps of the workers, replies of
the upstream, timers and steps of `ConcurrentDownload`: chunk `j` in the order
of allocation starts at `rangeStart + j * splitSize` (the first at
`rangeStart`), has `start <= end <= rangeEnd` and the length
`min(splitSize, rangeEnd - start + 1)`; each later chunk starts at the end of
the chunk before it plus 1; there are at most `⌈(rangeEnd - rangeStart + 1) /
splitSize⌉` chunks, a chunk ends at `rangeEnd` exactly when it is the last of
that many, and `NextChunkStartOffset` is above `rangeEnd` (the planner
allocates no more chunks) exactly when that many are allocated; the queue holds
the chunks allocated last, in the order of allocation; when the chunk size
divides the length of the range every chunk has the length `splitSize`; and
when `rangeStart = rangeEnd` there is one chunk to plan, and it has length 1. -/
theorem C12_contiguous_partition (a E fileSize cs T : Int) (em : Emitter (List (List Byte)))
    (s0 s : Session) (acts : List Action)
    (ha : 0 ≤ a) (haE : a ≤ E) (hcs : 1 ≤ cs) (hT : 0 ≤ T)
    (hno : E + (T + 1) * cs < 9223372036854775808)
    (hinit : ConcurrentDownload a E fileSize cs T em = some s0)
    (hrun : run s0 acts = some s) :
    (∀ (j : Nat) (ch : Chunk), s.chunks[j]? = some ch →
      ch.startOffset = a + (j : Int) * cs ∧ ch.startOffset ≤ ch.endOffset ∧ ch.endOffset ≤ E ∧
      ch.endOffset - ch.startOffset + 1 = min cs (E - ch.startOffset + 1) ∧
      (ch.endOffset = E ↔ j + 1 = chunkCount a E cs)) ∧
    (∀ (ch : Chunk), s.chunks[0]? = some ch → ch.startOffset = a) ∧
    (∀ (j : Nat) (ch ch1 : Chunk), s.chunks[j]? = some ch → s.chunks[j + 1]? = some ch1 →
      ch1.startOffset = ch.endOffset + 1 ∧ ch.startOffset < ch1.startOffset) ∧
    s.chunks.length ≤ chunkCount a E cs ∧
    (E < s.p.NextChunkStartOffset ↔ s.chunks.length = chunkCount a E cs) ∧
    s.p.ReadyChunkQueue =
      List.range' (s.chunks.length - s.p.ReadyChunkQueue.length) s.p.ReadyChunkQueue.length ∧
    ((E - a + 1) % cs = 0 → ∀ (j : Nat) (ch : Chunk), s.chunks[j]? = some ch →
      ch.endOffset - ch.startOffset + 1 = cs) ∧
    (a = E → chunkCount a E cs = 1 ∧ ∀ (j : Nat) (ch : Chunk), s.chunks[j]? = some ch →
      j = 0 ∧ ch.startOffset = a ∧ ch.endOffset = a) := by
  have hmulT : 1 * cs ≤ (T + 1) * cs := Int.mul_le_mul_of_nonneg_right (by omega) (by omega)
  have hcs2 : cs < 9223372036854775808 := by omega
  have hW := concurrentDownload_workers a E fileSize cs T em s0 hcs hcs2 hinit
  have hWT : (s0.workers.length : Int) ≤ T := by
    rw [hW]
    split <;> omega
  have hmulW : ((s0.workers.length : Int) + 1) * cs ≤ (T + 1) * cs :=
    Int.mul_le_mul_of_nonneg_right (by omega) (by omega)
  have hp : PlanParams a E cs s0.workers.length :=
    { a_nonneg := ha, a_le := haE, cs_pos := hcs, no_wrap := by omega }
  have h := plan_run hp acts s0 s
    (concurrentDownload_plan a E fileSize cs T em s0 hcs hcs2 hinit) hrun
  have hq := inv_run (params_of_chunkSize cs hcs hcs2) acts
    (concurrentDownload_inv a E fileSize cs T em s0 hcs hcs2 (by omega) (by omega) hinit) hrun
  have hN := chunkCount_eq hp
  have hlen : s.planned.length = s.chunks.length := by simp [Session.planned]
  obtain ⟨m, hm1, hm2, hm3⟩ := h.hplan
  refine ⟨?_, ?_, ?_, by omega, ?_, hq.hqueue, ?_, ?_⟩
  · intro j ch hj
    obtain ⟨hjN, hjE, hst, hen⟩ := plan_chunk hp h j ch hj
    have hiff := lt_chunkCount_iff hp (j + 1)
    have hexp : ((j + 1 : Nat) : Int) * cs = (j : Int) * cs + cs := by
      push_cast
      ring
    rw [hexp] at hiff
    rw [hst, hen]
    refine ⟨rfl, by omega, by omega, by omega, ?_⟩
    constructor
    · intro heq
      have : ¬ (j + 1 < chunkCount a E cs) := fun hlt => by
        have := hiff.1 hlt
        omega
      omega
    · intro heq
      have : ¬ (a + ((j : Int) * cs + cs) ≤ E) := fun hle => by
        have := hiff.2 hle
        omega
      omega
  · intro ch hj
    have := (plan_chunk hp h 0 ch hj).2.2.1
    simpa using this
  · intro j ch ch1 hj hj1
    obtain ⟨_, _, hst, hen⟩ := plan_chunk hp h j ch hj
    obtain ⟨_, hjE1, hst1, _⟩ := plan_chunk hp h (j + 1) ch1 hj1
    have hexp : ((j + 1 : Nat) : Int) * cs = (j : Int) * cs + cs := by
      push_cast
      ring
    rw [hexp] at hst1 hjE1
    rw [hst, hen, hst1]
    constructor <;> omega
  · have hiff := lt_chunkCount_iff hp m
    rw [hm1]
    constructor
    · intro hgt
      have : ¬ m < chunkCount a E cs := fun hlt => by
        have := hiff.1 hlt
        omega
      omega
    · intro heq
      have : ¬ (a + (m : Int) * cs ≤ E) := fun hle => by
        have := hiff.2 hle
        omega
      omega
  · intro hdvd j ch hj
    obtain ⟨hjN, _, hst, hen⟩ := plan_chunk hp h j ch hj
    have hNd : (chunkCount a E cs : Int) = (E - a + 1) / cs := by
      unfold chunkCount
      rw [ceilDiv_of_dvd _ _ hcs hdvd]
      have : 0 ≤ (E - a + 1) / cs := Int.ediv_nonneg (by omega) (by omega)
      omega
    have hle : ((j : Int) + 1) * cs ≤ E - a + 1 :=
      (Int.le_ediv_iff_mul_le (show 0 < cs by omega)).1 (by omega)
    have hexp : ((j : Int) + 1) * cs = (j : Int) * cs + cs := by ring
    rw [hst, hen]
    omega
  · intro haE1
    subst haE1
    have h1 : chunkCount a a cs = 1 := by
      have : (0 : Int) / cs = 0 := Int.zero_ediv cs
      rw [show a - a = 0 by omega, this] at hN
      omega
    refine ⟨h1, ?_⟩
    intro j ch hj
    obtain ⟨hjN, _, hst, hen⟩ := plan_chunk hp h j ch hj
    have hj0 : j = 0 := by omega
    subst hj0
    have hz : a + ((0 : Nat) : Int) * cs = a := by simp
    rw [hst, hen, hz]
    exact ⟨rfl, rfl, by omega⟩

/-- C12 (amended), for one worker that has planned and fetched both chunks of
the range 0..2 with the chunk size 2: the chunks 0..1 and 2..2. -/
theorem C12_contiguous_partition_witness :
    exampleBuffering.chunks.map (fun ch => (ch.startOffset, ch.endOffset)) = [(0, 1), (2, 2)] ∧
    chunkCount 0 2 2 = 2 ∧
    ((2 : Int) < exampleBuffering.p.NextChunkStartOffset
      ↔ exampleBuffering.chunks.length = chunkCount 0 2 2) :=
  ⟨by decide, by decide,
   (C12_contiguous_partition 0 2 3 2 1 (NewEmitter []) exampleSession exampleBuffering
      bufferingSchedule (by decide) (by decide) (by decide) (by decide) (by decide) (by decide)
      (by decide)).2.2.2.2.1⟩

/-! ### C13: the number of workers -/

/-- C13 (as stated, refuted): for the range 0..3, chunk size 2 and 3 workers
asked for, `ConcurrentDownload` starts 3 workers, and there are
`⌈4 / 2⌉ = 2` chunks to plan. -/
theorem C13_counterexample :
    (ConcurrentDownload 0 3 4 2 3 (NewEmitter [])).map (fun s => s.workers.length) = some 3 ∧
    ceilDiv (3 - 0 + 1) 2 = 2 := by
  refine ⟨by decide, by decide⟩

/-- C13 (amended): for `0 <= rangeStart <= rangeEnd`, a chunk size of at least
1 and at least one task, the number of workers `ConcurrentDownload` starts is
at most `numTasks` and at most `⌊(rangeEnd - rangeStart + 1) / splitSize⌋ + 1`,
and it is the smaller of the two when the length of the range is below
`2^63 - 1`.
So it is at most the number of chunks `⌈(rangeEnd - rangeStart + 1) /
splitSize⌉` plus one, and at most the number of chunks when the chunk size
does not divide the length of the range. -/
theorem C13_workers_bound (a E fileSize cs W : Int) (em : Emitter (List (List Byte)))
    (s0 : Session) (ha : 0 ≤ a) (haE : a ≤ E) (hE : E < 9223372036854775808)
    (hcs : 1 ≤ cs) (hcs2 : cs < 9223372036854775808) (hW : 1 ≤ W)
    (hinit : ConcurrentDownload a E fileSize cs W em = some s0) :
    (s0.workers.length : Int) ≤ W ∧
    (s0.workers.length : Int) ≤ (E - a + 1) / cs + 1 ∧
    (E - a + 1 < 9223372036854775807 →
      (s0.workers.length : Int) = min W ((E - a + 1) / cs + 1)) ∧
    (s0.workers.length : Int) ≤ ceilDiv (E - a + 1) cs + 1 ∧
    ((E - a + 1) % cs ≠ 0 → (s0.workers.length : Int) ≤ ceilDiv (E - a + 1) cs) ∧
    ((E - a + 1) % cs = 0 → (E - a + 1) / cs + 1 = ceilDiv (E - a + 1) cs + 1) := by
  have hlen := concurrentDownload_workers a E fileSize cs W em s0 hcs hcs2 hinit
  have hq0 : 0 ≤ (E - a + 1) / cs := Int.ediv_nonneg (by omega) (by omega)
  have hqle : (E - a + 1) / cs ≤ E - a + 1 := Int.ediv_le_self _ (by omega)
  have hmain : (s0.workers.length : Int) ≤ W ∧
      (s0.workers.length : Int) ≤ (E - a + 1) / cs + 1 ∧
      (E - a + 1 < 9223372036854775807 →
        (s0.workers.length : Int) = min W ((E - a + 1) / cs + 1)) := by
    by_cases hov : E - a + 1 < 9223372036854775808
    · have hw1 : wrap64 (E - a + 1) = E - a + 1 := wrap64_id _ (by omega) hov
      have htd : Int.tdiv (E - a + 1) cs = (E - a + 1) / cs :=
        Int.tdiv_eq_ediv (by omega) (by omega)
      have hw2 : wrap64 ((E - a + 1) / cs) = (E - a + 1) / cs :=
        wrap64_id _ (by omega) (by omega)
      have hw3 : wrap64 ((E - a + 1) / cs + 1) ≤ (E - a + 1) / cs + 1 := by
        unfold wrap64
        omega
      have hw4 : E - a + 1 < 9223372036854775807 →
          wrap64 ((E - a + 1) / cs + 1) = (E - a + 1) / cs + 1 :=
        fun hlt => wrap64_id _ (by omega) (by omega)
      rw [hw1, htd, hw2] at hlen
      rw [hlen]
      refine ⟨?_, ?_, fun hlt => ?_⟩
      · split <;> omega
      · split <;> omega
      · rw [hw4 hlt]
        split <;> omega
    · have hEq : E - a + 1 = 9223372036854775808 := by omega
      have hw1 : wrap64 (E - a + 1) = -9223372036854775808 := by
        rw [hEq]; decide
      have hq : 1 ≤ (9223372036854775808 : Int) / cs :=
        Int.le_ediv_of_mul_le (by omega) (by omega)
      have hq2 : (9223372036854775808 : Int) / cs ≤ 9223372036854775808 :=
        Int.ediv_le_self _ (by decide)
      have htd : Int.tdiv (-9223372036854775808) cs = -((9223372036854775808 : Int) / cs) := by
        rw [show (-9223372036854775808 : Int) = -(9223372036854775808 : Int) from rfl,
          Int.neg_tdiv, Int.tdiv_eq_ediv (by decide) (by omega)]
      have hw2 : wrap64 (-((9223372036854775808 : Int) / cs))
          = -((9223372036854775808 : Int) / cs) := wrap64_id _ (by omega) (by omega)
      have hw3 : wrap64 (-((9223372036854775808 : Int) / cs) + 1)
          = -((9223372036854775808 : Int) / cs) + 1 := wrap64_id _ (by omega) (by omega)
      rw [hw1, htd, hw2, hw3] at hlen
      rw [hlen]
      refine ⟨?_, ?_, fun h => absurd (show E - a + 1 < 9223372036854775808 by omega) hov⟩ <;> split <;> omega
  refine ⟨hmain.1, hmain.2.1, hmain.2.2, ?_, ?_, ?_⟩
  · by_cases hd : (E - a + 1) % cs = 0
    · rw [ceilDiv_of_dvd _ _ hcs hd]
      exact hmain.2.1
    · rw [ceilDiv_of_not_dvd _ _ hcs hd]
      have := hmain.2.1
      omega
  · intro hd
    rw [ceilDiv_of_not_dvd _ _ hcs hd]
    exact hmain.2.1
  · intro hd
    rw [ceilDiv_of_dvd _ _ hcs hd]

/-- C13 (amended), for the range 0..3, chunk size 2 and 3 tasks. -/
theorem C13_workers_bound_witness :
    (exampleSessionThree.workers.length : Int) ≤ ceilDiv (3 - 0 + 1) 2 + 1 :=
  (C13_workers_bound 0 3 4 2 3 (NewEmitter []) exampleSessionThree (by decide) (by decide)
    (by decide) (by decide) (by decide) (by decide) (by decide)).2.2.2.1

/-! ### C14: the retry limit -/

/-- C14: for every chunk the planner can create (`startOffset <= EndOffset`,
`int64` values; no lower bound of `startOffset` is needed) the retry limit of `ProxyWorker` is 7 and no
division by zero is evaluated: below 1048576 the `||` stops at its first
operand, and from 1048576 on `EndOffset` is positive and the quotient
`(EndOffset-startOffset)/EndOffset` is 0. -/
theorem C14_retry_limit (startOffset EndOffset : Int)
    (h1 : startOffset ≤ EndOffset) (h2 : EndOffset < 9223372036854775808) :
    maxRetries startOffset EndOffset = some 7 ∧
    (1048576 ≤ startOffset →
      EndOffset ≠ 0 ∧ divInt64 (wrap64 (EndOffset - startOffset)) EndOffset = some 0) := by
  have hdiv : 1048576 ≤ startOffset →
      EndOffset ≠ 0 ∧ divInt64 (wrap64 (EndOffset - startOffset)) EndOffset = some 0 := by
    intro hge
    have hne : EndOffset ≠ 0 := by omega
    refine ⟨hne, ?_⟩
    have hw : wrap64 (EndOffset - startOffset) = EndOffset - startOffset :=
      wrap64_id _ (by omega) (by omega)
    have ht : Int.tdiv (EndOffset - startOffset) EndOffset = 0 :=
      Int.tdiv_eq_zero_of_lt (by omega) (by omega)
    simp only [divInt64, hne, if_false, hw, ht]
    rfl
  refine ⟨?_, hdiv⟩
  unfold maxRetries
  split
  · rfl
  · rename_i hge
    have := (hdiv (by omega)).2
    rw [this]
    rfl

/-- C14, at the chunk 2000000..2000000 of the range ending at 2000000 and at
the chunk 0..0 of the range 0..0. -/
theorem C14_retry_limit_witness :
    maxRetries 2000000 2000000 = some 7 ∧ maxRetries 0 0 = some 7 :=
  ⟨(C14_retry_limit 2000000 2000000 (by decide) (by decide)).1, by decide⟩

end MediaProxy
